import Mathlib

/-!
CS107 heap allocator (implicit and explicit free list): a shallow embedding

The two C files `implicit.c` and `explicit.c` keep four process-wide variables
(`segment_start`, `segment_size`, `segment_end`, `nused`) and manage the bytes of one
caller-provided segment.  The embedding keeps these four variables and a byte-addressed
memory in one record.  `size_t` and pointer arithmetic are 64-bit: every sum and difference
is reduced modulo `2 ^ 64`.  A header word is stored little-endian in 8 consecutive bytes.

The C files dereference a pointer without testing it, and so does the embedding: memory
is flat, a load or store at any address succeeds, also outside
`[segment_start, segment_start + segment_size)`, with one exception: an access through the
null pointer (address 0, when it is not a byte of the segment) is a fault of the machine
and is reported as `Err.fault`.  Loops take a fuel argument and report `Err.fuel` when it
runs out, so that a result `Except.ok` always stands for a call that really returns.
-/

/-- Size of the machine word: `size_t` and pointers are 64 bits wide. -/
def WORD : Nat := 2 ^ 64

/-- `#define HEADER_SIZE 0x8`. -/
def HEADER_SIZE : Nat := 8

/-- `#define MASKING_BIT 1L`. -/
def MASKING_BIT : Nat := 1

/-- `#define FREE 1`. -/
def FREE : Nat := 1

/-- `#define ALLOCATED 0`. -/
def ALLOCATED : Nat := 0

/-- `#define NODE_POINTER_SIZE 0x8` (explicit.c). -/
def NODE_POINTER_SIZE : Nat := 8

/-- `#define MIN_BLOCK_SIZE 0x18` (explicit.c). -/
def MIN_BLOCK_SIZE : Nat := 24

/-- Modelled from the spec: the constant `ALIGNMENT` of the absent header `allocator.h`;
the spec fixes its value to 8. -/
def ALIGNMENT : Nat := 8

/-- The null pointer. -/
def NULL : Nat := 0

/-- Why a call did not return: an access through the null pointer, or no fuel left. -/
inductive Err where
  | fault : Err
  | fuel : Err
  deriving DecidableEq, Repr

/-- The process-wide state of an allocator: the four static variables and the memory
(one byte per address). -/
structure Heap where
  segment_start : Nat
  segment_size : Nat
  segment_end : Nat
  nused : Nat
  mem : Nat → Nat

/-- 64-bit addition. -/
def add64 (a b : Nat) : Nat := (a + b) % WORD

/-- 64-bit subtraction. -/
def sub64 (a b : Nat) : Nat := (a + (WORD - b % WORD)) % WORD

/-- 64-bit bitwise complement. -/
def not64 (a : Nat) : Nat := WORD - 1 - a % WORD

/-- The little-endian 64-bit word held by the 8 bytes from address `a`. -/
def load64 (m : Nat → Nat) (a : Nat) : Nat :=
  m a % 256 + 256 * (m (a + 1) % 256) + 256 ^ 2 * (m (a + 2) % 256)
    + 256 ^ 3 * (m (a + 3) % 256) + 256 ^ 4 * (m (a + 4) % 256)
    + 256 ^ 5 * (m (a + 5) % 256) + 256 ^ 6 * (m (a + 6) % 256)
    + 256 ^ 7 * (m (a + 7) % 256)

/-- Memory after the 64-bit word `v` is stored little-endian at address `a`. -/
def store64 (m : Nat → Nat) (a v : Nat) : Nat → Nat :=
  fun x => if a ≤ x ∧ x < a + 8 then v / 256 ^ (x - a) % 256 else m x

/-- The word at `p .. p + 8` lies inside the segment owned by the allocator. -/
def inSegment (s : Heap) (p : Nat) : Prop :=
  s.segment_start ≤ p ∧ p + 8 ≤ s.segment_start + s.segment_size

instance (s : Heap) (p : Nat) : Decidable (inSegment s p) := by
  unfold inSegment; exact inferInstance

/-- The `n` bytes from address `p` are memory: they are bytes of the segment, or `p` is not
the null pointer.  (The segment is handed over by the caller, so its bytes are memory
wherever it starts.) -/
def mapped (s : Heap) (p n : Nat) : Prop :=
  (s.segment_start ≤ p ∧ p + n ≤ s.segment_start + s.segment_size) ∨ p ≠ NULL

instance (s : Heap) (p n : Nat) : Decidable (mapped s p n) := by
  unfold mapped; exact inferInstance

/-- Dereference of a `size_t *` / `node_t **` for reading (`*p`): no test of `p` in the C
files; the machine faults on the null pointer. -/
def readWord (s : Heap) (p : Nat) : Except Err Nat :=
  if mapped s p 8 then .ok (load64 s.mem p) else .error Err.fault

/-- Dereference of a `size_t *` / `node_t **` for writing (`*p = v`): no test of `p` in the
C files; the machine faults on the null pointer. -/
def writeWord (s : Heap) (p v : Nat) : Except Err Heap :=
  if mapped s p 8 then .ok { s with mem := store64 s.mem p v } else .error Err.fault

/-- `roundup(num, mult)`: `(num + mult - 1) & ~(mult - 1)`. -/
def roundup (num mult : Nat) : Nat :=
  Nat.land (sub64 (add64 num mult) 1) (not64 (sub64 mult 1))

/-- `is_free(header)`: `*header & MASKING_BIT`, converted to `bool`. -/
def is_free (s : Heap) (header : Nat) : Except Err Bool := do
  let w ← readWord s header
  pure (decide (Nat.land w MASKING_BIT ≠ 0))

/-- `set_header(header, size, status)`: `*header = size; *header |= status`. -/
def set_header (s : Heap) (header size status : Nat) : Except Err Heap := do
  let s1 ← writeWord s header size
  let w ← readWord s1 header
  writeWord s1 header (Nat.lor w status)

/-- `get_size(header)`: `*header & ~MASKING_BIT`. -/
def get_size (s : Heap) (header : Nat) : Except Err Nat := do
  let w ← readWord s header
  pure (Nat.land w (not64 MASKING_BIT))

/-- `header2payload(header)`: `(char *)header + HEADER_SIZE`. -/
def header2payload (header : Nat) : Nat := add64 header HEADER_SIZE

/-- `payload2header(payload)`: `(char *)payload - HEADER_SIZE`. -/
def payload2header (payload : Nat) : Nat := sub64 payload HEADER_SIZE

/-- `next_block(header)`: the header after the payload of `header`, or `NULL` when that
address is not below `segment_end`. -/
def next_block (s : Heap) (header : Nat) : Except Err Nat := do
  let payload_size ← get_size s header
  let next_header_ptr := add64 (header2payload header) payload_size
  pure (if next_header_ptr < s.segment_end then next_header_ptr else NULL)

/-- The loop of `validate_heap` (a `do ... while`): one block per step, accumulating
`num_bytes` and `num_bytes_used`. -/
def validate_loop : Nat → Heap → Nat → Nat → Nat → Except Err (Nat × Nat)
  | 0, _, _, _, _ => .error Err.fuel
  | fuel + 1, s, curr_ptr, num_bytes, num_bytes_used => do
    let block_size ← get_size s curr_ptr
    let fr ← is_free s curr_ptr
    let used1 := if !fr then add64 num_bytes_used block_size else num_bytes_used
    let num_bytes' := add64 num_bytes (add64 HEADER_SIZE block_size)
    let used2 := add64 used1 HEADER_SIZE
    let nxt ← next_block s curr_ptr
    if nxt ≠ NULL then validate_loop fuel s nxt num_bytes' used2
    else pure (num_bytes', used2)

/-- `validate_heap()` (the same text in both files; `printf` and `breakpoint` only report). -/
def validate_heap (fuel : Nat) (s : Heap) : Except Err Bool :=
  if s.nused > s.segment_size then pure false
  else do
    let (num_bytes, num_bytes_used) ← validate_loop fuel s s.segment_start 0 0
    if num_bytes_used ≠ s.nused then pure false
    else if num_bytes ≠ s.segment_size then pure false
    else pure true

/-- `memcpy(dst, src, n)` of the C library: `n` bytes; the bytes copied are those `src`
held before the call.  As for a word, the only fault is the null pointer. -/
def memcpy (s : Heap) (dst src n : Nat) : Except Err Heap :=
  if n = 0 then .ok s
  else if mapped s dst n ∧ mapped s src n then
    .ok { s with mem := fun x => if dst ≤ x ∧ x < dst + n then s.mem (src + (x - dst))
                                  else s.mem x }
  else .error Err.fault

namespace Implicit

/-- `fit_block(needed, &starting_ptr)`: first-fit walk; returns the flag, the final value
of `*starting_ptr` and the state. -/
def fit_block : Nat → Nat → Nat → Heap → Except Err (Bool × Nat × Heap)
  | 0, _, _, _ => .error Err.fuel
  | fuel + 1, needed, starting_ptr, s =>
    if starting_ptr = NULL then pure (false, starting_ptr, s)
    else do
      let block_size ← get_size s starting_ptr
      let perfect_match := decide (needed = block_size)
      let not_perfect_match := decide (add64 needed (2 * HEADER_SIZE) ≤ block_size)
      let fr ← is_free s starting_ptr
      if fr && (perfect_match || not_perfect_match) then do
        let s1 ← set_header s starting_ptr needed ALLOCATED
        let s2 := { s1 with nused := add64 s1.nused needed }
        if not_perfect_match then do
          let new_header := add64 (header2payload starting_ptr) needed
          let new_header_size := sub64 block_size (add64 needed HEADER_SIZE)
          let s3 ← set_header s2 new_header new_header_size FREE
          pure (true, starting_ptr, { s3 with nused := add64 s3.nused HEADER_SIZE })
        else pure (true, starting_ptr, s2)
      else do
        let nxt ← next_block s starting_ptr
        fit_block fuel needed nxt s

/-- `myinit(heap_start, heap_size)`. -/
def myinit (s : Heap) (heap_start heap_size : Nat) : Except Err (Bool × Heap) :=
  let s1 : Heap := { s with segment_start := heap_start, segment_size := heap_size,
                            segment_end := add64 heap_start heap_size }
  let remaining_space := sub64 s1.segment_size HEADER_SIZE
  if remaining_space < HEADER_SIZE then pure (false, s1)
  else do
    let s2 ← set_header s1 s1.segment_start remaining_space FREE
    pure (true, { s2 with nused := HEADER_SIZE })

/-- `mymalloc(requested_size)`; `MAX_REQUEST_SIZE` is a constant of the absent header
`allocator.h` and is a parameter here. -/
def mymalloc (MAX_REQUEST_SIZE : Nat) (fuel : Nat) (s : Heap) (requested_size : Nat) :
    Except Err (Nat × Heap) :=
  if requested_size = 0 then pure (NULL, s)
  else if requested_size > MAX_REQUEST_SIZE then pure (NULL, s)
  else
    let needed := roundup requested_size ALIGNMENT
    let internal_num_bytes := add64 HEADER_SIZE needed
    if add64 s.nused internal_num_bytes > s.segment_size then pure (NULL, s)
    else do
      let (node_fitted, curr_ptr, s1) ← fit_block fuel needed s.segment_start s
      if !node_fitted then do
        let next_header_ptr ← next_block s1 curr_ptr
        let remaining_space := sub64 s1.segment_size s1.nused
        let s2 ← set_header s1 next_header_ptr remaining_space FREE
        pure (header2payload curr_ptr, { s2 with nused := add64 s2.nused HEADER_SIZE })
      else pure (header2payload curr_ptr, s1)

/-- `myfree(ptr)`. -/
def myfree (s : Heap) (ptr : Nat) : Except Err Heap :=
  if ptr = NULL then pure s
  else do
    let header_ptr := payload2header ptr
    let fr ← is_free s header_ptr
    if !fr then do
      let next_block_ptr ← next_block s header_ptr
      let curr_block_size ← get_size s header_ptr
      let nfr ← is_free s next_block_ptr
      if nfr then do
        let next_block_size ← get_size s next_block_ptr
        let new_size := add64 (add64 curr_block_size HEADER_SIZE) next_block_size
        let s1 ← set_header s header_ptr new_size FREE
        pure { s1 with nused := sub64 s1.nused (add64 HEADER_SIZE curr_block_size) }
      else do
        let s1 ← set_header s header_ptr curr_block_size FREE
        pure { s1 with nused := sub64 s1.nused curr_block_size }
    else pure s

/-- `myrealloc(old_ptr, new_size)`. -/
def myrealloc (MAX_REQUEST_SIZE : Nat) (fuel : Nat) (s : Heap) (old_ptr new_size : Nat) :
    Except Err (Nat × Heap) := do
  let (new_ptr, s1) ← mymalloc MAX_REQUEST_SIZE fuel s new_size
  if old_ptr = NULL then pure (new_ptr, s1)
  else do
    let s2 ← if new_size ≠ 0 then memcpy s1 new_ptr old_ptr new_size else pure s1
    let s3 ← myfree s2 old_ptr
    pure (new_ptr, s3)

end Implicit

namespace Explicit

/-- Address of the field `next` of a `struct node` (`prev` is at offset 0). -/
def next_field (node : Nat) : Nat := add64 node NODE_POINTER_SIZE

/-- `find_free_block(start)`: the first free block at or after `start`, or `NULL`. -/
def find_free_block : Nat → Heap → Nat → Except Err Nat
  | 0, _, _ => .error Err.fuel
  | fuel + 1, s, start =>
    if start = NULL then pure start
    else do
      let fr ← is_free s start
      if !fr then do
        let nxt ← next_block s start
        find_free_block fuel s nxt
      else pure start

/-- The loop of `count_free_blocks`: follow `next` until `NULL`; `block_count` is an
`int`, kept modulo `2 ^ 32`. -/
def count_nodes : Nat → Heap → Nat → Nat → Except Err Nat
  | 0, _, _, _ => .error Err.fuel
  | fuel + 1, s, free_block_node, block_count =>
    if free_block_node = NULL then pure block_count
    else do
      let nxt ← readWord s (next_field free_block_node)
      count_nodes fuel s nxt ((block_count + 1) % 2 ^ 32)

/-- `count_free_blocks(start)`; the `int` count is returned as a `size_t`. -/
def count_free_blocks (fuel : Nat) (s : Heap) (start : Nat) : Except Err Nat := do
  let free_block_header ← find_free_block fuel s start
  if free_block_header = NULL then pure 0
  else do
    let c ← count_nodes fuel s (header2payload free_block_header) 0
    pure (if c < 2 ^ 31 then c else c + (WORD - 2 ^ 32))

/-- The loop `while (first_free_block_node->next != NULL)` of `add_free_block`. -/
def last_node : Nat → Heap → Nat → Except Err Nat
  | 0, _, _ => .error Err.fuel
  | fuel + 1, s, first_free_block_node => do
    let nxt ← readWord s (next_field first_free_block_node)
    if nxt ≠ NULL then last_node fuel s nxt else pure first_free_block_node

/-- `add_free_block(free_block_node)`. -/
def add_free_block (fuel : Nat) (s : Heap) (free_block_node : Nat) : Except Err Heap := do
  let c ← count_free_blocks fuel s s.segment_start
  if c = 0 then do
    let s1 ← writeWord s free_block_node NULL
    writeWord s1 (next_field free_block_node) NULL
  else do
    let free_block_header := payload2header free_block_node
    let next_free_block_header ← find_free_block fuel s free_block_header
    if next_free_block_header = NULL then do
      let first_free_block_header ← find_free_block fuel s s.segment_start
      let first_free_block_node ← last_node fuel s (header2payload first_free_block_header)
      let s1 ← writeWord s free_block_node first_free_block_node
      let s2 ← writeWord s1 (next_field free_block_node) NULL
      writeWord s2 (next_field first_free_block_node) free_block_node
    else do
      let next_free_block_node := header2payload next_free_block_header
      let prev ← readWord s next_free_block_node
      if prev = NULL then do
        let s1 ← writeWord s free_block_node NULL
        let s2 ← writeWord s1 (next_field free_block_node) next_free_block_node
        writeWord s2 next_free_block_node free_block_node
      else do
        let s1 ← writeWord s free_block_node prev
        let s2 ← writeWord s1 (next_field free_block_node) next_free_block_node
        let prev2 ← readWord s2 next_free_block_node
        let s3 ← writeWord s2 (next_field prev2) free_block_node
        writeWord s3 next_free_block_node free_block_node

/-- `detach_free_block(free_payload)`. -/
def detach_free_block (s : Heap) (free_payload : Nat) : Except Err Heap := do
  let prev ← readWord s free_payload
  let next ← readWord s (next_field free_payload)
  let s1 ← if prev ≠ NULL then writeWord s (next_field prev) next else pure s
  if next ≠ NULL then writeWord s1 next prev else pure s1

/-- `split_block(free_block_header, needed, block_size)`: returns the new node. -/
def split_block (s : Heap) (free_block_header needed block_size : Nat) :
    Except Err (Nat × Heap) := do
  let free_block_node := header2payload free_block_header
  let s1 ← set_header s free_block_header needed ALLOCATED
  let s2 := { s1 with nused := add64 s1.nused needed }
  let new_free_block_header := add64 free_block_node needed
  let new_free_block_node := header2payload new_free_block_header
  let new_free_block_size := sub64 (sub64 block_size HEADER_SIZE) needed
  let s3 ← set_header s2 new_free_block_header new_free_block_size ALLOCATED
  pure (new_free_block_node, { s3 with nused := add64 s3.nused HEADER_SIZE })

/-- `myinit(heap_start, heap_size)`. -/
def myinit (s : Heap) (heap_start heap_size : Nat) : Except Err (Bool × Heap) :=
  let s1 : Heap := { s with segment_start := heap_start, segment_size := heap_size,
                            segment_end := add64 heap_start heap_size }
  if heap_size < MIN_BLOCK_SIZE then pure (false, s1)
  else do
    let remaining_space := sub64 s1.segment_size HEADER_SIZE
    let s2 ← set_header s1 s1.segment_start remaining_space FREE
    let free_node := header2payload s1.segment_start
    let s3 ← writeWord s2 free_node NULL
    let s4 ← writeWord s3 (next_field free_node) NULL
    pure (true, { s4 with nused := HEADER_SIZE })

/-- The `while (free_block_node != NULL)` loop of `mymalloc`; `inner` is the fuel of the
loops of `add_free_block`.  Returns the final `free_block_header`. -/
def malloc_loop (inner : Nat) : Nat → Heap → Nat → Nat → Nat → Except Err (Nat × Heap)
  | 0, _, _, _, _ => .error Err.fuel
  | fuel + 1, s, needed, free_block_header, free_block_node =>
    if free_block_node = NULL then pure (free_block_header, s)
    else do
      let free_block_header := payload2header free_block_node
      let free_block_size ← get_size s free_block_header
      let s' ←
        if needed = free_block_size then do
          let s1 ← detach_free_block s free_block_node
          let s2 ← set_header s1 free_block_header needed ALLOCATED
          pure { s2 with nused := add64 s2.nused needed }
        else if add64 needed MIN_BLOCK_SIZE ≤ free_block_size then do
          let s1 ← detach_free_block s free_block_node
          let (new_free_block_node, s2) ← split_block s1 free_block_header needed
            free_block_size
          let new_free_block_header := payload2header new_free_block_node
          let s3 ← add_free_block inner s2 new_free_block_node
          let sz ← get_size s3 new_free_block_header
          set_header s3 new_free_block_header sz FREE
        else pure s
      let nxt ← readWord s' (next_field free_block_node)
      malloc_loop inner fuel s' needed free_block_header nxt

/-- `mymalloc(requested_size)` of explicit.c (it has no `MAX_REQUEST_SIZE` test). -/
def mymalloc (fuel : Nat) (s : Heap) (requested_size : Nat) : Except Err (Nat × Heap) :=
  if requested_size = 0 then pure (NULL, s)
  else
    let needed0 := roundup requested_size ALIGNMENT
    let needed := if needed0 < 2 * NODE_POINTER_SIZE then 2 * NODE_POINTER_SIZE else needed0
    let internal_num_bytes := add64 HEADER_SIZE needed
    if add64 s.nused internal_num_bytes > s.segment_size then pure (NULL, s)
    else do
      let free_block_header ← find_free_block fuel s s.segment_start
      let free_block_node := header2payload free_block_header
      let (last_header, s1) ← malloc_loop fuel fuel s needed free_block_header
        free_block_node
      pure (header2payload last_header, s1)

/-- `myfree(ptr)` of explicit.c. -/
def myfree (fuel : Nat) (s : Heap) (ptr : Nat) : Except Err Heap :=
  if ptr = NULL then pure s
  else do
    let block_header := payload2header ptr
    let block_node := ptr
    let fr ← is_free s block_header
    if !fr then do
      let next_block_header ← next_block s block_header
      let next_block_node := header2payload next_block_header
      let block_size ← get_size s block_header
      let nfr ← is_free s next_block_header
      if nfr then do
        let next_size ← get_size s next_block_header
        let coalesce_block_size := add64 (add64 block_size HEADER_SIZE) next_size
        let s1 ← detach_free_block s next_block_node
        let nn ← readWord s1 (next_field next_block_node)
        let s2 ← writeWord s1 block_node nn
        let np ← readWord s2 next_block_node
        let s3 ← writeWord s2 (next_field block_node) np
        let s4 ← set_header s3 block_header coalesce_block_size ALLOCATED
        let s5 ← add_free_block fuel s4 block_node
        let s6 ← set_header s5 block_header coalesce_block_size FREE
        pure { s6 with nused := sub64 s6.nused (add64 HEADER_SIZE block_size) }
      else do
        let s1 ← set_header s block_header block_size ALLOCATED
        let s2 ← add_free_block fuel s1 block_node
        let s3 ← set_header s2 block_header block_size FREE
        pure { s3 with nused := sub64 s3.nused block_size }
    else pure s

/-- `myrealloc(old_ptr, new_size)` of explicit.c. -/
def myrealloc (fuel : Nat) (s : Heap) (old_ptr new_size : Nat) : Except Err (Nat × Heap) := do
  let (new_ptr, s1) ← mymalloc fuel s new_size
  if old_ptr = NULL then pure (new_ptr, s1)
  else do
    let s2 ← if new_size ≠ 0 then memcpy s1 new_ptr old_ptr new_size else pure s1
    let s3 ← myfree fuel s2 old_ptr
    pure (new_ptr, s3)

end Explicit

/-! ## Auxiliary definitions: block lists, invariants, reachability, scenarios -/

/-- Memory after `set_header`: the two stores of its body. -/
def setHdrMem (m : Nat → Nat) (a size status : Nat) : Nat → Nat :=
  store64 (store64 m a size) a (Nat.lor (size % WORD) status)

/-- A block as its header describes it: payload size and free flag. -/
abbrev Block := Nat × Bool

/-- The header word of a block. -/
def hdrWord (b : Block) : Nat := b.1 + (if b.2 then FREE else ALLOCATED)

/-- Bytes covered by a list of consecutive blocks: header and payload of each. -/
def total : List Block → Nat
  | [] => 0
  | b :: L => 8 + b.1 + total L

/-- Bytes in use: every header, and the payload of every allocated block. -/
def usedOf : List Block → Nat
  | [] => 0
  | b :: L => 8 + (if b.2 then 0 else b.1) + usedOf L

/-- The headers stored from address `a` on are those of the blocks of the list. -/
def Tiles (m : Nat → Nat) : Nat → List Block → Prop
  | _, [] => True
  | a, b :: L => load64 m a = hdrWord b ∧ Tiles m (a + 8 + b.1) L

/-- Payload addresses of the allocated blocks of a list that starts at address `a`. -/
def allocPtrs : Nat → List Block → List Nat
  | _, [] => []
  | a, b :: L => if b.2 then allocPtrs (a + 8 + b.1) L else (a + 8) :: allocPtrs (a + 8 + b.1) L

/-- Every payload size is a multiple of 8. -/
def WFBlocks (L : List Block) : Prop := ∀ b ∈ L, b.1 % 8 = 0

/-- The static variables describe the segment `[base, base + size)`, which does not
contain the null pointer and does not reach the end of the address space. -/
structure Geom (base size : Nat) (s : Heap) : Prop where
  hstart : s.segment_start = base
  hsize : s.segment_size = size
  hend : s.segment_end = base + size
  hpos : 0 < base
  hbound : base + size < WORD

namespace Implicit

/-- First-fit placement on a block list, as `fit_block` does it: the offset of the chosen
block and the list after the placement. -/
def placeL (needed : Nat) : List Block → Option (Nat × List Block)
  | [] => none
  | b :: L =>
    if b.2 = true ∧ needed + 16 ≤ b.1 then
      some (0, (needed, false) :: (b.1 - needed - 8, true) :: L)
    else if b.2 = true ∧ needed = b.1 then some (0, (needed, false) :: L)
    else (placeL needed L).map (fun r => (8 + b.1 + r.1, b :: r.2))

end Implicit

/-- The heap invariants: the headers from `base` tile the segment exactly with the blocks of
`L`, every payload size is a multiple of 8, and `nused` is the accounting of `L`. -/
structure HeapInv (base size : Nat) (s : Heap) (L : List Block) : Prop where
  geom : Geom base size s
  ne : L ≠ []
  wf : WFBlocks L
  tiles : Tiles s.mem base L
  tot : total L = size
  used : s.nused = usedOf L

namespace Implicit

/-- Payload addresses handed out and not yet freed all belong to allocated blocks. -/
def LiveOk (base : Nat) (L : List Block) (live : List Nat) : Prop :=
  ∀ p ∈ live, p ∈ allocPtrs base L

/-- One call of `mymalloc`, `myfree` or `myrealloc` that returns (with some fuel), on a state
paired with the pointers returned so far and not yet freed.  A pointer argument is null or
one of these pointers. -/
inductive Step (MAX : Nat) : Heap × List Nat → Heap × List Nat → Prop
  | malloc (s s' : Heap) (live : List Nat) (fuel n p : Nat) :
      mymalloc MAX fuel s n = .ok (p, s') →
      Step MAX (s, live) (s', if p = NULL then live else p :: live)
  | free (s s' : Heap) (live : List Nat) (p : Nat) :
      (p = NULL ∨ p ∈ live) → myfree s p = .ok s' →
      Step MAX (s, live) (s', live.filter (fun x => decide (x ≠ p)))
  | realloc (s s' : Heap) (live : List Nat) (fuel old n q : Nat) :
      (old = NULL ∨ old ∈ live) → myrealloc MAX fuel s old n = .ok (q, s') →
      Step MAX (s, live)
        (s', if q = NULL then live.filter (fun x => decide (x ≠ old))
             else q :: live.filter (fun x => decide (x ≠ old)))

/-- States reachable from a successful `myinit(base, size)` on a segment that is 8-byte
aligned, does not contain the null pointer and lies inside the address space, by any
sequence of calls. -/
def Reachable (MAX base size : Nat) (s : Heap) (live : List Nat) : Prop :=
  ∃ s0 s1, base % 8 = 0 ∧ size % 8 = 0 ∧ 0 < base ∧ base + size < WORD ∧
    myinit s0 base size = .ok (true, s1) ∧
    Relation.ReflTransGen (Step MAX) (s1, []) (s, live)

end Implicit

/-- A state before any initialisation: all variables and all bytes zero. -/
def zeroHeap : Heap := ⟨0, 0, 0, 0, fun _ => 0⟩

/-- The state left by a call that returns a value and a state (`zeroHeap` if it does not
return). -/
def stateOf {α : Type} (r : Except Err (α × Heap)) : Heap :=
  match r with
  | .ok (_, s) => s
  | .error _ => zeroHeap

/-- The state left by a call that returns only a state (`zeroHeap` if it does not return). -/
def heapOf (r : Except Err Heap) : Heap :=
  match r with
  | .ok s => s
  | .error _ => zeroHeap

namespace Explicit

/-- The value of the local variable `needed` of `mymalloc` (explicit.c) at the capacity test:
the request rounded up, raised to the size of two node pointers. -/
def neededOf (requested_size : Nat) : Nat :=
  if roundup requested_size ALIGNMENT < 2 * NODE_POINTER_SIZE then 2 * NODE_POINTER_SIZE
  else roundup requested_size ALIGNMENT

/-- Example state (allocate, free, allocate again): a fresh 128-byte heap at 4096. -/
def c9_s0 : Heap := stateOf (myinit zeroHeap 4096 128)

/-- Example state (allocate, free, allocate again): the fresh heap after `mymalloc(24)`. -/
def c9_s1 : Heap := stateOf (mymalloc 64 c9_s0 24)

/-- Scenario of C2: on a fresh 128-byte heap at 4096, four blocks of 16 bytes, then
`free(p1)`, `malloc(24)`, `free(p3)`, then `realloc(p0, 24)`.  Returns `validate_heap` before
the `realloc`, the pointer returned by `realloc`, `nused` and `validate_heap` after it. -/
def c2_run : Except Err (Bool × Nat × Nat × Bool) := do
  let (_, s0) ← myinit zeroHeap 4096 128
  let (p0, s1) ← mymalloc 64 s0 16
  let (p1, s2) ← mymalloc 64 s1 16
  let (_, s3) ← mymalloc 64 s2 16
  let (p3, s4) ← mymalloc 64 s3 16
  let s5 ← myfree 64 s4 p1
  let (_, s6) ← mymalloc 64 s5 24
  let s7 ← myfree 64 s6 p3
  let v7 ← validate_heap 64 s7
  let (q, s8) ← myrealloc 64 s7 p0 24
  let v8 ← validate_heap 64 s8
  pure (v7, q, s8.nused, v8)

/-- Scenario of C3: `mymalloc(2^64 - 1)` on a fresh 128-byte heap.  Returns the pointer and
`nused` before and after. -/
def c3_run : Except Err (Nat × Nat × Nat) := do
  let (_, s0) ← myinit zeroHeap 4096 128
  let (p, s1) ← mymalloc 64 s0 (2 ^ 64 - 1)
  pure (p, s0.nused, s1.nused)

/-- Example state (capacity test): a fresh 128-byte heap after `mymalloc(80)`. -/
def c4_state : Heap := stateOf (mymalloc 64 (stateOf (myinit zeroHeap 4096 128)) 80)

/-- Scenario of C5: on a fresh 120-byte heap, four blocks of 16 bytes, `free(p0)`, then
`malloc(24)`: two free blocks of 16 bytes, the capacity test passes, no block fits.
Returns `validate_heap` and the five header words before the last call, the pointer it
returns, and `nused` before and after it. -/
def c5_run : Except Err (Bool × List Nat × Nat × Nat × Nat) := do
  let (_, s0) ← myinit zeroHeap 4096 120
  let (p0, s1) ← mymalloc 64 s0 16
  let (_, s2) ← mymalloc 64 s1 16
  let (_, s3) ← mymalloc 64 s2 16
  let (_, s4) ← mymalloc 64 s3 16
  let s5 ← myfree 64 s4 p0
  let v ← validate_heap 64 s5
  let (p, s6) ← mymalloc 64 s5 24
  pure (v, [4096, 4120, 4144, 4168, 4192].map (load64 s5.mem), p, s5.nused, s6.nused)

/-- Scenario of C6: `p1 = malloc(16); p2 = malloc(32); free(p1); p3 = malloc(16)` on a fresh
128-byte heap.  Returns `p1`, `p2`, `p3` and the final `nused`. -/
def c6_run : Except Err (Nat × Nat × Nat × Nat) := do
  let (_, s0) ← myinit zeroHeap 4096 128
  let (p1, s1) ← mymalloc 64 s0 16
  let (p2, s2) ← mymalloc 64 s1 32
  let s3 ← myfree 64 s2 p1
  let (p3, s4) ← mymalloc 64 s3 16
  pure (p1, p2, p3, s4.nused)

/-- Scenario of C7: `p = malloc(24); free(p); free(p)`, then `validate_heap` and
`malloc(24)`, on a fresh 128-byte heap.  Returns `p`, the validator and the last pointer. -/
def c7_run : Except Err (Nat × Bool × Nat) := do
  let (_, s0) ← myinit zeroHeap 4096 128
  let (p, s1) ← mymalloc 64 s0 24
  let s2 ← myfree 64 s1 p
  let s3 ← myfree 64 s2 p
  let v ← validate_heap 64 s3
  let (q, _) ← mymalloc 64 s3 24
  pure (p, v, q)

/-- State of the witness of C7: a fresh 128-byte heap after `p = malloc(24); free(p)`. -/
def c7_state : Heap :=
  heapOf (myfree 64 (stateOf (mymalloc 64 (stateOf (myinit zeroHeap 4096 128)) 24)) 4104)

/-- Memory before `myinit` in the scenario of C10: zero except two words. -/
def c10_mem : Nat → Nat := store64 (store64 (fun _ => 0) 4432 1) 4448 4359

/-- Scenario of C10: segment of 4448 bytes at address 8; blocks of 32, 16, 4272, 16 and 72
bytes, the second and the fourth free; then `mymalloc(2^64 - 23)`.  Returns
`validate_heap` and the five header words before the last call, and the pointer the last
call returns. -/
def c10_run : Except Err (Bool × List Nat × Nat) := do
  let (_, s0) ← myinit ⟨0, 0, 0, 0, c10_mem⟩ 8 4448
  let (_, s1) ← mymalloc 64 s0 32
  let (p1, s2) ← mymalloc 64 s1 16
  let (_, s3) ← mymalloc 64 s2 4272
  let (p3, s4) ← mymalloc 64 s3 16
  let s5 ← myfree 64 s4 p1
  let (_, s6) ← mymalloc 64 s5 72
  let s7 ← myfree 64 s6 p3
  let v ← validate_heap 64 s7
  let (p, _) ← mymalloc 64 s7 (2 ^ 64 - 23)
  pure (v, [8, 48, 72, 4352, 4376].map (load64 s7.mem), p)

end Explicit

namespace Implicit

/-- First state of the reachability example: a fresh 128-byte heap at 4096. -/
def c1_s0 : Heap := stateOf (myinit zeroHeap 4096 128)

/-- Second state of the reachability example: after `mymalloc(16)`. -/
def c1_s1 : Heap := stateOf (mymalloc (2 ^ 30) 64 c1_s0 16)

/-- Third state of the reachability example: after `myrealloc(4104, 40)`. -/
def c1_s2 : Heap := stateOf (myrealloc (2 ^ 30) 64 c1_s1 4104 40)

/-- Example state (allocate, free, allocate again): the fresh 128-byte heap at 4096 after
`mymalloc(24)`. -/
def c9_s1 : Heap := stateOf (mymalloc (2 ^ 30) 64 c1_s0 24)

/-- Example state (capacity test): a fresh 128-byte heap after `mymalloc(80)`. -/
def c4_state : Heap := stateOf (mymalloc (2 ^ 30) 64 (stateOf (myinit zeroHeap 4096 128)) 80)

/-- Scenario of C5 for the implicit allocator, up to the last call: on a fresh 120-byte heap,
four blocks of 16 bytes, then `free(p0)`.  Returns `validate_heap`, the five header words
and `nused`. -/
def c5_before : Except Err (Bool × List Nat × Nat) := do
  let (_, s0) ← myinit zeroHeap 4096 120
  let (p0, s1) ← mymalloc (2 ^ 30) 64 s0 16
  let (_, s2) ← mymalloc (2 ^ 30) 64 s1 16
  let (_, s3) ← mymalloc (2 ^ 30) 64 s2 16
  let (_, s4) ← mymalloc (2 ^ 30) 64 s3 16
  let s5 ← myfree s4 p0
  let v ← validate_heap 64 s5
  pure (v, [4096, 4120, 4144, 4168, 4192].map (load64 s5.mem), s5.nused)

/-- Scenario of C5 for the implicit allocator: the calls of `c5_before`, then `malloc(24)`;
returns the pointer of the last call. -/
def c5_run : Except Err Nat := do
  let (_, s0) ← myinit zeroHeap 4096 120
  let (p0, s1) ← mymalloc (2 ^ 30) 64 s0 16
  let (_, s2) ← mymalloc (2 ^ 30) 64 s1 16
  let (_, s3) ← mymalloc (2 ^ 30) 64 s2 16
  let (_, s4) ← mymalloc (2 ^ 30) 64 s3 16
  let s5 ← myfree s4 p0
  let (p, _) ← mymalloc (2 ^ 30) 64 s5 24
  pure p

/-- Scenario of C7: `p = malloc(24); free(p); free(p)`, then `validate_heap` and
`malloc(24)`, on a fresh 128-byte heap.  Returns `p`, the validator and the last pointer. -/
def c7_run : Except Err (Nat × Bool × Nat) := do
  let (_, s0) ← myinit zeroHeap 4096 128
  let (p, s1) ← mymalloc (2 ^ 30) 64 s0 24
  let s2 ← myfree s1 p
  let s3 ← myfree s2 p
  let v ← validate_heap 64 s3
  let (q, _) ← mymalloc (2 ^ 30) 64 s3 24
  pure (p, v, q)

/-- State of the witness of C7: a fresh 128-byte heap after `p = malloc(24); free(p)`. -/
def c7_state : Heap :=
  heapOf (myfree (stateOf (mymalloc (2 ^ 30) 64 (stateOf (myinit zeroHeap 4096 128)) 24)) 4104)

/-- Scenario of C8: `p1 = malloc(16); p2 = malloc(16); free(p1); free(p2)` on a fresh
128-byte heap.  Returns the header word at the base, the header word of the second block,
`nused` and `validate_heap` at the end. -/
def c8_run : Except Err (Nat × Nat × Nat × Bool) := do
  let (_, s0) ← myinit zeroHeap 4096 128
  let (p1, s1) ← mymalloc (2 ^ 30) 64 s0 16
  let (p2, s2) ← mymalloc (2 ^ 30) 64 s1 16
  let s3 ← myfree s2 p1
  let s4 ← myfree s3 p2
  let v ← validate_heap 64 s4
  pure (load64 s4.mem 4096, load64 s4.mem 4120, s4.nused, v)

/-- Scenario of C1: `myinit(4096, 0)`, then `validate_heap`.  Returns the value returned by
`myinit`, `segment_size`, `nused`, the header word at the base and the value returned by
`validate_heap`. -/
def c1_zero_run : Except Err (Bool × Nat × Nat × Nat × Bool) := do
  let (r, s0) ← myinit zeroHeap 4096 0
  let v ← validate_heap 64 s0
  pure (r, s0.segment_size, s0.nused, load64 s0.mem 4096, v)

end Implicit

namespace Explicit

/-- Scenario of C4: on a fresh 128-byte heap at 4096, `mymalloc(16)`, then
`mymalloc(2^64 - 23)`.  Returns the first pointer, `nused` and `validate_heap` after the
first call, the value of `needed` for the second request, the second pointer, `nused`
after the second call and the words at 4096, 4112 and 4120. -/
def c4_wrap_run : Except Err (Nat × Nat × Bool × Nat × Nat × Nat × List Nat) := do
  let (_, s0) ← myinit zeroHeap 4096 128
  let (p1, s1) ← mymalloc 64 s0 16
  let v ← validate_heap 64 s1
  let (p, s2) ← mymalloc 64 s1 (2 ^ 64 - 23)
  pure (p1, s1.nused, v, neededOf (2 ^ 64 - 23), p, s2.nused,
    [load64 s2.mem 4096, load64 s2.mem 4112, load64 s2.mem 4120])

/-- Scenario of C9: on a fresh 128-byte heap at 4096, `p = mymalloc(2^64 - 16)`,
`myfree(p)`, `q = mymalloc(2^64 - 16)`.  Returns `p`, `nused` after the first call, `nused`
after `myfree`, and `q`. -/
def c9_wrap_run : Except Err (Nat × Nat × Nat × Nat) := do
  let (_, s0) ← myinit zeroHeap 4096 128
  let (p, s1) ← mymalloc 64 s0 (2 ^ 64 - 16)
  let s2 ← myfree 64 s1 p
  let (q, _) ← mymalloc 64 s2 (2 ^ 64 - 16)
  pure (p, s1.nused, s2.nused, q)

/-- State of the scenario of C25: on a fresh 88-byte heap at 4096, `p1 = mymalloc(16)`,
`mymalloc(32)`, `myfree(p1)`, `mymalloc(16)`; the last call places the request in both free
blocks of 16 bytes, and the blocks are `[16 allocated][32 allocated][16 allocated]`. -/
def c25_state : Heap :=
  stateOf (mymalloc 64
    (heapOf (myfree 64
      (stateOf (mymalloc 64 (stateOf (mymalloc 64 (stateOf (myinit zeroHeap 4096 88)) 16)) 32))
      4104)) 16)

/-- A freshly initialised explicit heap: one free block over the whole segment, with an
empty node. -/
structure FreshE (base size : Nat) (s : Heap) : Prop where
  hstart : s.segment_start = base
  hsize : s.segment_size = size
  hend : s.segment_end = base + size
  hused : s.nused = 8
  h0 : load64 s.mem base = size - 8 + 1
  h1 : load64 s.mem (base + 8) = 0
  h2 : load64 s.mem (base + 16) = 0

/-- The explicit heap after the first block of payload `nd` was split off a fresh heap. -/
structure SplitE (base size nd : Nat) (s : Heap) : Prop where
  hstart : s.segment_start = base
  hsize : s.segment_size = size
  hend : s.segment_end = base + size
  hused : s.nused = 8 + nd + 8
  h0 : load64 s.mem base = nd
  h1 : load64 s.mem (base + 8 + nd) = size - 8 - nd - 8 + 1
  h2 : load64 s.mem (base + 8 + nd + 8) = 0
  h3 : load64 s.mem (base + 8 + nd + 16) = 0

end Explicit

/-- The block walk from address `a` visits exactly the blocks of the list and then stops:
every block but the last is followed by a header below the end `e` of the segment, the
last block reaches `e` or goes past it (inside the address space). -/
def WalkEnds (e : Nat) : Nat → List Block → Prop
  | _, [] => False
  | a, [b] => a + 8 ≤ e ∧ e ≤ a + 8 + b.1 ∧ a + 8 + b.1 < WORD
  | a, b :: c :: L => a + 8 + b.1 < e ∧ WalkEnds e (a + 8 + b.1) (c :: L)

namespace Implicit

/-- The list after a first-fit placement in the block `(B, true)`. -/
def placedAt (nd B : Nat) (L2 : List Block) : List Block :=
  if nd + 16 ≤ B then (nd, false) :: (B - nd - 8, true) :: L2 else (nd, false) :: L2

end Implicit

/-- The result of a call that returns only a state, seen through an observation of that
state. -/
def observe {α : Type} (r : Except Err Heap) (f : Heap → α) : Except Err α :=
  match r with
  | .ok s => .ok (f s)
  | .error e => .error e

namespace Implicit

/-- Scenario of the specification for C11: on a fresh 128-byte heap at 4096,
`p = mymalloc(8)`, the client fills the 8 bytes at `p` with `0xAB`, then
`q = myrealloc(p, 32)`.  Returns `q`, the word at `q` and whether the block of `p` is free. -/
def c11_pattern_run : Except Err (Nat × Nat × Bool) := do
  let (_, s0) ← myinit zeroHeap 4096 128
  let (p, s1) ← mymalloc (2 ^ 30) 64 s0 8
  let s1' : Heap := { s1 with mem := store64 s1.mem p 0xABABABABABABABAB }
  let (q, s2) ← myrealloc (2 ^ 30) 64 s1' p 32
  let fr ← is_free s2 (payload2header p)
  pure (q, load64 s2.mem q, fr)

/-- State of the scenario of C18: a fresh 32-byte implicit heap at 4096. -/
def c18_s0 : Heap := stateOf (myinit zeroHeap 4096 32)

/-- Scenario of C18 for the implicit allocator: `mymalloc(16)` on a fresh 32-byte heap at
4096 (one free block of 24 bytes).  Returns the pointer, the header word at the base and
`nused`. -/
def c18_run : Except Err (Nat × Nat × Nat) := do
  let (_, s0) ← myinit zeroHeap 4096 32
  let (p, s1) ← mymalloc (2 ^ 30) 64 s0 16
  pure (p, load64 s1.mem 4096, s1.nused)

/-- State of the scenario of C20: on a fresh 128-byte heap at 4096, `p0 = mymalloc(16)`,
`mymalloc(64)`, `myfree(p0)`, `mymalloc(24)`; the last call takes the last block (payload 4200). -/
def c20_state : Heap :=
  stateOf (mymalloc (2 ^ 30) 64
    (heapOf (myfree
      (stateOf (mymalloc (2 ^ 30) 64
        (stateOf (mymalloc (2 ^ 30) 64 (stateOf (myinit zeroHeap 4096 128)) 16)) 64))
      4104)) 24)

/-- Scenario of C20, before the last call: the pointers returned by the three `mymalloc`
calls, the three header words, `nused` and `validate_heap`. -/
def c20_before : Except Err (Nat × Nat × Nat × List Nat × Nat × Bool) := do
  let (_, s0) ← myinit zeroHeap 4096 128
  let (p0, s1) ← mymalloc (2 ^ 30) 64 s0 16
  let (p1, s2) ← mymalloc (2 ^ 30) 64 s1 64
  let s3 ← myfree s2 p0
  let (p2, s4) ← mymalloc (2 ^ 30) 64 s3 24
  let v ← validate_heap 64 s4
  pure (p0, p1, p2, [load64 s4.mem 4096, load64 s4.mem 4120, load64 s4.mem 4192], s4.nused, v)

end Implicit

namespace Explicit

/-- State of the scenarios of C11 and C12: a fresh 128-byte heap at 4096 after
`mymalloc(16)` (which returns 4104). -/
def c12_s1 : Heap := stateOf (mymalloc 64 c9_s0 16)

/-- State of the scenario of C11: after `mymalloc(16)` and `mymalloc(40)`; the blocks are
`[16 allocated][40 allocated][48 free]`. -/
def c11_s2 : Heap := stateOf (mymalloc 64 c12_s1 40)

/-- Scenario of C11: in `c11_s2`, `q = myrealloc(4104, 40)`.  Returns `validate_heap`
before the call, the two words of the payload at 4104 before the call, `q`, the two words at
`q` after the call, the header word before `q` and the header word at the base after it. -/
def c11_run : Except Err (Bool × Nat × Nat × Nat × Nat × Nat × Nat × Nat) := do
  let v ← validate_heap 64 c11_s2
  let (q, s3) ← myrealloc 64 c11_s2 4104 40
  pure (v, load64 c11_s2.mem 4104, load64 c11_s2.mem 4112, q, load64 s3.mem q,
    load64 s3.mem (q + 8), load64 s3.mem (q - 8), load64 s3.mem 4096)

/-- Scenario of C16: on a fresh 128-byte heap at 4096, `w = mymalloc(24)`,
`q = mymalloc(72)`, `myfree(w)`, `p = mymalloc(16)`, `myfree(q)`.  Returns `w`, `q`, `p`,
the header words at 4096 and 4120, the words at 4128 and 4136 (`prev` and `next` of the node
of the free block at 4120), the word at 4144, `nused` and `validate_heap` at the end. -/
def c16_run : Except Err (Nat × Nat × Nat × List Nat × Nat × Bool) := do
  let (_, s0) ← myinit zeroHeap 4096 128
  let (w, s1) ← mymalloc 64 s0 24
  let (q, s2) ← mymalloc 64 s1 72
  let s3 ← myfree 64 s2 w
  let (p, s4) ← mymalloc 64 s3 16
  let s5 ← myfree 64 s4 q
  let v ← validate_heap 64 s5
  pure (w, q, p, [load64 s5.mem 4096, load64 s5.mem 4120, load64 s5.mem 4128,
    load64 s5.mem 4136, load64 s5.mem 4144], s5.nused, v)

/-- Scenario of the specification for C11: on a fresh 128-byte heap at 4096,
`p = mymalloc(8)`, the client fills the 8 bytes at `p` with `0xAB`, then
`q = myrealloc(p, 32)`.  Returns `q`, the word at `q` and whether the block of `p` is free. -/
def c11_pattern_run : Except Err (Nat × Nat × Bool) := do
  let (_, s0) ← myinit zeroHeap 4096 128
  let (p, s1) ← mymalloc 64 s0 8
  let s1' : Heap := { s1 with mem := store64 s1.mem p 0xABABABABABABABAB }
  let (q, s2) ← myrealloc 64 s1' p 32
  let fr ← is_free s2 (payload2header p)
  pure (q, load64 s2.mem q, fr)

/-- State of the scenario of C18: a fresh 48-byte explicit heap at 4096. -/
def c18_s0 : Heap := stateOf (myinit zeroHeap 4096 48)

/-- Scenario of C18 for the explicit allocator: `mymalloc(24)` on a fresh 48-byte heap at
4096 (one free block of 40 bytes).  Returns the pointer, the header word at the base and
`nused`. -/
def c18_run : Except Err (Nat × Nat × Nat) := do
  let (_, s0) ← myinit zeroHeap 4096 48
  let (p, s1) ← mymalloc 64 s0 24
  pure (p, load64 s1.mem 4096, s1.nused)

/-- State of the scenario of C20: as for the implicit allocator. -/
def c20_state : Heap :=
  stateOf (mymalloc 64
    (heapOf (myfree 64
      (stateOf (mymalloc 64 (stateOf (mymalloc 64 (stateOf (myinit zeroHeap 4096 128)) 16)) 64))
      4104)) 24)

/-- Scenario of C20, before the last call: the pointers returned by the three `mymalloc`
calls, the three header words, `nused` and `validate_heap`. -/
def c20_before : Except Err (Nat × Nat × Nat × List Nat × Nat × Bool) := do
  let (_, s0) ← myinit zeroHeap 4096 128
  let (p0, s1) ← mymalloc 64 s0 16
  let (p1, s2) ← mymalloc 64 s1 64
  let s3 ← myfree 64 s2 p0
  let (p2, s4) ← mymalloc 64 s3 24
  let v ← validate_heap 64 s4
  pure (p0, p1, p2, [load64 s4.mem 4096, load64 s4.mem 4120, load64 s4.mem 4192], s4.nused, v)

end Explicit

/-- Payload addresses of the free blocks of a list that starts at address `a`, in address
order: the nodes of the free list of explicit.c. -/
def freePtrs : Nat → List Block → List Nat
  | _, [] => []
  | a, b :: L => if b.2 then (a + 8) :: freePtrs (a + 8 + b.1) L else freePtrs (a + 8 + b.1) L

/-- First element of a list of nodes, or `q` for the empty list. -/
def hdOr : List Nat → Nat → Nat
  | [], q => q
  | x :: _, _ => x

/-- Last element of a list of nodes, or `p` for the empty list. -/
def lastOr : List Nat → Nat → Nat
  | [], p => p
  | x :: F, _ => lastOr F x

/-- The nodes of `F` are linked in this order: `prev` of the first is `p`, `next` of each is
the node after it, `next` of the last is `q` (`prev` at offset 0, `next` at offset 8). -/
def Links (m : Nat → Nat) : Nat → List Nat → Nat → Prop
  | _, [], _ => True
  | p, x :: F, q => load64 m x = p ∧ load64 m (x + 8) = hdOr F q ∧ Links m x F q

/-- Address `x` is a byte of one of the headers of a list of blocks starting at `a`. -/
def isHdr : Nat → List Block → Nat → Prop
  | _, [], _ => False
  | a, b :: L, x => (a ≤ x ∧ x < a + 8) ∨ isHdr (a + 8 + b.1) L x

/-- A valid state of the explicit allocator: the headers tile the segment and account for
`nused`, every payload has room for the two node pointers, the nodes of the free blocks are
linked in address order with null at both ends, and the 32-bit block counter of
`count_free_blocks` does not overflow. -/
structure ExplInv (base size : Nat) (s : Heap) (L : List Block) : Prop where
  inv : HeapInv base size s L
  big : ∀ b ∈ L, 16 ≤ b.1
  links : Links s.mem 0 (freePtrs base L) 0
  count : (freePtrs base L).length < 2 ^ 31

namespace Implicit

/-- State of the witness of C19: a fresh 128-byte heap at 4096 after two `mymalloc(16)`;
the blocks are `[16 allocated][16 allocated][72 free]`. -/
def c19_s2 : Heap := stateOf (mymalloc (2 ^ 30) 64 c1_s1 16)

end Implicit

namespace Explicit

/-- State of the witness of C19: a fresh 128-byte heap at 4096 after two `mymalloc(16)`;
the blocks are `[16 allocated][16 allocated][72 free]`. -/
def c19_s2 : Heap := stateOf (mymalloc 64 c12_s1 16)

/-- Scenario of C21, up to the last call: on a fresh 96-byte heap at 4096,
`a = mymalloc(48)`, `b = mymalloc(16)`, `myfree(a)`, `c = mymalloc(32)`, `d = mymalloc(8)`.
Returns the four pointers, the header words at 4096, 4136 and 4160, `nused` and
`validate_heap`. -/
def c21_before : Except Err (Nat × Nat × Nat × Nat × List Nat × Nat × Bool) := do
  let (_, s0) ← myinit zeroHeap 4096 96
  let (a, s1) ← mymalloc 64 s0 48
  let (b, s2) ← mymalloc 64 s1 16
  let s3 ← myfree 64 s2 a
  let (c, s4) ← mymalloc 64 s3 32
  let (d, s5) ← mymalloc 64 s4 8
  let v ← validate_heap 64 s5
  pure (a, b, c, d, [load64 s5.mem 4096, load64 s5.mem 4136, load64 s5.mem 4160], s5.nused, v)

/-- Scenario of C21: the calls of `c21_before`, then `myfree(b)`.  Returns the words met by
the block walk from the base (at 4096, 4136, 4160, 4168, 4176, 4184), `nused` and
`validate_heap`. -/
def c21_run : Except Err (List Nat × Nat × Bool) := do
  let (_, s0) ← myinit zeroHeap 4096 96
  let (a, s1) ← mymalloc 64 s0 48
  let (b, s2) ← mymalloc 64 s1 16
  let s3 ← myfree 64 s2 a
  let (_, s4) ← mymalloc 64 s3 32
  let (_, s5) ← mymalloc 64 s4 8
  let s6 ← myfree 64 s5 b
  let v ← validate_heap 64 s6
  pure ([load64 s6.mem 4096, load64 s6.mem 4136, load64 s6.mem 4160, load64 s6.mem 4168,
    load64 s6.mem 4176, load64 s6.mem 4184], s6.nused, v)

/-- State of the scenario of C23: a fresh 48-byte heap at 4096, one free block of 40
bytes. -/
def c23_s0 : Heap := stateOf (myinit zeroHeap 4096 48)

/-- Scenario of C23: two `mymalloc(24)` in a row on a fresh 48-byte heap at 4096.  Returns
`validate_heap` before the calls, the first pointer, the header word at the base and `nused`
after the first call, and the second pointer. -/
def c23_run : Except Err (Bool × Nat × Nat × Nat × Nat) := do
  let (_, s0) ← myinit zeroHeap 4096 48
  let v ← validate_heap 64 s0
  let (p1, s1) ← mymalloc 64 s0 24
  let (p2, _) ← mymalloc 64 s1 24
  pure (v, p1, load64 s1.mem 4096, s1.nused, p2)

/-- State of the scenario of C24: a fresh 128-byte heap at 4096 after `p1 = mymalloc(16)`,
`mymalloc(32)`, `myfree(p1)`; the blocks are `[16 free][32 allocated][56 free]`. -/
def c24_state : Heap :=
  heapOf (myfree 64
    (stateOf (mymalloc 64 (stateOf (mymalloc 64 (stateOf (myinit zeroHeap 4096 128)) 16)) 32))
    4104)

/-- Scenario of C24: `mymalloc(16)` in `c24_state`.  Returns `validate_heap`, the header
words at 4096, 4120 and 4160 and `nused` before the call, then the pointer returned, the
header words at 4096, 4120, 4160 and 4184 and `nused` after it. -/
def c24_run : Except Err (Bool × List Nat × Nat × Nat × List Nat × Nat) := do
  let v ← validate_heap 64 c24_state
  let (p, s1) ← mymalloc 64 c24_state 16
  pure (v, [load64 c24_state.mem 4096, load64 c24_state.mem 4120, load64 c24_state.mem 4160],
    c24_state.nused, p,
    [load64 s1.mem 4096, load64 s1.mem 4120, load64 s1.mem 4160, load64 s1.mem 4184],
    s1.nused)

end Explicit

/-! ## Theorems -/

theorem load64_store64_same (m : Nat → Nat) (a v : Nat) :
    load64 (store64 m a v) a = v % WORD := by
  unfold load64 store64 WORD
  simp
  omega

theorem load64_store64_disj (m : Nat → Nat) (a v b : Nat) (h : a + 8 ≤ b ∨ b + 8 ≤ a) :
    load64 (store64 m a v) b = load64 m b := by
  unfold load64 store64
  have h0 : ¬ (a ≤ b ∧ b < a + 8) := by omega
  have h1 : ¬ (a ≤ b + 1 ∧ b + 1 < a + 8) := by omega
  have h2 : ¬ (a ≤ b + 2 ∧ b + 2 < a + 8) := by omega
  have h3 : ¬ (a ≤ b + 3 ∧ b + 3 < a + 8) := by omega
  have h4 : ¬ (a ≤ b + 4 ∧ b + 4 < a + 8) := by omega
  have h5 : ¬ (a ≤ b + 5 ∧ b + 5 < a + 8) := by omega
  have h6 : ¬ (a ≤ b + 6 ∧ b + 6 < a + 8) := by omega
  have h7 : ¬ (a ≤ b + 7 ∧ b + 7 < a + 8) := by omega
  simp only [h0, h1, h2, h3, h4, h5, h6, h7, if_false]

theorem land_mask (k : Nat) (hk : k ≤ 64) (x : Nat) (hx : x < 2 ^ 64) :
    Nat.land x (2 ^ 64 - 2 ^ k) = x / 2 ^ k * 2 ^ k := by
  show x &&& (2 ^ 64 - 2 ^ k) = x / 2 ^ k * 2 ^ k
  apply Nat.eq_of_testBit_eq
  intro i
  have hpos : 0 < 2 ^ k := Nat.two_pow_pos k
  have hlt : 2 ^ k - 1 < 2 ^ 64 := by
    have : 2 ^ k ≤ 2 ^ 64 := Nat.pow_le_pow_right (by decide) hk
    omega
  have e1 : 2 ^ 64 - 2 ^ k = 2 ^ 64 - ((2 ^ k - 1) + 1) := by omega
  rw [Nat.testBit_and, e1, Nat.testBit_two_pow_sub_succ hlt, Nat.testBit_two_pow_sub_one,
    Nat.mul_comm, Nat.testBit_mul_pow_two, ← Nat.shiftRight_eq_div_pow, Nat.testBit_shiftRight]
  by_cases h1 : i < k
  · have : ¬ (i ≥ k) := by omega
    simp [h1, this]
  · have h2 : i ≥ k := by omega
    have e2 : k + (i - k) = i := by omega
    by_cases h3 : i < 64
    · simp [h1, h2, h3, e2]
    · have : x.testBit i = false := by
        apply Nat.testBit_lt_two_pow
        calc x < 2 ^ 64 := hx
          _ ≤ 2 ^ i := Nat.pow_le_pow_right (by decide) (by omega)
      simp [h1, h2, h3, e2, this]

theorem land_one (w : Nat) : Nat.land w 1 = w % 2 := by
  show w &&& 1 = w % 2
  exact Nat.and_one_is_mod w

theorem lor_zero (w : Nat) : Nat.lor w 0 = w := by
  show w ||| 0 = w
  exact Nat.or_zero w

theorem lor_one (w : Nat) (h : w % 2 = 0) : Nat.lor w 1 = w + 1 := by
  show w ||| 1 = w + 1
  have h1 := @Nat.mul_add_lt_is_or 1 1 (by decide) (w / 2)
  have e : 2 ^ 1 * (w / 2) = w := by omega
  rw [e] at h1
  exact h1.symm

theorem get_size_word (w : Nat) (h : w < WORD) : Nat.land w (not64 MASKING_BIT) = w - w % 2 := by
  have e : not64 MASKING_BIT = 2 ^ 64 - 2 ^ 1 := by decide
  rw [e, land_mask 1 (by decide) w h]
  omega

theorem roundup_eq (n : Nat) :
    roundup n ALIGNMENT = (n + 7) % WORD / 8 * 8 := by
  unfold roundup
  have e1 : sub64 (add64 n ALIGNMENT) 1 = (n + 7) % WORD := by
    unfold sub64 add64 ALIGNMENT WORD at *
    omega
  have e2 : not64 (sub64 ALIGNMENT 1) = 2 ^ 64 - 2 ^ 3 := by decide
  have hlt : (n + 7) % WORD < 2 ^ 64 := Nat.mod_lt _ (by decide)
  rw [e1, e2, land_mask 3 (by decide) _ hlt]
  norm_num

theorem load64_lt (m : Nat → Nat) (a : Nat) : load64 m a < WORD := by
  unfold load64 WORD
  omega

theorem inSegment_mapped (s : Heap) (p : Nat) (h : inSegment s p) : mapped s p 8 :=
  Or.inl h

theorem not_mapped_null (s : Heap) (h : ¬ inSegment s 0) : ¬ mapped s 0 8 := by
  intro hm
  rcases hm with hm | hm
  · exact h hm
  · exact hm rfl

theorem readWord_ok (s : Heap) (p : Nat) (h : inSegment s p) :
    readWord s p = .ok (load64 s.mem p) := by
  simp [readWord, inSegment_mapped s p h]

theorem readWord_ok_ne (s : Heap) (p : Nat) (h : p ≠ NULL) :
    readWord s p = .ok (load64 s.mem p) := by
  have hm : mapped s p 8 := Or.inr h
  simp [readWord, hm]

theorem readWord_fault (s : Heap) (h : ¬ inSegment s 0) :
    readWord s 0 = .error Err.fault := by
  simp [readWord, not_mapped_null s h]

theorem writeWord_ok (s : Heap) (p v : Nat) (h : inSegment s p) :
    writeWord s p v = .ok { s with mem := store64 s.mem p v } := by
  simp [writeWord, inSegment_mapped s p h]

theorem writeWord_ok_ne (s : Heap) (p v : Nat) (h : p ≠ NULL) :
    writeWord s p v = .ok { s with mem := store64 s.mem p v } := by
  have hm : mapped s p 8 := Or.inr h
  simp [writeWord, hm]

theorem set_header_ok (s : Heap) (a size status : Nat) (h : inSegment s a) :
    set_header s a size status = .ok { s with mem := setHdrMem s.mem a size status } := by
  have h1 : inSegment { s with mem := store64 s.mem a size } a := h
  simp [set_header, writeWord_ok s a size h, readWord_ok _ a h1, writeWord_ok _ a _ h1,
    bind, Except.bind, setHdrMem, load64_store64_same]

theorem set_header_ok_ne (s : Heap) (a size status : Nat) (h : a ≠ NULL) :
    set_header s a size status = .ok { s with mem := setHdrMem s.mem a size status } := by
  simp [set_header, writeWord_ok_ne s a size h, readWord_ok_ne _ a h, writeWord_ok_ne _ a _ h,
    bind, Except.bind, setHdrMem, load64_store64_same]

theorem set_header_fault (s : Heap) (size status : Nat) (h : ¬ inSegment s 0) :
    set_header s 0 size status = .error Err.fault := by
  simp [set_header, writeWord, not_mapped_null s h, bind, Except.bind]

theorem load64_setHdrMem_same (m : Nat → Nat) (a size status : Nat) (h1 : size < WORD)
    (h2 : size % 2 = 0) (h3 : status = 0 ∨ status = 1) :
    load64 (setHdrMem m a size status) a = size + status := by
  unfold setHdrMem
  rw [load64_store64_same, Nat.mod_eq_of_lt h1]
  rcases h3 with h3 | h3
  · subst h3
    rw [lor_zero, Nat.mod_eq_of_lt h1, Nat.add_zero]
  · subst h3
    rw [lor_one _ h2]
    apply Nat.mod_eq_of_lt
    unfold WORD at *
    omega

theorem load64_setHdrMem_disj (m : Nat → Nat) (a size status b : Nat)
    (h : a + 8 ≤ b ∨ b + 8 ≤ a) :
    load64 (setHdrMem m a size status) b = load64 m b := by
  unfold setHdrMem
  rw [load64_store64_disj _ _ _ _ h, load64_store64_disj _ _ _ _ h]

theorem setHdrMem_outside (m : Nat → Nat) (a size status x : Nat) (h : x < a ∨ a + 8 ≤ x) :
    setHdrMem m a size status x = m x := by
  unfold setHdrMem store64
  have : ¬ (a ≤ x ∧ x < a + 8) := by omega
  simp [this]

theorem load64_congr (m m' : Nat → Nat) (a : Nat)
    (h : ∀ x, a ≤ x → x < a + 8 → m' x = m x) : load64 m' a = load64 m a := by
  unfold load64
  rw [h a (by omega) (by omega), h (a + 1) (by omega) (by omega),
    h (a + 2) (by omega) (by omega), h (a + 3) (by omega) (by omega),
    h (a + 4) (by omega) (by omega), h (a + 5) (by omega) (by omega),
    h (a + 6) (by omega) (by omega), h (a + 7) (by omega) (by omega)]

theorem is_free_ok (s : Heap) (a : Nat) (h : inSegment s a) :
    is_free s a = .ok (decide (load64 s.mem a % 2 ≠ 0)) := by
  simp [is_free, readWord_ok s a h, bind, Except.bind, pure, Except.pure, MASKING_BIT, land_one]

theorem get_size_ok (s : Heap) (a : Nat) (h : inSegment s a) :
    get_size s a = .ok (load64 s.mem a - load64 s.mem a % 2) := by
  simp [get_size, readWord_ok s a h, bind, Except.bind, pure, Except.pure,
    get_size_word _ (load64_lt s.mem a)]

theorem is_free_fault (s : Heap) (h : ¬ inSegment s 0) :
    is_free s 0 = .error Err.fault := by
  simp [is_free, readWord_fault s h, bind, Except.bind]

theorem get_size_fault (s : Heap) (h : ¬ inSegment s 0) :
    get_size s 0 = .error Err.fault := by
  simp [get_size, readWord_fault s h, bind, Except.bind]

theorem next_block_ok (s : Heap) (a : Nat) (h : inSegment s a) :
    next_block s a = .ok (if add64 (add64 a 8) (load64 s.mem a - load64 s.mem a % 2)
      < s.segment_end then add64 (add64 a 8) (load64 s.mem a - load64 s.mem a % 2) else 0) := by
  simp [next_block, get_size_ok s a h, bind, Except.bind, pure, Except.pure, header2payload,
    HEADER_SIZE, NULL]

theorem next_block_fault (s : Heap) (h : ¬ inSegment s 0) :
    next_block s 0 = .error Err.fault := by
  simp [next_block, get_size_fault s h, bind, Except.bind]

theorem total_append (L1 L2 : List Block) : total (L1 ++ L2) = total L1 + total L2 := by
  induction L1 with
  | nil => simp [total]
  | cons b L ih => simp [total, ih]; omega

theorem usedOf_append (L1 L2 : List Block) : usedOf (L1 ++ L2) = usedOf L1 + usedOf L2 := by
  induction L1 with
  | nil => simp [usedOf]
  | cons b L ih => simp [usedOf, ih]; omega

theorem usedOf_le_total (L : List Block) : usedOf L ≤ total L := by
  induction L with
  | nil => simp [usedOf, total]
  | cons b L ih =>
    simp only [usedOf, total]
    split <;> omega

theorem length_le_total (L : List Block) : L.length ≤ total L := by
  induction L with
  | nil => simp [total]
  | cons b L ih => simp only [List.length_cons, total]; omega

theorem Tiles_append (m : Nat → Nat) (L1 L2 : List Block) (a : Nat) :
    Tiles m a (L1 ++ L2) ↔ Tiles m a L1 ∧ Tiles m (a + total L1) L2 := by
  induction L1 generalizing a with
  | nil => simp [Tiles, total]
  | cons b L ih =>
    have e : a + (8 + b.1 + total L) = a + 8 + b.1 + total L := by omega
    show (load64 m a = hdrWord b ∧ Tiles m (a + 8 + b.1) (L ++ L2)) ↔
      (load64 m a = hdrWord b ∧ Tiles m (a + 8 + b.1) L) ∧ Tiles m (a + (8 + b.1 + total L)) L2
    rw [ih, e, and_assoc]

theorem allocPtrs_append (L1 L2 : List Block) (a : Nat) :
    allocPtrs a (L1 ++ L2) = allocPtrs a L1 ++ allocPtrs (a + total L1) L2 := by
  induction L1 generalizing a with
  | nil => simp [allocPtrs, total]
  | cons b L ih =>
    have e : a + (8 + b.1 + total L) = a + 8 + b.1 + total L := by omega
    show (if b.2 then allocPtrs (a + 8 + b.1) (L ++ L2)
        else (a + 8) :: allocPtrs (a + 8 + b.1) (L ++ L2))
      = (if b.2 then allocPtrs (a + 8 + b.1) L else (a + 8) :: allocPtrs (a + 8 + b.1) L)
        ++ allocPtrs (a + (8 + b.1 + total L)) L2
    rw [ih, e]
    split <;> simp

theorem Tiles_congr (m m' : Nat → Nat) (L : List Block) (a : Nat)
    (h : ∀ x, a ≤ x → x < a + total L → m' x = m x) (ht : Tiles m a L) : Tiles m' a L := by
  induction L generalizing a with
  | nil => trivial
  | cons b L ih =>
    simp only [Tiles, total] at *
    refine ⟨?_, ih _ (fun x h1 h2 => h x (by omega) (by omega)) ht.2⟩
    rw [load64_congr m m' a (fun x h1 h2 => h x h1 (by omega))]
    exact ht.1

theorem allocPtrs_bounds (L : List Block) (a p : Nat) (h : p ∈ allocPtrs a L) :
    a + 8 ≤ p ∧ p ≤ a + total L := by
  induction L generalizing a with
  | nil => simp [allocPtrs] at h
  | cons b L ih =>
    simp only [allocPtrs] at h
    simp only [total]
    split at h
    · have := ih _ h; omega
    · rcases List.mem_cons.1 h with h | h
      · omega
      · have := ih _ h; omega

theorem mem_allocPtrs (L : List Block) (a p : Nat) (h : p ∈ allocPtrs a L) :
    ∃ L1 sz L2, L = L1 ++ (sz, false) :: L2 ∧ p = a + total L1 + 8 := by
  induction L generalizing a with
  | nil => simp [allocPtrs] at h
  | cons b L ih =>
    simp only [allocPtrs] at h
    by_cases hb : b.2 = true
    · rw [if_pos hb] at h
      obtain ⟨L1, sz, L2, e, hp⟩ := ih _ h
      exact ⟨b :: L1, sz, L2, by simp [e], by simp only [total]; omega⟩
    · rw [if_neg hb] at h
      rcases List.mem_cons.1 h with h | h
      · refine ⟨[], b.1, L, ?_, by simp [total, h]⟩
        have : b.2 = false := by simpa using hb
        simp [← this]
      · obtain ⟨L1, sz, L2, e, hp⟩ := ih _ h
        exact ⟨b :: L1, sz, L2, by simp [e], by simp only [total]; omega⟩

theorem hdrWord_mod (b : Block) (h : b.1 % 8 = 0) :
    hdrWord b % 2 = (if b.2 then 1 else 0) := by
  unfold hdrWord FREE ALLOCATED
  split <;> omega

theorem hdrWord_size (b : Block) (h : b.1 % 8 = 0) : hdrWord b - hdrWord b % 2 = b.1 := by
  unfold hdrWord FREE ALLOCATED
  split <;> omega

theorem Geom.inSeg {base size : Nat} {s : Heap} (g : Geom base size s) (a : Nat)
    (h1 : base ≤ a) (h2 : a + 8 ≤ base + size) : inSegment s a := by
  unfold inSegment
  rw [g.hstart, g.hsize]
  exact ⟨h1, h2⟩

theorem Geom.notInSeg_zero {base size : Nat} {s : Heap} (g : Geom base size s) :
    ¬ inSegment s 0 := by
  unfold inSegment
  rw [g.hstart]
  have := g.hpos
  omega

/-- The three header reads at the first block of a tiled list. -/
theorem head_reads {base size : Nat} {s : Heap} (g : Geom base size s) (b : Block)
    (L : List Block) (a : Nat) (ht : Tiles s.mem a (b :: L)) (hb : b.1 % 8 = 0)
    (h1 : base ≤ a) (h2 : a + total (b :: L) ≤ base + size) :
    get_size s a = .ok b.1 ∧ is_free s a = .ok b.2 ∧
    next_block s a = .ok (if a + 8 + b.1 < base + size then a + 8 + b.1 else 0) := by
  have hin : inSegment s a := g.inSeg a h1 (by simp only [total] at h2; omega)
  have hw : load64 s.mem a = hdrWord b := ht.1
  have hbd := g.hbound
  simp only [total] at h2
  have e : add64 (add64 a 8) b.1 = a + 8 + b.1 := by
    unfold add64 WORD at *
    omega
  refine ⟨?_, ?_, ?_⟩
  · rw [get_size_ok s a hin, hw, hdrWord_size b hb]
  · rw [is_free_ok s a hin, hw, hdrWord_mod b hb]
    cases b.2 <;> simp
  · rw [next_block_ok s a hin, hw, hdrWord_size b hb, e, g.hend]

theorem validate_loop_tiles {base size : Nat} {s : Heap} (g : Geom base size s) :
    ∀ (L : List Block) (a fuel nb nu : Nat), L ≠ [] → WFBlocks L → Tiles s.mem a L →
      base ≤ a → a + total L = base + size → nb + total L < WORD →
      nu + usedOf L < WORD →
      validate_loop (fuel + L.length) s a nb nu = .ok (nb + total L, nu + usedOf L) := by
  intro L
  induction L with
  | nil => intro a fuel nb nu h; exact absurd rfl h
  | cons b L ih =>
    intro a fuel nb nu _ hwf ht h1 h2 h3 h4
    have hb : b.1 % 8 = 0 := hwf b (List.mem_cons_self _ _)
    obtain ⟨r1, r2, r3⟩ := head_reads g b L a ht hb h1 (by omega)
    simp only [total, usedOf] at h2 h3 h4
    have e0 : fuel + (b :: L).length = (fuel + L.length) + 1 := by simp; omega
    rw [e0]
    unfold validate_loop
    simp only [r1, r2, r3, bind, Except.bind, HEADER_SIZE, NULL]
    have a1 : add64 nb (add64 8 b.1) = nb + (8 + b.1) := by
      unfold add64 WORD at *; omega
    have a2 : add64 (if (!b.2) = true then add64 nu b.1 else nu) 8
        = nu + (8 + if b.2 then 0 else b.1) := by
      cases hb2 : b.2 <;> simp [hb2] at h4 ⊢ <;> unfold add64 WORD at * <;> omega
    rw [a1, a2]
    by_cases hL : L = []
    · subst hL
      simp only [total, usedOf] at *
      have : ¬ (a + 8 + b.1 < base + size) := by omega
      simp [this, pure, Except.pure]
    · have hlt : a + 8 + b.1 < base + size := by
        cases L with
        | nil => exact absurd rfl hL
        | cons c L' => simp only [total] at h2; omega
      have hne : a + 8 + b.1 ≠ 0 := by omega
      simp only [hlt, if_true, hne, ne_eq, not_false_eq_true]
      rw [ih (a + 8 + b.1) fuel _ _ hL (fun c hc => hwf c (List.mem_cons_of_mem _ hc)) ht.2
        (by omega) (by omega) (by omega) (by omega)]
      simp only [total, usedOf]
      congr 2 <;> omega

theorem add64_eq (a b : Nat) (h : a + b < WORD) : add64 a b = a + b := by
  unfold add64; exact Nat.mod_eq_of_lt h

theorem sub64_eq (a b : Nat) (h : b ≤ a) (ha : a < WORD) : sub64 a b = a - b := by
  unfold sub64 WORD at *; omega

namespace Implicit

theorem fit_block_split (s : Heap) (a needed B fuel : Nat) (ha : a ≠ 0)
    (hsz : get_size s a = .ok B) (hfr : is_free s a = .ok true)
    (h : needed + 16 ≤ B) (h1 : s.segment_start ≤ a)
    (h2 : a + 8 + B ≤ s.segment_start + s.segment_size) (h3 : a + 8 + B < WORD) :
    fit_block (fuel + 1) needed a s = .ok (true, a,
      { s with mem := setHdrMem (setHdrMem s.mem a needed 0) (a + 8 + needed)
                        (B - needed - 8) 1,
               nused := add64 (add64 s.nused needed) 8 }) := by
  have hin : inSegment s a := ⟨h1, by omega⟩
  have e2 : add64 needed (2 * HEADER_SIZE) = needed + 16 :=
    add64_eq _ _ (by unfold HEADER_SIZE; omega)
  have e3 : add64 (header2payload a) needed = a + 8 + needed := by
    unfold header2payload HEADER_SIZE
    rw [add64_eq a 8 (by omega), add64_eq _ _ (by omega)]
  have e4 : sub64 B (add64 needed HEADER_SIZE) = B - needed - 8 := by
    unfold HEADER_SIZE
    rw [add64_eq _ _ (by omega), sub64_eq _ _ (by omega) (by omega)]
    omega
  have hin2 : inSegment { s with mem := setHdrMem s.mem a needed 0,
                                 nused := add64 s.nused needed } (a + 8 + needed) :=
    ⟨by show s.segment_start ≤ _; omega, by show _ ≤ s.segment_start + s.segment_size; omega⟩
  have hne : ¬ needed = B := by omega
  unfold fit_block
  simp only [NULL, ha, if_false, hsz, hfr, bind, Except.bind,
    e2, set_header_ok s a needed 0 hin, e3, e4, ALLOCATED, FREE]
  simp only [hne, h, decide_True, decide_False, Bool.or_true,
    Bool.and_true, if_true, Bool.true_and, Bool.false_or]
  rw [set_header_ok _ _ _ _ hin2]
  simp [pure, Except.pure, HEADER_SIZE]

theorem fit_block_perfect (s : Heap) (a needed fuel : Nat) (ha : a ≠ 0)
    (hsz : get_size s a = .ok needed) (hfr : is_free s a = .ok true)
    (h1 : s.segment_start ≤ a)
    (h2 : a + 8 + needed ≤ s.segment_start + s.segment_size) (h3 : needed + 16 < WORD) :
    fit_block (fuel + 1) needed a s = .ok (true, a,
      { s with mem := setHdrMem s.mem a needed 0, nused := add64 s.nused needed }) := by
  have hin : inSegment s a := ⟨h1, by omega⟩
  have e2 : add64 needed (2 * HEADER_SIZE) = needed + 16 :=
    add64_eq _ _ (by unfold HEADER_SIZE; omega)
  have hne : ¬ needed + 16 ≤ needed := by omega
  unfold fit_block
  simp only [NULL, ha, if_false, hsz, hfr, bind, Except.bind,
    e2, set_header_ok s a needed 0 hin, ALLOCATED]
  simp [hne, pure, Except.pure]

theorem fit_block_skip (s : Heap) (a needed fuel sz nxt : Nat) (fr : Bool) (ha : a ≠ 0)
    (hsz : get_size s a = .ok sz) (hfr : is_free s a = .ok fr)
    (hnb : next_block s a = .ok nxt)
    (hnf : ¬ (fr = true ∧ (needed + 16 ≤ sz ∨ needed = sz)))
    (hn : needed + 16 < WORD) :
    fit_block (fuel + 1) needed a s = fit_block fuel needed nxt s := by
  have e2 : add64 needed (2 * HEADER_SIZE) = needed + 16 :=
    add64_eq _ _ (by unfold HEADER_SIZE; omega)
  conv => lhs; unfold fit_block
  simp only [NULL, ha, if_false, hsz, hfr, hnb, bind, Except.bind, e2]
  have : (fr && (decide (needed = sz) || decide (needed + 16 ≤ sz))) = false := by
    cases fr
    · simp
    · simp at hnf ⊢; omega
  simp [this]

theorem fit_block_null (s : Heap) (needed fuel : Nat) :
    fit_block (fuel + 1) needed 0 s = .ok (false, 0, s) := by
  unfold fit_block
  simp [NULL, pure, Except.pure]

theorem fit_block_place {base size : Nat} (needed : Nat) (hn8 : needed % 8 = 0)
    (hn : needed + 16 < WORD) :
    ∀ (L : List Block) (a fuel : Nat) (s : Heap), Geom base size s → L ≠ [] → WFBlocks L →
      Tiles s.mem a L → base ≤ a → a + total L = base + size →
      (∀ o L', placeL needed L = some (o, L') →
        ∃ s', fit_block (fuel + L.length) needed a s = .ok (true, a + o, s') ∧
          Geom base size s' ∧ Tiles s'.mem a L' ∧
          (∀ x, x < a ∨ a + total L ≤ x → s'.mem x = s.mem x) ∧
          s'.nused = (s.nused + (usedOf L' - usedOf L)) % WORD) ∧
      (placeL needed L = none →
        fit_block (fuel + L.length + 1) needed a s = .ok (false, 0, s)) := by
  intro L
  induction L with
  | nil => intro a fuel s _ h; exact absurd rfl h
  | cons b L ih =>
    intro a fuel s g _ hwf ht h1 h2
    obtain ⟨sz, fr⟩ := b
    have hb : sz % 8 = 0 := hwf (sz, fr) (List.mem_cons_self _ _)
    have hwfL : WFBlocks L := fun c hc => hwf c (List.mem_cons_of_mem _ hc)
    obtain ⟨r1, r2, r3⟩ := head_reads g (sz, fr) L a ht hb h1 (by omega)
    simp only at r1 r2 r3
    have hbd := g.hbound
    have hpos := g.hpos
    have ha : a ≠ 0 := by omega
    have h2' : a + (8 + sz + total L) = base + size := h2
    have hs1 : s.segment_start ≤ a := by rw [g.hstart]; exact h1
    have hs2 : a + 8 + sz ≤ s.segment_start + s.segment_size := by
      rw [g.hstart, g.hsize]; omega
    by_cases c1 : fr = true ∧ needed + 16 ≤ sz
    · -- split
      obtain ⟨cfr, cle⟩ := c1
      subst cfr
      have hp : placeL needed ((sz, true) :: L)
          = some (0, (needed, false) :: (sz - needed - 8, true) :: L) := by
        simp [placeL, cle]
      refine ⟨?_, fun h => by rw [hp] at h; cases h⟩
      intro o L' hsome
      rw [hp] at hsome
      obtain ⟨rfl, rfl⟩ : 0 = o ∧ (needed, false) :: (sz - needed - 8, true) :: L = L' := by
        simpa using hsome
      have e0 : fuel + ((sz, true) :: L).length = (fuel + L.length) + 1 := by simp; omega
      rw [e0, fit_block_split s a needed sz _ ha r1 r2 cle hs1 hs2 (by omega)]
      refine ⟨_, rfl, ⟨g.hstart, g.hsize, g.hend, g.hpos, g.hbound⟩, ?_, ?_, ?_⟩
      · refine ⟨?_, ?_, ?_⟩
        · show load64 (setHdrMem (setHdrMem s.mem a needed 0) (a + 8 + needed)
            (sz - needed - 8) 1) a = _
          rw [load64_setHdrMem_disj _ _ _ _ _ (Or.inr (by omega)),
            load64_setHdrMem_same _ _ _ _ (by omega) (by omega) (Or.inl rfl)]
          rfl
        · show load64 (setHdrMem (setHdrMem s.mem a needed 0) (a + 8 + needed)
            (sz - needed - 8) 1) (a + 8 + needed) = _
          rw [load64_setHdrMem_same _ _ _ _ (by omega) (by omega) (Or.inr rfl)]
          rfl
        · have e : a + 8 + needed + 8 + (sz - needed - 8) = a + 8 + sz := by omega
          show Tiles _ (a + 8 + needed + 8 + (sz - needed - 8)) L
          rw [e]
          apply Tiles_congr s.mem _ L _ _ ht.2
          intro x hx1 hx2
          show setHdrMem (setHdrMem s.mem a needed 0) (a + 8 + needed) (sz - needed - 8) 1 x = _
          rw [setHdrMem_outside _ _ _ _ _ (Or.inr (by omega)),
            setHdrMem_outside _ _ _ _ _ (Or.inr (by omega))]
      · intro x hx
        simp only [total] at hx
        show setHdrMem (setHdrMem s.mem a needed 0) (a + 8 + needed) (sz - needed - 8) 1 x = _
        rw [setHdrMem_outside _ _ _ _ _ (by omega), setHdrMem_outside _ _ _ _ _ (by omega)]
      · show add64 (add64 s.nused needed) 8 = _
        simp only [usedOf, add64]
        have : (8 + needed + (8 + 0 + usedOf L)) - (8 + 0 + usedOf L) = needed + 8 := by omega
        simp only [Bool.false_eq_true, if_false, if_true, this]
        unfold WORD
        omega
    · by_cases c2 : fr = true ∧ needed = sz
      · -- perfect
        obtain ⟨cfr, ceq⟩ := c2
        subst cfr
        subst ceq
        have hp : placeL needed ((needed, true) :: L) = some (0, (needed, false) :: L) := by
          simp [placeL]
        refine ⟨?_, fun h => by rw [hp] at h; cases h⟩
        intro o L' hsome
        rw [hp] at hsome
        obtain ⟨rfl, rfl⟩ : 0 = o ∧ (needed, false) :: L = L' := by simpa using hsome
        have e0 : fuel + ((needed, true) :: L).length = (fuel + L.length) + 1 := by
          simp; omega
        rw [e0, fit_block_perfect s a needed _ ha r1 r2 hs1 hs2 hn]
        refine ⟨_, rfl, ⟨g.hstart, g.hsize, g.hend, g.hpos, g.hbound⟩, ?_, ?_, ?_⟩
        · refine ⟨?_, ?_⟩
          · show load64 (setHdrMem s.mem a needed 0) a = _
            rw [load64_setHdrMem_same _ _ _ _ (by omega) (by omega) (Or.inl rfl)]
            rfl
          · apply Tiles_congr s.mem _ L _ _ ht.2
            intro x hx1 hx2
            show setHdrMem s.mem a needed 0 x = _
            rw [setHdrMem_outside _ _ _ _ _ (Or.inr (by omega))]
        · intro x hx
          simp only [total] at hx
          show setHdrMem s.mem a needed 0 x = _
          rw [setHdrMem_outside _ _ _ _ _ (by omega)]
        · show add64 s.nused needed = _
          simp only [usedOf, add64]
          have : (8 + needed + usedOf L) - (8 + 0 + usedOf L) = needed := by omega
          simp only [Bool.false_eq_true, if_false, if_true, this]
      · -- skip
        have hnf : ¬ (fr = true ∧ (needed + 16 ≤ sz ∨ needed = sz)) := by
          intro hh
          rcases hh with ⟨hf, hh | hh⟩
          · exact c1 ⟨hf, hh⟩
          · exact c2 ⟨hf, hh⟩
        have hp : placeL needed ((sz, fr) :: L)
            = (placeL needed L).map (fun r => (8 + sz + r.1, (sz, fr) :: r.2)) := by
          simp only [placeL, c1, c2, if_false]
        have hskip : ∀ f, fit_block (f + 1) needed a s
            = fit_block f needed (if a + 8 + sz < base + size then a + 8 + sz else 0) s :=
          fun f => fit_block_skip s a needed f sz _ fr ha r1 r2 r3 hnf hn
        by_cases hL : L = []
        · subst hL
          simp only [total] at h2'
          have hge : ¬ (a + 8 + sz < base + size) := by omega
          simp only [hge, if_false] at hskip
          refine ⟨fun o L' h => by rw [hp] at h; simp [placeL] at h, fun _ => ?_⟩
          have e0 : fuel + [(sz, fr)].length + 1 = (fuel + 1) + 1 := by simp
          rw [e0, hskip, fit_block_null]
        · have hlt : a + 8 + sz < base + size := by
            cases L with
            | nil => exact absurd rfl hL
            | cons c L' => simp only [total] at h2'; omega
          simp only [hlt, if_true] at hskip
          obtain ⟨ih1, ih2⟩ := ih (a + 8 + sz) fuel s g hL hwfL ht.2 (by omega) (by omega)
          refine ⟨?_, ?_⟩
          · intro o L' hsome
            rw [hp] at hsome
            cases hpl : placeL needed L with
            | none => rw [hpl] at hsome; simp at hsome
            | some r =>
              obtain ⟨o', L''⟩ := r
              rw [hpl] at hsome
              obtain ⟨rfl, rfl⟩ : 8 + sz + o' = o ∧ (sz, fr) :: L'' = L' := by
                simpa using hsome
              obtain ⟨s', hs', g', ht', hfrm, hu⟩ := ih1 o' L'' hpl
              have e0 : fuel + ((sz, fr) :: L).length = (fuel + L.length) + 1 := by
                simp; omega
              have e1 : a + (8 + sz + o') = a + 8 + sz + o' := by omega
              refine ⟨s', by rw [e0, hskip, hs', e1], g', ⟨?_, ht'⟩, ?_, ?_⟩
              · show load64 s'.mem a = _
                rw [load64_congr s.mem s'.mem a (fun x hx1 hx2 => hfrm x (Or.inl (by omega)))]
                exact ht.1
              · intro x hx
                simp only [total] at hx
                exact hfrm x (by omega)
              · rw [hu]
                simp only [usedOf]
                congr 2
                omega
          · intro hnone
            rw [hp] at hnone
            have hpl : placeL needed L = none := by
              cases hpl : placeL needed L with
              | none => rfl
              | some r => rw [hpl] at hnone; simp at hnone
            have e0 : fuel + ((sz, fr) :: L).length + 1 = (fuel + L.length + 1) + 1 := by
              simp; omega
            rw [e0, hskip, ih2 hpl]

theorem placeL_props (needed : Nat) (hn8 : needed % 8 = 0) :
    ∀ (L : List Block) (o : Nat) (L' : List Block), WFBlocks L →
      placeL needed L = some (o, L') →
      total L' = total L ∧ WFBlocks L' ∧ usedOf L ≤ usedOf L' ∧
      (∃ M1 M2, L' = M1 ++ (needed, false) :: M2 ∧ total M1 = o) ∧
      (∀ a p, p ∈ allocPtrs a L' ↔ (p = a + o + 8 ∨ p ∈ allocPtrs a L)) ∧
      (∀ a, a + o + 8 ∉ allocPtrs a L) := by
  intro L
  induction L with
  | nil => intro o L' _ h; simp [placeL] at h
  | cons b L ih =>
    intro o L' hwf h
    obtain ⟨sz, fr⟩ := b
    have hb : sz % 8 = 0 := hwf (sz, fr) (List.mem_cons_self _ _)
    have hwfL : WFBlocks L := fun c hc => hwf c (List.mem_cons_of_mem _ hc)
    by_cases c1 : fr = true ∧ needed + 16 ≤ sz
    · obtain ⟨cfr, cle⟩ := c1
      subst cfr
      have hp : placeL needed ((sz, true) :: L)
          = some (0, (needed, false) :: (sz - needed - 8, true) :: L) := by
        simp [placeL, cle]
      rw [hp] at h
      obtain ⟨rfl, rfl⟩ : 0 = o ∧ (needed, false) :: (sz - needed - 8, true) :: L = L' := by
        simpa using h
      refine ⟨by simp only [total]; omega, ?_, by simp [usedOf], ⟨[], _, rfl, rfl⟩, ?_, ?_⟩
      · intro c hc
        rcases List.mem_cons.1 hc with hc | hc
        · subst hc; exact hn8
        · rcases List.mem_cons.1 hc with hc | hc
          · subst hc; show (sz - needed - 8) % 8 = 0; omega
          · exact hwfL c hc
      · intro a p
        have e : a + 8 + needed + 8 + (sz - needed - 8) = a + 8 + sz := by omega
        simp [allocPtrs, e]
      · intro a hmem
        simp only [allocPtrs, if_true] at hmem
        have := (allocPtrs_bounds L _ _ hmem).1
        omega
    · by_cases c2 : fr = true ∧ needed = sz
      · obtain ⟨cfr, ceq⟩ := c2
        subst cfr
        subst ceq
        have hp : placeL needed ((needed, true) :: L) = some (0, (needed, false) :: L) := by
          simp [placeL]
        rw [hp] at h
        obtain ⟨rfl, rfl⟩ : 0 = o ∧ (needed, false) :: L = L' := by simpa using h
        refine ⟨rfl, ?_, by simp [usedOf], ⟨[], _, rfl, rfl⟩, ?_, ?_⟩
        · intro c hc
          rcases List.mem_cons.1 hc with hc | hc
          · subst hc; exact hn8
          · exact hwfL c hc
        · intro a p
          simp [allocPtrs]
        · intro a hmem
          simp only [allocPtrs, if_true] at hmem
          have := (allocPtrs_bounds L _ _ hmem).1
          omega
      · have hp : placeL needed ((sz, fr) :: L)
            = (placeL needed L).map (fun r => (8 + sz + r.1, (sz, fr) :: r.2)) := by
          simp only [placeL, c1, c2, if_false]
        rw [hp] at h
        cases hpl : placeL needed L with
        | none => rw [hpl] at h; simp at h
        | some r =>
          obtain ⟨o', L''⟩ := r
          rw [hpl] at h
          obtain ⟨rfl, rfl⟩ : 8 + sz + o' = o ∧ (sz, fr) :: L'' = L' := by simpa using h
          obtain ⟨i1, i2, i3, ⟨M1, M2, i4, i5⟩, i6, i7⟩ := ih o' L'' hwfL hpl
          refine ⟨by simp only [total, i1], ?_, by simp only [usedOf]; omega,
            ⟨(sz, fr) :: M1, M2, by simp [i4], by simp only [total, i5]⟩, ?_, ?_⟩
          · intro c hc
            rcases List.mem_cons.1 hc with hc | hc
            · subst hc; exact hb
            · exact i2 c hc
          · intro a p
            have e : a + (8 + sz + o') + 8 = a + 8 + sz + o' + 8 := by omega
            simp only [allocPtrs, e]
            cases fr
            · simp only [Bool.false_eq_true, if_false, List.mem_cons, i6]
              constructor
              · rintro (h | h | h)
                · exact Or.inr (Or.inl h)
                · exact Or.inl h
                · exact Or.inr (Or.inr h)
              · rintro (h | h | h)
                · exact Or.inr (Or.inl h)
                · exact Or.inl h
                · exact Or.inr (Or.inr h)
            · simp only [if_true, i6]
          · intro a hmem
            have e : a + (8 + sz + o') + 8 = a + 8 + sz + o' + 8 := by omega
            simp only [allocPtrs, e] at hmem
            cases fr
            · simp only [Bool.false_eq_true, if_false, List.mem_cons] at hmem
              rcases hmem with hmem | hmem
              · omega
              · exact i7 _ hmem
            · simp only [if_true] at hmem
              exact i7 _ hmem

theorem fit_block_mono (needed : Nat) (s : Heap) :
    ∀ (f k a : Nat) (r : Bool × Nat × Heap), fit_block f needed a s = .ok r →
      fit_block (f + k) needed a s = .ok r := by
  intro f
  induction f with
  | zero => intro k a r h; simp [fit_block] at h
  | succ f ih =>
    intro k a r h
    have e : f + 1 + k = (f + k) + 1 := by omega
    rw [e]
    unfold fit_block at h ⊢
    by_cases ha : a = NULL
    · simpa [ha] using h
    · simp only [ha, if_false, bind, Except.bind] at h ⊢
      cases h1 : get_size s a with
      | error e => simp [h1] at h
      | ok sz =>
        simp only [h1] at h ⊢
        cases h2 : is_free s a with
        | error e => simp [h2] at h
        | ok fr =>
          simp only [h2] at h ⊢
          split
          · rename_i hc
            simpa only [hc, if_true] using h
          · rename_i hc
            simp only [hc, if_false] at h
            cases h3 : next_block s a with
            | error e => simp [h3] at h
            | ok nxt =>
              simp only [h3] at h ⊢
              exact ih k nxt r h

end Implicit

theorem HeapInv.walk_sums {base size : Nat} {s : Heap} {L : List Block} (h : HeapInv base size s L)
    (fuel : Nat) (hf : size ≤ fuel) :
    validate_loop fuel s s.segment_start 0 0 = .ok (s.segment_size, s.nused) := by
  have hlen : L.length ≤ fuel := by
    have := length_le_total L
    have := h.tot
    omega
  obtain ⟨f, rfl⟩ : ∃ f, fuel = f + L.length := ⟨fuel - L.length, by omega⟩
  have hb := h.geom.hbound
  have hu := usedOf_le_total L
  have ht := h.tot
  rw [h.geom.hstart, validate_loop_tiles h.geom L base f 0 0 h.ne h.wf h.tiles (le_refl _)
    (by omega) (by omega) (by omega), h.geom.hsize, h.used]
  simp [ht]

theorem HeapInv.validates {base size : Nat} {s : Heap} {L : List Block} (h : HeapInv base size s L)
    (fuel : Nat) (hf : size ≤ fuel) : validate_heap fuel s = .ok true := by
  have hu := usedOf_le_total L
  have hle : ¬ s.nused > s.segment_size := by
    rw [h.used, h.geom.hsize, ← h.tot]; omega
  unfold validate_heap
  simp [hle, h.walk_sums fuel hf, bind, Except.bind, pure, Except.pure]

theorem roundup_mod8 (n : Nat) : roundup n ALIGNMENT % 8 = 0 := by
  rw [roundup_eq]
  omega

theorem roundup_props (n : Nat) (h : n + 7 < WORD) :
    roundup n ALIGNMENT % 8 = 0 ∧ n ≤ roundup n ALIGNMENT ∧ roundup n ALIGNMENT ≤ n + 7 := by
  rw [roundup_eq, Nat.mod_eq_of_lt h]
  omega

namespace Implicit

theorem myinit_inv (s0 s : Heap) (base size : Nat) (h8 : size % 8 = 0) (hs0 : size ≠ 0)
    (hpos : 0 < base) (hbound : base + size < WORD)
    (h : myinit s0 base size = .ok (true, s)) :
    HeapInv base size s [(size - 8, true)] ∧ 16 ≤ size := by
  unfold myinit at h
  simp only [HEADER_SIZE] at h
  have e1 : add64 base size = base + size := add64_eq _ _ hbound
  by_cases hs : size < 16
  · exfalso
    by_cases hs8 : size < 8
    · omega
    · have e2 : sub64 size 8 = size - 8 := sub64_eq _ _ (by omega) (by omega)
      rw [e2] at h
      have : size - 8 < 8 := by omega
      simp [this, pure, Except.pure] at h
  · have e2 : sub64 size 8 = size - 8 := sub64_eq _ _ (by omega) (by omega)
    have hin : ∀ t : Heap, t.segment_start = base → t.segment_size = size →
        inSegment t base := by
      intro t h1 h2
      unfold inSegment
      rw [h1, h2]
      omega
    rw [e2] at h
    have hge : ¬ size - 8 < 8 := by omega
    have hset := set_header_ok (⟨base, size, add64 base size, s0.nused, s0.mem⟩ : Heap) base
      (size - 8) FREE (hin _ rfl rfl)
    simp only [hge, if_false, hset, bind, Except.bind, pure, Except.pure,
      Except.ok.injEq, Prod.mk.injEq, true_and] at h
    subst h
    refine ⟨⟨⟨rfl, rfl, e1, hpos, hbound⟩, by simp, ?_, ?_, ?_, ?_⟩, by omega⟩
    · intro b hb
      simp only [List.mem_singleton] at hb
      subst hb
      show (size - 8) % 8 = 0
      omega
    · refine ⟨?_, trivial⟩
      show load64 (setHdrMem s0.mem base (size - 8) 1) base = _
      rw [load64_setHdrMem_same _ _ _ _ (by omega) (by omega) (Or.inr rfl)]
      rfl
    · simp only [total]; omega
    · simp [usedOf]

theorem mymalloc_inv_gen {base size : Nat} (MAX : Nat) (s s' : Heap)
    (L : List Block) (fuel n p : Nat) (hinv : HeapInv base size s L)
    (hn16 : n ≤ MAX → roundup n ALIGNMENT + 16 < WORD)
    (h : mymalloc MAX fuel s n = .ok (p, s')) :
    (p = 0 ∧ s' = s) ∨
    (p ≠ 0 ∧ n ≠ 0 ∧ n ≤ MAX ∧
      ¬ add64 s.nused (add64 HEADER_SIZE (roundup n ALIGNMENT)) > s.segment_size ∧
      ∃ o L', placeL (roundup n ALIGNMENT) L = some (o, L') ∧ p = base + o + 8 ∧
      HeapInv base size s' L' ∧ p ∉ allocPtrs base L ∧
      (∀ q, q ∈ allocPtrs base L' ↔ (q = p ∨ q ∈ allocPtrs base L)) ∧
      ∃ M1 M2, L' = M1 ++ (roundup n ALIGNMENT, false) :: M2 ∧ p = base + total M1 + 8) := by
  unfold mymalloc at h
  by_cases h0 : n = 0
  · left; simpa [h0, pure, Except.pure, NULL, eq_comm] using h
  · by_cases h1 : n > MAX
    · left; simpa [h0, h1, pure, Except.pure, NULL, eq_comm] using h
    · simp only [h0, h1, if_false] at h
      split at h
      · left; simpa [pure, Except.pure, NULL, eq_comm] using h
      · rename_i hcap
        right
        have hr8 := roundup_mod8 n
        have hn16 : roundup n ALIGNMENT + 16 < WORD := hn16 (by omega)
        have g := hinv.geom
        have hpl := @fit_block_place base size (roundup n ALIGNMENT) hr8 hn16
          L base (fuel + 1) s g hinv.ne hinv.wf hinv.tiles (le_refl _)
          (by rw [hinv.tot])
        rw [g.hstart] at h
        cases hfb : fit_block fuel (roundup n ALIGNMENT) base s with
        | error e => simp [hfb, bind, Except.bind] at h
        | ok r =>
          have hm := fit_block_mono _ s fuel (L.length + 1) base r hfb
          cases hp : placeL (roundup n ALIGNMENT) L with
          | none =>
            exfalso
            have h2 := hpl.2 hp
            have e : fuel + 1 + L.length + 1 = fuel + (L.length + 1) + 1 := by omega
            rw [e] at h2
            have hm' := fit_block_mono _ s fuel (L.length + 1 + 1) base r hfb
            have e' : fuel + (L.length + 1 + 1) = fuel + (L.length + 1) + 1 := by omega
            rw [e', h2] at hm'
            cases hm'
            simp [hfb, bind, Except.bind, next_block_fault s g.notInSeg_zero] at h
          | some ol =>
            obtain ⟨o, L'⟩ := ol
            obtain ⟨s1, hs1, g1, ht1, hfrm, hu1⟩ := hpl.1 o L' hp
            have e : fuel + 1 + L.length = fuel + (L.length + 1) := by omega
            rw [e, hm] at hs1
            cases hs1
            obtain ⟨p1, p2, p3, ⟨M1, M2, p4, p5⟩, p6, p7⟩ :=
              placeL_props _ hr8 L o L' hinv.wf hp
            have hb := g.hbound
            have hol : o + 8 ≤ size := by
              have : total L' = size := by rw [p1, hinv.tot]
              rw [p4, total_append] at this
              simp only [total] at this
              omega
            have ep : header2payload (base + o) = base + o + 8 := by
              unfold header2payload HEADER_SIZE
              exact add64_eq _ _ (by omega)
            simp only [hfb, bind, Except.bind, Bool.not_true, Bool.false_eq_true, if_false, pure,
              Except.pure, Except.ok.injEq, Prod.mk.injEq, ep] at h
            obtain ⟨rfl, rfl⟩ := h
            refine ⟨by omega, h0, by omega, hcap, o, L', rfl, rfl,
              ⟨g1, ?_, p2, ht1, by rw [p1, hinv.tot], ?_⟩, p7 base, p6 base,
              M1, M2, p4, by omega⟩
            · rw [p4]; simp
            · rw [hu1, hinv.used]
              have := usedOf_le_total L'
              have : total L' = size := by rw [p1, hinv.tot]
              have e3 : usedOf L + (usedOf L' - usedOf L) = usedOf L' := by omega
              rw [e3]
              apply Nat.mod_eq_of_lt
              omega

theorem mymalloc_inv {base size : Nat} (MAX : Nat) (hMAX : MAX ≤ WORD - 24) (s s' : Heap)
    (L : List Block) (fuel n p : Nat) (hinv : HeapInv base size s L)
    (h : mymalloc MAX fuel s n = .ok (p, s')) :
    (p = 0 ∧ s' = s) ∨
    (p ≠ 0 ∧ ∃ L', HeapInv base size s' L' ∧ p ∉ allocPtrs base L ∧
      (∀ q, q ∈ allocPtrs base L' ↔ (q = p ∨ q ∈ allocPtrs base L)) ∧
      ∃ M1 M2, L' = M1 ++ (roundup n ALIGNMENT, false) :: M2 ∧ p = base + total M1 + 8) := by
  have hn16 : n ≤ MAX → roundup n ALIGNMENT + 16 < WORD := by
    intro hle
    have hW : n + 7 < WORD := by unfold WORD at *; omega
    have := (roundup_props n hW).2.2
    unfold WORD at *
    omega
  rcases mymalloc_inv_gen MAX s s' L fuel n p hinv hn16 h with h1 |
    ⟨h1, _, _, _, o, L', _, _, h2, h3, h4, h5⟩
  · exact Or.inl h1
  · exact Or.inr ⟨h1, L', h2, h3, h4, h5⟩

/-- The reads of `myfree` at an allocated block of a tiled heap. -/
theorem free_setup {base size : Nat} (s : Heap) (L1 : List Block) (sz : Nat) (L2 : List Block)
    (hinv : HeapInv base size s (L1 ++ (sz, false) :: L2)) :
    payload2header (base + total L1 + 8) = base + total L1 ∧
    base + total L1 + 8 ≠ NULL ∧ inSegment s (base + total L1) ∧
    get_size s (base + total L1) = .ok sz ∧ is_free s (base + total L1) = .ok false ∧
    next_block s (base + total L1)
      = .ok (if base + total L1 + 8 + sz < base + size then base + total L1 + 8 + sz else 0) ∧
    Tiles s.mem base L1 ∧ Tiles s.mem (base + total L1 + 8 + sz) L2 ∧
    total L1 + (8 + sz + total L2) = size ∧
    s.nused = usedOf L1 + (8 + sz + usedOf L2) ∧ sz % 8 = 0 := by
  have g := hinv.geom
  have hb := g.hbound
  have hpos := g.hpos
  have htot := hinv.tot
  rw [total_append] at htot
  simp only [total] at htot
  obtain ⟨ht1, ht2⟩ := (Tiles_append s.mem L1 _ base).1 hinv.tiles
  have hsz : sz % 8 = 0 := hinv.wf (sz, false) (List.mem_append_right _ (List.mem_cons_self _ _))
  have hused := hinv.used
  rw [usedOf_append] at hused
  simp only [usedOf, Bool.false_eq_true, if_false] at hused
  obtain ⟨r1, r2, r3⟩ := head_reads g (sz, false) L2 (base + total L1) ht2 hsz (by omega)
    (by simp only [total]; omega)
  refine ⟨?_, by unfold NULL; omega, g.inSeg _ (by omega) (by omega), r1, r2, r3, ht1, ht2.2,
    htot, hused, hsz⟩
  unfold payload2header HEADER_SIZE
  rw [sub64_eq _ _ (by omega) (by omega)]
  omega

/-- Freeing the last block of the heap: `next_block` returns null and `is_free(NULL)` is a
null dereference. -/
theorem myfree_last {base size : Nat} (s : Heap) (L1 : List Block) (sz : Nat)
    (hinv : HeapInv base size s (L1 ++ [(sz, false)])) :
    myfree s (base + total L1 + 8) = .error Err.fault := by
  obtain ⟨eh, hp0, _, r1, r2, r3, _, _, htot, _, _⟩ := free_setup s L1 sz [] hinv
  simp only [total] at htot
  have : ¬ (base + total L1 + 8 + sz < base + size) := by omega
  unfold myfree
  simp [hp0, eh, r1, r2, r3, bind, Except.bind, this, is_free_fault s hinv.geom.notInSeg_zero]

/-- Freeing a block whose successor is free: the two blocks become one free block. -/
theorem myfree_coalesce {base size : Nat} (s : Heap) (L1 : List Block) (sz t : Nat)
    (L3 : List Block) (hinv : HeapInv base size s (L1 ++ (sz, false) :: (t, true) :: L3)) :
    ∃ s', myfree s (base + total L1 + 8) = .ok s' ∧
      HeapInv base size s' (L1 ++ (sz + 8 + t, true) :: L3) := by
  obtain ⟨eh, hp0, hin, r1, r2, r3, ht1, ht2, htot, hused, hsz⟩ := free_setup s L1 sz _ hinv
  have g := hinv.geom
  have hb := g.hbound
  simp only [total] at htot
  simp only [usedOf, if_true] at hused
  have hlt : base + total L1 + 8 + sz < base + size := by omega
  have hwf3 : WFBlocks ((t, true) :: L3) := fun c hc =>
    hinv.wf c (List.mem_append_right _ (List.mem_cons_of_mem _ hc))
  have ht8 : t % 8 = 0 := hwf3 (t, true) (List.mem_cons_self _ _)
  obtain ⟨q1, q2, _⟩ := head_reads g (t, true) L3 (base + total L1 + 8 + sz) ht2 ht8
    (by omega) (by simp only [total]; omega)
  simp only at q1 q2
  have e1 : add64 (add64 sz HEADER_SIZE) t = sz + 8 + t := by
    unfold HEADER_SIZE
    rw [add64_eq sz 8 (by omega), add64_eq _ _ (by omega)]
  have e2 : add64 HEADER_SIZE sz = 8 + sz := add64_eq _ _ (by unfold HEADER_SIZE; omega)
  refine ⟨{ s with mem := setHdrMem s.mem (base + total L1) (sz + 8 + t) 1,
                   nused := sub64 s.nused (8 + sz) }, ?_,
    ⟨⟨g.hstart, g.hsize, g.hend, g.hpos, g.hbound⟩, by simp, ?_, ?_, ?_, ?_⟩⟩
  · unfold myfree
    simp only [hp0, if_false, eh, r1, r2, r3, bind, Except.bind, Bool.not_false, if_true, hlt,
      q1, q2, e1, e2, set_header_ok _ _ _ _ hin, pure, Except.pure, FREE]
  · intro c hc
    rcases List.mem_append.1 hc with hc | hc
    · exact hinv.wf c (List.mem_append_left _ hc)
    · rcases List.mem_cons.1 hc with hc | hc
      · subst hc; show (sz + 8 + t) % 8 = 0; omega
      · exact hwf3 c (List.mem_cons_of_mem _ hc)
  · rw [Tiles_append]
    refine ⟨Tiles_congr s.mem _ L1 base
      (fun x _ hx => setHdrMem_outside _ _ _ _ _ (Or.inl hx)) ht1, ?_, ?_⟩
    · show load64 (setHdrMem s.mem (base + total L1) (sz + 8 + t) 1) _ = _
      rw [load64_setHdrMem_same _ _ _ _ (by omega) (by omega) (Or.inr rfl)]
      rfl
    · have e : base + total L1 + 8 + (sz + 8 + t) = base + total L1 + 8 + sz + 8 + t := by
        omega
      show Tiles _ (base + total L1 + 8 + (sz + 8 + t)) L3
      rw [e]
      exact Tiles_congr s.mem _ L3 _
        (fun x hx1 _ => setHdrMem_outside _ _ _ _ _ (Or.inr (by omega))) ht2.2
  · rw [total_append]; simp only [total]; omega
  · show sub64 s.nused (8 + sz) = _
    rw [usedOf_append, hused]
    simp only [usedOf, if_true]
    have := usedOf_le_total L1
    have := usedOf_le_total L3
    rw [sub64_eq _ _ (by omega) (by omega)]
    omega

/-- Freeing a block whose successor is allocated: only its status changes. -/
theorem myfree_plain {base size : Nat} (s : Heap) (L1 : List Block) (sz t : Nat)
    (L3 : List Block) (hinv : HeapInv base size s (L1 ++ (sz, false) :: (t, false) :: L3)) :
    ∃ s', myfree s (base + total L1 + 8) = .ok s' ∧
      HeapInv base size s' (L1 ++ (sz, true) :: (t, false) :: L3) := by
  obtain ⟨eh, hp0, hin, r1, r2, r3, ht1, ht2, htot, hused, hsz⟩ := free_setup s L1 sz _ hinv
  have g := hinv.geom
  have hb := g.hbound
  simp only [total] at htot
  simp only [usedOf, Bool.false_eq_true, if_false] at hused
  have hlt : base + total L1 + 8 + sz < base + size := by omega
  have hwf3 : WFBlocks ((t, false) :: L3) := fun c hc =>
    hinv.wf c (List.mem_append_right _ (List.mem_cons_of_mem _ hc))
  have ht8 : t % 8 = 0 := hwf3 (t, false) (List.mem_cons_self _ _)
  obtain ⟨_, q2, _⟩ := head_reads g (t, false) L3 (base + total L1 + 8 + sz) ht2 ht8
    (by omega) (by simp only [total]; omega)
  simp only at q2
  refine ⟨{ s with mem := setHdrMem s.mem (base + total L1) sz 1,
                   nused := sub64 s.nused sz }, ?_,
    ⟨⟨g.hstart, g.hsize, g.hend, g.hpos, g.hbound⟩, by simp, ?_, ?_, ?_, ?_⟩⟩
  · unfold myfree
    simp only [hp0, if_false, eh, r1, r2, r3, bind, Except.bind, Bool.not_false, if_true, hlt,
      q2, Bool.false_eq_true, set_header_ok _ _ _ _ hin, pure, Except.pure, FREE]
  · intro c hc
    rcases List.mem_append.1 hc with hc | hc
    · exact hinv.wf c (List.mem_append_left _ hc)
    · rcases List.mem_cons.1 hc with hc | hc
      · subst hc; exact hsz
      · exact hwf3 c hc
  · rw [Tiles_append]
    refine ⟨Tiles_congr s.mem _ L1 base
      (fun x _ hx => setHdrMem_outside _ _ _ _ _ (Or.inl hx)) ht1, ?_, ?_⟩
    · show load64 (setHdrMem s.mem (base + total L1) sz 1) _ = _
      rw [load64_setHdrMem_same _ _ _ _ (by omega) (by omega) (Or.inr rfl)]
      rfl
    · exact Tiles_congr s.mem _ _ _
        (fun x hx1 _ => setHdrMem_outside _ _ _ _ _ (Or.inr (by omega))) ht2
  · rw [total_append]; simp only [total]; omega
  · show sub64 s.nused sz = _
    rw [usedOf_append, hused]
    simp only [usedOf, if_true, Bool.false_eq_true, if_false]
    have := usedOf_le_total L1
    have := usedOf_le_total L3
    rw [sub64_eq _ _ (by omega) (by omega)]
    omega

theorem myfree_inv {base size : Nat} (s s' : Heap) (L : List Block) (p : Nat)
    (hinv : HeapInv base size s L) (hp : p ∈ allocPtrs base L) (h : myfree s p = .ok s') :
    ∃ L', HeapInv base size s' L' ∧
      ∀ q, q ≠ p → q ∈ allocPtrs base L → q ∈ allocPtrs base L' := by
  obtain ⟨L1, sz, L2, rfl, hpe⟩ := mem_allocPtrs L base p hp
  subst hpe
  cases L2 with
  | nil =>
    rw [myfree_last s L1 sz hinv] at h
    cases h
  | cons c L3 =>
    obtain ⟨t, fr2⟩ := c
    have halloc : allocPtrs base (L1 ++ (sz, false) :: (t, fr2) :: L3)
        = allocPtrs base L1 ++ (base + total L1 + 8)
          :: allocPtrs (base + total L1 + 8 + sz) ((t, fr2) :: L3) := by
      rw [allocPtrs_append]
      simp [allocPtrs]
    cases fr2 with
    | true =>
      obtain ⟨s2, hs2, hinv2⟩ := myfree_coalesce s L1 sz t L3 hinv
      rw [hs2] at h
      cases h
      refine ⟨_, hinv2, ?_⟩
      intro q hq hmem
      rw [halloc] at hmem
      rw [allocPtrs_append]
      simp only [allocPtrs, if_true] at hmem ⊢
      have e : base + total L1 + 8 + (sz + 8 + t) = base + total L1 + 8 + sz + 8 + t := by
        omega
      rw [e]
      rcases List.mem_append.1 hmem with hm | hm
      · exact List.mem_append_left _ hm
      · rcases List.mem_cons.1 hm with hm | hm
        · exact absurd hm hq
        · exact List.mem_append_right _ hm
    | false =>
      obtain ⟨s2, hs2, hinv2⟩ := myfree_plain s L1 sz t L3 hinv
      rw [hs2] at h
      cases h
      refine ⟨_, hinv2, ?_⟩
      intro q hq hmem
      rw [halloc] at hmem
      rw [allocPtrs_append]
      simp only [allocPtrs, if_true]
      rcases List.mem_append.1 hmem with hm | hm
      · exact List.mem_append_left _ hm
      · rcases List.mem_cons.1 hm with hm | hm
        · exact absurd hm hq
        · exact List.mem_append_right _ hm

end Implicit

theorem memcpy_inv {base size : Nat} (s s' : Heap) (M1 M2 : List Block) (sz : Nat) (fr : Bool)
    (dst src n : Nat) (hinv : HeapInv base size s (M1 ++ (sz, fr) :: M2))
    (hd : dst = base + total M1 + 8) (hn : n ≤ sz) (h : memcpy s dst src n = .ok s') :
    HeapInv base size s' (M1 ++ (sz, fr) :: M2) := by
  unfold memcpy at h
  by_cases h0 : n = 0
  · simp only [h0, if_true, Except.ok.injEq] at h
    subst h
    exact hinv
  · simp only [h0, if_false] at h
    split at h
    · simp only [Except.ok.injEq] at h
      subst h
      have g := hinv.geom
      obtain ⟨ht1, ht2⟩ := (Tiles_append s.mem M1 _ base).1 hinv.tiles
      refine ⟨⟨g.hstart, g.hsize, g.hend, g.hpos, g.hbound⟩, hinv.ne, hinv.wf, ?_, hinv.tot,
        hinv.used⟩
      have hout : ∀ x, x < dst ∨ dst + n ≤ x →
          (fun x => if dst ≤ x ∧ x < dst + n then s.mem (src + (x - dst)) else s.mem x) x
            = s.mem x := by
        intro x hx
        have : ¬ (dst ≤ x ∧ x < dst + n) := by omega
        simp only [this, if_false]
      rw [Tiles_append]
      refine ⟨Tiles_congr s.mem _ M1 base (fun x _ hx => hout x (by omega)) ht1, ?_, ?_⟩
      · show load64 _ (base + total M1) = _
        rw [load64_congr s.mem _ _ (fun x _ hx => hout x (by omega))]
        exact ht2.1
      · exact Tiles_congr s.mem _ M2 _ (fun x hx _ => hout x (by omega)) ht2.2
    · cases h

namespace Implicit

theorem myrealloc_inv {base size : Nat} (MAX : Nat) (hMAX : MAX ≤ WORD - 24) (s s' : Heap)
    (L : List Block) (fuel old n q : Nat) (hinv : HeapInv base size s L)
    (hold : old = 0 ∨ old ∈ allocPtrs base L)
    (h : myrealloc MAX fuel s old n = .ok (q, s')) :
    ∃ L', HeapInv base size s' L' ∧
      (∀ r, r ≠ old → r ∈ allocPtrs base L → r ∈ allocPtrs base L') ∧
      (q ≠ 0 → q ∈ allocPtrs base L') := by
  unfold myrealloc at h
  cases hm : mymalloc MAX fuel s n with
  | error e => simp [hm, bind, Except.bind] at h
  | ok r =>
    obtain ⟨q1, s1⟩ := r
    simp only [hm, bind, Except.bind, NULL] at h
    have g := hinv.geom
    rcases mymalloc_inv MAX hMAX s s1 L fuel n q1 hinv hm with ⟨hq0, hs1⟩ |
      ⟨hq0, L1, hinv1, hnot, hiff, M1, M2, hL1, hq1⟩
    · subst hq0
      subst hs1
      by_cases ho : old = 0
      · simp only [ho, if_true, pure, Except.pure, Except.ok.injEq, Prod.mk.injEq] at h
        obtain ⟨rfl, rfl⟩ := h
        exact ⟨L, hinv, fun r _ hr => hr, fun hq => absurd rfl hq⟩
      · simp only [ho, if_false] at h
        have holdm : old ∈ allocPtrs base L := by
          rcases hold with h' | h'
          · exact absurd h' ho
          · exact h'
        by_cases hn0 : n = 0
        · simp only [hn0, ne_eq, not_true_eq_false, if_false, pure, Except.pure] at h
          cases hf : myfree s1 old with
          | error e => simp [hf] at h
          | ok s3 =>
            simp only [hf, Except.ok.injEq, Prod.mk.injEq] at h
            obtain ⟨rfl, rfl⟩ := h
            obtain ⟨L', hinv', hpres⟩ := myfree_inv s1 s3 L old hinv holdm hf
            exact ⟨L', hinv', hpres, fun hq => absurd rfl hq⟩
        · exfalso
          have hpos := g.hpos
          have hc : memcpy s1 0 old n = .error Err.fault := by
            unfold memcpy
            have : ¬ (mapped s1 0 n ∧ mapped s1 old n) := by
              intro hm
              rcases hm.1 with h1 | h1
              · rw [g.hstart] at h1; omega
              · exact h1 rfl
            simp only [hn0, if_false, this]
          simp [hn0, hc] at h
    · by_cases ho : old = 0
      · simp only [ho, if_true, pure, Except.pure, Except.ok.injEq, Prod.mk.injEq] at h
        obtain ⟨rfl, rfl⟩ := h
        exact ⟨L1, hinv1, fun r _ hr => (hiff r).2 (Or.inr hr), fun _ => (hiff q1).2 (Or.inl rfl)⟩
      · simp only [ho, if_false] at h
        have holdm : old ∈ allocPtrs base L := by
          rcases hold with h' | h'
          · exact absurd h' ho
          · exact h'
        have hne : q1 ≠ old := fun e => hnot (e ▸ holdm)
        have hstep : ∀ s2, HeapInv base size s2 L1 → ∀ s3, myfree s2 old = .ok s3 →
            ∃ L', HeapInv base size s3 L' ∧
              (∀ r, r ≠ old → r ∈ allocPtrs base L → r ∈ allocPtrs base L') ∧
              (q1 ≠ 0 → q1 ∈ allocPtrs base L') := by
          intro s2 hinv2 s3 hf
          obtain ⟨L', hinv', hpres⟩ :=
            myfree_inv s2 s3 L1 old hinv2 ((hiff old).2 (Or.inr holdm)) hf
          exact ⟨L', hinv', fun r hr hm => hpres r hr ((hiff r).2 (Or.inr hm)),
            fun _ => hpres q1 hne ((hiff q1).2 (Or.inl rfl))⟩
        by_cases hn0 : n = 0
        · simp only [hn0, ne_eq, not_true_eq_false, if_false, pure, Except.pure] at h
          cases hf : myfree s1 old with
          | error e => simp [hf] at h
          | ok s3 =>
            simp only [hf, Except.ok.injEq, Prod.mk.injEq] at h
            obtain ⟨rfl, rfl⟩ := h
            exact hstep s1 hinv1 s3 hf
        · simp only [hn0, ne_eq, not_false_eq_true, if_true] at h
          cases hc : memcpy s1 q1 old n with
          | error e => simp [hc] at h
          | ok s2 =>
            simp only [hc] at h
            cases hf : myfree s2 old with
            | error e => simp [hf] at h
            | ok s3 =>
              simp only [hf, pure, Except.pure, Except.ok.injEq, Prod.mk.injEq] at h
              obtain ⟨rfl, rfl⟩ := h
              have hle : n ≤ MAX := by
                by_contra hgt
                have : mymalloc MAX fuel s n = .ok (NULL, s) := by
                  unfold mymalloc
                  simp only [hn0, if_false]
                  have : n > MAX := by omega
                  simp only [this, if_true, pure, Except.pure]
                rw [this] at hm
                simp only [Except.ok.injEq, Prod.mk.injEq, NULL] at hm
                exact hq0 hm.1.symm
              have hW : n + 7 < WORD := by unfold WORD at *; omega
              have hr := (roundup_props n hW).2.1
              subst hL1
              exact hstep s2 (memcpy_inv s1 s2 M1 M2 _ false q1 old n hinv1 hq1 hr hc) s3 hf

theorem step_inv {MAX base size : Nat} (hMAX : MAX ≤ WORD - 24) {c c' : Heap × List Nat}
    (h : Step MAX c c') (hc : ∃ L, HeapInv base size c.1 L ∧ LiveOk base L c.2) :
    ∃ L, HeapInv base size c'.1 L ∧ LiveOk base L c'.2 := by
  cases h with
  | malloc s s' live fuel n p hm =>
    obtain ⟨L, hinv, hlive⟩ := hc
    rcases mymalloc_inv MAX hMAX s s' L fuel n p hinv hm with ⟨hq0, hs1⟩ |
      ⟨hq0, L1, hinv1, _, hiff, _⟩
    · subst hq0; subst hs1
      exact ⟨L, hinv, by simpa [NULL] using hlive⟩
    · refine ⟨L1, hinv1, ?_⟩
      intro r hr
      simp only [NULL, hq0, if_false, List.mem_cons] at hr
      rcases hr with hr | hr
      · exact (hiff r).2 (Or.inl hr)
      · exact (hiff r).2 (Or.inr (hlive r hr))
  | free s s' live p hp hf =>
    obtain ⟨L, hinv, hlive⟩ := hc
    by_cases hp0 : p = NULL
    · have : s' = s := by
        unfold myfree at hf
        simpa [hp0, pure, Except.pure, eq_comm] using hf
      subst this
      exact ⟨L, hinv, fun r hr => hlive r (List.mem_filter.1 hr).1⟩
    · have hpm : p ∈ live := by
        rcases hp with h' | h'
        · exact absurd h' hp0
        · exact h'
      obtain ⟨L', hinv', hpres⟩ := myfree_inv s s' L p hinv (hlive p hpm) hf
      refine ⟨L', hinv', fun r hr => ?_⟩
      obtain ⟨hr1, hr2⟩ := List.mem_filter.1 hr
      exact hpres r (by simpa using hr2) (hlive r hr1)
  | realloc s s' live fuel old n q ho hr =>
    obtain ⟨L, hinv, hlive⟩ := hc
    have hold : old = 0 ∨ old ∈ allocPtrs base L := by
      rcases ho with h' | h'
      · exact Or.inl h'
      · exact Or.inr (hlive old h')
    obtain ⟨L', hinv', hpres, hq⟩ := myrealloc_inv MAX hMAX s s' L fuel old n q hinv hold hr
    refine ⟨L', hinv', ?_⟩
    have hfilt : ∀ r ∈ live.filter (fun x => decide (x ≠ old)), r ∈ allocPtrs base L' := by
      intro r hr
      obtain ⟨hr1, hr2⟩ := List.mem_filter.1 hr
      exact hpres r (by simpa using hr2) (hlive r hr1)
    intro r hr
    by_cases hq0 : q = NULL
    · simp only [hq0, if_true] at hr
      exact hfilt r hr
    · simp only [hq0, if_false, List.mem_cons] at hr
      rcases hr with hr | hr
      · subst hr; exact hq hq0
      · exact hfilt r hr

theorem reachable_inv {MAX base size : Nat} (hMAX : MAX ≤ WORD - 24) (hs0 : size ≠ 0)
    {s : Heap} {live : List Nat} (h : Reachable MAX base size s live) :
    ∃ L, HeapInv base size s L ∧ LiveOk base L live := by
  obtain ⟨s0, s1, _, h8, hpos, hb, hi, hsteps⟩ := h
  have h1 : ∃ L, HeapInv base size (s1, ([] : List Nat)).1 L
      ∧ LiveOk base L (s1, ([] : List Nat)).2 :=
    ⟨_, (myinit_inv s0 s1 base size h8 hs0 hpos hb hi).1, fun p hp => by cases hp⟩
  have key : ∀ c c' : Heap × List Nat, Relation.ReflTransGen (Step MAX) c c' →
      (∃ L, HeapInv base size c.1 L ∧ LiveOk base L c.2) →
      ∃ L, HeapInv base size c'.1 L ∧ LiveOk base L c'.2 := by
    intro c c' hr
    induction hr with
    | refl => exact id
    | tail _ hstep ih => exact fun hc => step_inv hMAX hstep (ih hc)
  exact key _ _ hsteps h1

theorem mymalloc_place {base size : Nat} (MAX : Nat) (s : Heap) (L : List Block)
    (fuel n o : Nat) (L' : List Block) (hinv : HeapInv base size s L) (hn0 : n ≠ 0)
    (hnM : n ≤ MAX) (hn16 : roundup n ALIGNMENT + 16 < WORD)
    (hcap : ¬ add64 s.nused (add64 HEADER_SIZE (roundup n ALIGNMENT)) > s.segment_size)
    (hp : placeL (roundup n ALIGNMENT) L = some (o, L')) (hf : L.length ≤ fuel) :
    ∃ s', mymalloc MAX fuel s n = .ok (base + o + 8, s') ∧ HeapInv base size s' L' := by
  have g := hinv.geom
  have hr8 := roundup_mod8 n
  obtain ⟨f, rfl⟩ : ∃ f, fuel = f + L.length := ⟨fuel - L.length, by omega⟩
  obtain ⟨s1, hs1, g1, ht1, _, hu1⟩ := (@fit_block_place base size (roundup n ALIGNMENT) hr8 hn16
    L base f s g hinv.ne hinv.wf hinv.tiles (le_refl _) (by rw [hinv.tot])).1 o L' hp
  obtain ⟨p1, p2, p3, ⟨M1, M2, p4, p5⟩, _, _⟩ := placeL_props _ hr8 L o L' hinv.wf hp
  have hb := g.hbound
  have htot' : total L' = size := by rw [p1, hinv.tot]
  have hol : o + 8 ≤ size := by
    have := htot'
    rw [p4, total_append] at this
    simp only [total] at this
    omega
  have ep : header2payload (base + o) = base + o + 8 := by
    unfold header2payload HEADER_SIZE
    exact add64_eq _ _ (by omega)
  have hnM' : ¬ n > MAX := by omega
  refine ⟨s1, ?_, ⟨g1, by rw [p4]; simp, p2, ht1, htot', ?_⟩⟩
  · unfold mymalloc
    simp only [hn0, hnM', hcap, if_false, g.hstart, hs1, bind, Except.bind, Bool.not_true,
      Bool.false_eq_true, pure, Except.pure, ep]
  · rw [hu1, hinv.used]
    have := usedOf_le_total L'
    have e3 : usedOf L + (usedOf L' - usedOf L) = usedOf L' := by omega
    rw [e3]
    apply Nat.mod_eq_of_lt
    omega

theorem mymalloc_noplace {base size : Nat} (MAX : Nat) (s : Heap) (L : List Block)
    (fuel n : Nat) (hinv : HeapInv base size s L) (hn0 : n ≠ 0)
    (hnM : n ≤ MAX) (hn16 : roundup n ALIGNMENT + 16 < WORD)
    (hcap : ¬ add64 s.nused (add64 HEADER_SIZE (roundup n ALIGNMENT)) > s.segment_size)
    (hp : placeL (roundup n ALIGNMENT) L = none) (hf : L.length + 1 ≤ fuel) :
    mymalloc MAX fuel s n = .error Err.fault := by
  have g := hinv.geom
  have hr8 := roundup_mod8 n
  obtain ⟨f, rfl⟩ : ∃ f, fuel = f + L.length + 1 := ⟨fuel - L.length - 1, by omega⟩
  have h2 := (@fit_block_place base size (roundup n ALIGNMENT) hr8 hn16
    L base f s g hinv.ne hinv.wf hinv.tiles (le_refl _) (by rw [hinv.tot])).2 hp
  have hnM' : ¬ n > MAX := by omega
  unfold mymalloc
  simp only [hn0, hnM', hcap, if_false, g.hstart, h2, bind, Except.bind, Bool.not_false,
    if_true, next_block_fault s g.notInSeg_zero]

end Implicit

/-- Implicit allocator, `segment_size` not 0: in every state reachable from a successful
`myinit(base, size)` (base 8-aligned and not null, size a multiple of 8 and not 0, segment
inside the address space) by any sequence of returning `mymalloc`, `myfree` and `myrealloc`
calls whose pointer argument is null or a pointer returned earlier and not yet freed, the
walk of `validate_heap` sums 8 + payload size over the blocks to exactly `segment_size`,
sums 8 per block plus the payload of the allocated blocks to exactly `nused`, and
`validate_heap` returns true.  `MAX_REQUEST_SIZE` is any value up to `2^64 - 24`. -/
theorem Implicit.reachable_validates (MAX base size : Nat) (hMAX : MAX ≤ WORD - 24)
    (hs0 : size ≠ 0) (s : Heap) (live : List Nat)
    (h : Implicit.Reachable MAX base size s live) (fuel : Nat) (hf : size ≤ fuel) :
    validate_loop fuel s s.segment_start 0 0 = .ok (s.segment_size, s.nused) ∧
    validate_heap fuel s = .ok true := by
  obtain ⟨L, hinv, _⟩ := Implicit.reachable_inv hMAX hs0 h
  exact ⟨hinv.walk_sums fuel hf, hinv.validates fuel hf⟩

/-- The state after `myinit(4096, 128)`, `p = mymalloc(16)` and `myrealloc(p, 40)` of
implicit.c is reachable, and `validate_heap` is true in it. -/
theorem Implicit.reachable_validates_example :
    Implicit.Reachable (2 ^ 30) 4096 128 Implicit.c1_s2 [4128] ∧
    validate_loop 128 Implicit.c1_s2 Implicit.c1_s2.segment_start 0 0
      = .ok (Implicit.c1_s2.segment_size, Implicit.c1_s2.nused) ∧
    validate_heap 128 Implicit.c1_s2 = .ok true :=
  have hr : Implicit.Reachable (2 ^ 30) 4096 128 Implicit.c1_s2 [4128] :=
    ⟨zeroHeap, Implicit.c1_s0, by decide, by decide, by decide, by decide, by rfl,
      Relation.ReflTransGen.tail
        (Relation.ReflTransGen.tail Relation.ReflTransGen.refl
          (Implicit.Step.malloc Implicit.c1_s0 Implicit.c1_s1 [] 64 16 4104 (by rfl)))
        (Implicit.Step.realloc Implicit.c1_s1 Implicit.c1_s2 [4104] 64 4104 40 4128
          (Or.inr (by decide)) (by rfl))⟩
  ⟨hr, Implicit.reachable_validates (2 ^ 30) 4096 128 (by decide) (by decide)
    Implicit.c1_s2 [4128] hr 128 (le_refl _)⟩

/-- C1, the failing case. implicit.c, `myinit(4096, 0)` (base 8-aligned, size a multiple
of 8): `segment_size - HEADER_SIZE` wraps to `2^64 - 8`, the size test does not reject, the
header word `2^64 - 8 + 1` is stored at the base and `myinit` returns true with
`segment_size` 0 and `nused` 8.  `validate_heap` then returns false (`nused` exceeds
`segment_size`), and the state after `myinit` is reachable in the sense of the claim. -/
theorem C1_implicit_empty_segment_invalid :
    Implicit.c1_zero_run = .ok (true, 0, 8, 2 ^ 64 - 7, false) ∧
    Implicit.Reachable (2 ^ 30) 4096 0 (stateOf (Implicit.myinit zeroHeap 4096 0)) [] ∧
    validate_heap 64 (stateOf (Implicit.myinit zeroHeap 4096 0)) = .ok false :=
  ⟨by rfl,
    ⟨zeroHeap, stateOf (Implicit.myinit zeroHeap 4096 0), by decide, by decide, by decide,
      by decide, by rfl, Relation.ReflTransGen.refl⟩,
    by rfl⟩

theorem Implicit.mymalloc_invalid_size (MAX fuel : Nat) (s : Heap) (n : Nat)
    (h : n = 0 ∨ n > MAX) : Implicit.mymalloc MAX fuel s n = .ok (NULL, s) := by
  unfold Implicit.mymalloc
  rcases h with h | h
  · simp [h, pure, Except.pure]
  · by_cases h0 : n = 0
    · simp [h0, pure, Except.pure]
    · simp [h0, h, pure, Except.pure]

theorem Explicit.mymalloc_zero (fuel : Nat) (s : Heap) :
    Explicit.mymalloc fuel s 0 = .ok (NULL, s) := by
  unfold Explicit.mymalloc
  simp [pure, Except.pure]

/-- C2, at the failing input. Explicit allocator, fresh 128-byte heap at 4096: after
`p0..p3 = malloc(16)`, `free(p1)`, `malloc(24)`, `free(p3)` the validator returns true; the
call `myrealloc(p0, 24)` returns 4176 (the payload of a free 16-byte block that was not
placed), and afterwards `nused` is 72 and `validate_heap` returns false. -/
theorem C2_explicit_realloc_breaks_validate :
    Explicit.c2_run = .ok (true, 4176, 72, false) := by rfl

/-- C3, at the failing input. Explicit allocator, fresh 128-byte heap: `mymalloc(2^64 - 1)`
returns the non-null pointer 4104 and `nused` grows from 8 to 32; explicit.c has no
`MAX_REQUEST_SIZE` test and the rounding of the size wraps around. -/
theorem C3_explicit_huge_request_served :
    Explicit.c3_run = .ok (4104, 8, 32) := by rfl

/-- In both variants, for every state and every request whose 64-bit sum
`nused + (HEADER_SIZE + needed)` exceeds `segment_size`, `mymalloc` returns null and the
state (variables and memory) is unchanged. -/
theorem mymalloc_capacity_test_rejects :
    (∀ (MAX fuel : Nat) (s : Heap) (n : Nat),
      add64 s.nused (add64 HEADER_SIZE (roundup n ALIGNMENT)) > s.segment_size →
      Implicit.mymalloc MAX fuel s n = .ok (NULL, s)) ∧
    (∀ (fuel : Nat) (s : Heap) (n : Nat),
      add64 s.nused (add64 HEADER_SIZE (Explicit.neededOf n)) > s.segment_size →
      Explicit.mymalloc fuel s n = .ok (NULL, s)) := by
  refine ⟨?_, ?_⟩
  · intro MAX fuel s n h
    unfold Implicit.mymalloc
    by_cases h0 : n = 0
    · simp [h0, pure, Except.pure]
    · by_cases h1 : n > MAX
      · simp [h0, h1, pure, Except.pure]
      · simp [h0, h1, h, pure, Except.pure]
  · intro fuel s n h
    unfold Explicit.mymalloc
    unfold Explicit.neededOf at h
    by_cases h0 : n = 0
    · simp [h0, pure, Except.pure]
    · simp only [h0, if_false]
      simp only [h, if_true, pure, Except.pure]

/-- The capacity test read over the integers: in both variants, when `nused + 8 + need`
exceeds `segment_size` and is below `2^64` (so that the 64-bit sum of the code is the
integer sum), `mymalloc` returns null and the state is unchanged. -/
theorem mymalloc_over_capacity_no_wrap :
    (∀ (MAX fuel : Nat) (s : Heap) (n : Nat),
      s.nused + 8 + roundup n ALIGNMENT > s.segment_size →
      s.nused + 8 + roundup n ALIGNMENT < WORD →
      Implicit.mymalloc MAX fuel s n = .ok (NULL, s)) ∧
    (∀ (fuel : Nat) (s : Heap) (n : Nat),
      s.nused + 8 + Explicit.neededOf n > s.segment_size →
      s.nused + 8 + Explicit.neededOf n < WORD →
      Explicit.mymalloc fuel s n = .ok (NULL, s)) := by
  refine ⟨?_, ?_⟩
  · intro MAX fuel s n h hw
    apply mymalloc_capacity_test_rejects.1
    unfold HEADER_SIZE
    rw [add64_eq 8 _ (by omega), add64_eq _ _ (by omega)]
    omega
  · intro fuel s n h hw
    apply mymalloc_capacity_test_rejects.2
    unfold HEADER_SIZE
    rw [add64_eq 8 _ (by omega), add64_eq _ _ (by omega)]
    omega

/-- The scenario of the spec: on a fresh 128-byte heap, after `malloc(80)` has returned
4104, a second `malloc(80)` returns null and leaves the state unchanged, in both
variants. -/
theorem mymalloc_over_capacity_example :
    (Implicit.mymalloc (2 ^ 30) 64 (stateOf (Implicit.myinit zeroHeap 4096 128)) 80
        = .ok (4104, Implicit.c4_state) ∧
      Implicit.mymalloc (2 ^ 30) 64 Implicit.c4_state 80 = .ok (NULL, Implicit.c4_state)) ∧
    (Explicit.mymalloc 64 (stateOf (Explicit.myinit zeroHeap 4096 128)) 80
        = .ok (4104, Explicit.c4_state) ∧
      Explicit.mymalloc 64 Explicit.c4_state 80 = .ok (NULL, Explicit.c4_state)) :=
  ⟨⟨by rfl, mymalloc_capacity_test_rejects.1 (2 ^ 30) 64 Implicit.c4_state 80 (by decide)⟩,
   ⟨by rfl, mymalloc_capacity_test_rejects.2 64 Explicit.c4_state 80 (by decide)⟩⟩

/-- C4, the failing case. explicit.c, fresh 128-byte heap at 4096 after `mymalloc(16)`
(pointer 4104, `nused` 32, `validate_heap` true), request `n = 2^64 - 23`: the rounded-up
need is `2^64 - 16`, so `nused + 8 + need` exceeds `segment_size` = 128, but the 64-bit sum
of the capacity test is 24 and the test does not reject.  `mymalloc` returns 4128, not
null; `nused` becomes 24 and the words at 4112 and 4120 (in the payload of the first block
and at the header after it) are overwritten with 105 and 0. -/
theorem C4_explicit_capacity_check_wraps :
    Explicit.c4_wrap_run = .ok (4104, 32, true, 2 ^ 64 - 16, 4128, 24, [16, 105, 0]) ∧
    32 + 8 + Explicit.neededOf (2 ^ 64 - 23) > 128 ∧
    add64 32 (add64 HEADER_SIZE (Explicit.neededOf (2 ^ 64 - 23))) = 24 :=
  ⟨by rfl, by decide, by decide⟩

/-- C5, at the failing input. Fresh 120-byte heap, blocks of 16, 16, 16, 16, 16 bytes, the
first and the last free (header words 17, 16, 16, 16, 17), `nused` 88, validator true;
`mymalloc(24)` passes the capacity test and no free block fits.  The implicit allocator
dereferences the null pointer (fault); the explicit allocator returns 4200, the payload of
the last free block, with `nused` unchanged. -/
theorem C5_no_fit_does_not_return_null :
    Implicit.c5_before = .ok (true, [17, 16, 16, 16, 17], 88) ∧
    Implicit.c5_run = .error Err.fault ∧
    Explicit.c5_run = .ok (true, [17, 16, 16, 16, 17], 4200, 88, 88) :=
  ⟨by rfl, by rfl, by rfl⟩

/-- C6, at the failing input. Explicit allocator, fresh 128-byte heap:
`p1 = malloc(16); p2 = malloc(32); free(p1); p3 = malloc(16)` gives `p1 = 4104`,
`p2 = 4128` and `p3 = 4168`, not `p1`; the last call places the request twice
(`nused` ends at 96). -/
theorem C6_explicit_refit_returns_other_block :
    Explicit.c6_run = .ok (4104, 4128, 4168, 96) := by rfl

/-- C7. In both variants `myfree(p)` returns the state unchanged when `p` is null or when
the header at `p - 8` is readable and marked free; and on a fresh 128-byte heap
`p = malloc(24); free(p); free(p)` leaves `validate_heap` true and the next `malloc(24)`
returns `p` again. -/
theorem C7_free_null_or_free_block_noop :
    (∀ s : Heap, Implicit.myfree s NULL = .ok s) ∧
    (∀ (fuel : Nat) (s : Heap), Explicit.myfree fuel s NULL = .ok s) ∧
    (∀ (s : Heap) (p : Nat), is_free s (payload2header p) = .ok true →
      Implicit.myfree s p = .ok s) ∧
    (∀ (fuel : Nat) (s : Heap) (p : Nat), is_free s (payload2header p) = .ok true →
      Explicit.myfree fuel s p = .ok s) ∧
    Implicit.c7_run = .ok (4104, true, 4104) ∧
    Explicit.c7_run = .ok (4104, true, 4104) := by
  refine ⟨?_, ?_, ?_, ?_, by rfl, by rfl⟩
  · intro s
    simp [Implicit.myfree, pure, Except.pure]
  · intro fuel s
    simp [Explicit.myfree, pure, Except.pure]
  · intro s p h
    unfold Implicit.myfree
    by_cases hp : p = NULL
    · simp [hp, pure, Except.pure]
    · simp [hp, h, bind, Except.bind, pure, Except.pure]
  · intro fuel s p h
    unfold Explicit.myfree
    by_cases hp : p = NULL
    · simp [hp, pure, Except.pure]
    · simp [hp, h, bind, Except.bind, pure, Except.pure]

/-- Witness of C7: on a fresh 128-byte heap after `p = malloc(24); free(p)` the header at
`p - 8` is marked free and a second `free(p)` returns the same state, in both variants. -/
theorem C7_free_null_or_free_block_noop_witness :
    (is_free Implicit.c7_state (payload2header 4104) = .ok true ∧
      Implicit.myfree Implicit.c7_state 4104 = .ok Implicit.c7_state) ∧
    (is_free Explicit.c7_state (payload2header 4104) = .ok true ∧
      Explicit.myfree 64 Explicit.c7_state 4104 = .ok Explicit.c7_state) :=
  ⟨⟨by rfl, C7_free_null_or_free_block_noop.2.2.1 Implicit.c7_state 4104 (by rfl)⟩,
   ⟨by rfl, C7_free_null_or_free_block_noop.2.2.2.1 64 Explicit.c7_state 4104 (by rfl)⟩⟩

/-- C10, at the failing input. Explicit allocator, segment of 4448 bytes at the 8-aligned
address 8, blocks of 32, 16, 4272, 16 and 72 bytes of which the second and fourth are free
(header words 32, 17, 4272, 17, 72), validator true: `mymalloc(2^64 - 23)` returns 17, which
is not a multiple of 8. -/
theorem C10_explicit_misaligned_pointer :
    Explicit.c10_run = .ok (true, [32, 17, 4272, 17, 72], 17) := by rfl

/-- C8, counterexample. Implicit allocator, fresh 128-byte heap at 4096, `a = b = 16`:
after `p1 = malloc(16); p2 = malloc(16); free(p1); free(p2)` the header word at the base
is 17 (a free block of 16 bytes, not of 120), a second free block of 96 bytes follows at
4120, and `nused` is 16, not 8; `validate_heap` is true. -/
theorem C8_fill_and_empty_counterexample :
    Implicit.c8_run = .ok (17, 97, 16, true) := by rfl

theorem Implicit.fill_and_empty_core (MAX base size a b na nb fuel : Nat) (s0 s : Heap)
    (hna : roundup a ALIGNMENT = na) (hnb : roundup b ALIGNMENT = nb)
    (hs8 : size % 8 = 0) (hpos : 0 < base) (hbound : base + size < WORD)
    (hinit : Implicit.myinit s0 base size = .ok (true, s))
    (ha : 0 < a) (haM : a ≤ MAX) (hb : 0 < b) (hbM : b ≤ MAX)
    (h1 : na + 16 ≤ size - 8) (h2 : nb + 16 ≤ size - 8 - (na + 8)) (hfuel : 2 ≤ fuel) :
    ∃ s1 s2 s3 s4,
      Implicit.mymalloc MAX fuel s a = .ok (base + 8, s1) ∧
      Implicit.mymalloc MAX fuel s1 b = .ok (base + 8 + na + 8, s2) ∧
      Implicit.myfree s2 (base + 8) = .ok s3 ∧
      Implicit.myfree s3 (base + 8 + na + 8) = .ok s4 ∧
      HeapInv base size s4 [(na, true), (size - 16 - na, true)] ∧
      s4.nused = 16 ∧ ∀ f, size ≤ f → validate_heap f s4 = .ok true := by
  obtain ⟨hinv0, hsz16⟩ := Implicit.myinit_inv s0 s base size hs8 (by omega) hpos hbound hinit
  have ha8 : na % 8 = 0 := by rw [← hna]; exact roundup_mod8 a
  have hb8 : nb % 8 = 0 := by rw [← hnb]; exact roundup_mod8 b
  have hW : size < WORD := by omega
  -- first malloc
  have hcap1 : ¬ add64 s.nused (add64 HEADER_SIZE (roundup a ALIGNMENT)) > s.segment_size := by
    rw [hinv0.used, hinv0.geom.hsize, hna]
    simp only [usedOf, if_true, HEADER_SIZE]
    rw [add64_eq 8 na (by omega), add64_eq _ _ (by omega)]
    omega
  have hp1 : Implicit.placeL (roundup a ALIGNMENT) [(size - 8, true)]
      = some (0, [(na, false), (size - 8 - na - 8, true)]) := by
    rw [hna]
    simp [Implicit.placeL, h1]
  obtain ⟨s1, hm1, hinv1⟩ := Implicit.mymalloc_place MAX s _ fuel a 0 _ hinv0 (by omega) haM
    (by rw [hna]; omega) hcap1 hp1 (by simp; omega)
  -- second malloc
  have hcap2 : ¬ add64 s1.nused (add64 HEADER_SIZE (roundup b ALIGNMENT)) > s1.segment_size := by
    rw [hinv1.used, hinv1.geom.hsize, hnb]
    simp only [usedOf, if_true, Bool.false_eq_true, if_false, HEADER_SIZE]
    rw [add64_eq 8 nb (by omega), add64_eq _ _ (by omega)]
    omega
  have hp2 : Implicit.placeL (roundup b ALIGNMENT) [(na, false), (size - 8 - na - 8, true)]
      = some (8 + na + 0, [(na, false), (nb, false), (size - 8 - na - 8 - nb - 8, true)]) := by
    rw [hnb]
    have : nb + 16 ≤ size - 8 - na - 8 := by omega
    simp [Implicit.placeL, this]
  obtain ⟨s2, hm2, hinv2⟩ := Implicit.mymalloc_place MAX s1 _ fuel b _ _ hinv1 (by omega) hbM
    (by rw [hnb]; omega) hcap2 hp2 (by simp; omega)
  -- free(p1): the next block is allocated
  obtain ⟨s3, hf3, hinv3⟩ := Implicit.myfree_plain s2 [] na nb
    [(size - 8 - na - 8 - nb - 8, true)] (by simpa using hinv2)
  -- free(p2): the next block is free
  obtain ⟨s4, hf4, hinv4⟩ := Implicit.myfree_coalesce s3 [(na, true)] nb
    (size - 8 - na - 8 - nb - 8) [] (by simpa using hinv3)
  have e1 : base + 0 + 8 = base + 8 := by omega
  have e2 : base + (8 + na + 0) + 8 = base + 8 + na + 8 := by omega
  have e3 : base + total ([] : List Block) + 8 = base + 8 := by simp [total]
  have e4 : base + total [((na, true) : Block)] + 8 = base + 8 + na + 8 := by
    simp only [total]; omega
  have e5 : nb + 8 + (size - 8 - na - 8 - nb - 8) = size - 16 - na := by omega
  rw [e1] at hm1
  rw [e2] at hm2
  rw [e3] at hf3
  rw [e4] at hf4
  simp only [List.nil_append, List.singleton_append, e5] at hinv4
  refine ⟨s1, s2, s3, s4, hm1, hm2, hf3, hf4, hinv4, ?_, fun f hf => hinv4.validates f hf⟩
  rw [hinv4.used]
  simp [usedOf]

/-- C8, amended. Implicit allocator, fresh segment: for requests `a`, `b` that are both
placed by splitting (the free block has at least 16 bytes more than the rounded request),
the four calls `p1 = malloc(a); p2 = malloc(b); free(p1); free(p2)` return, with
`p1 = base + 8` and `p2 = p1 + roundup(a) + 8`, and end in a heap of exactly two free
blocks, of payload sizes `roundup(a)` and `size - 16 - roundup(a)`, with `nused = 16` and
`validate_heap` true. -/
theorem C8_fill_and_empty_two_free_blocks (MAX base size a b fuel : Nat) (s0 s : Heap)
    (hs8 : size % 8 = 0) (hpos : 0 < base) (hbound : base + size < WORD)
    (hinit : Implicit.myinit s0 base size = .ok (true, s))
    (ha : 0 < a) (haM : a ≤ MAX) (hb : 0 < b) (hbM : b ≤ MAX)
    (h1 : roundup a ALIGNMENT + 16 ≤ size - 8)
    (h2 : roundup b ALIGNMENT + 16 ≤ size - 8 - (roundup a ALIGNMENT + 8))
    (hfuel : 2 ≤ fuel) :
    ∃ s1 s2 s3 s4,
      Implicit.mymalloc MAX fuel s a = .ok (base + 8, s1) ∧
      Implicit.mymalloc MAX fuel s1 b = .ok (base + 8 + roundup a ALIGNMENT + 8, s2) ∧
      Implicit.myfree s2 (base + 8) = .ok s3 ∧
      Implicit.myfree s3 (base + 8 + roundup a ALIGNMENT + 8) = .ok s4 ∧
      HeapInv base size s4
        [(roundup a ALIGNMENT, true), (size - 16 - roundup a ALIGNMENT, true)] ∧
      s4.nused = 16 ∧ ∀ f, size ≤ f → validate_heap f s4 = .ok true :=
  Implicit.fill_and_empty_core MAX base size a b (roundup a ALIGNMENT) (roundup b ALIGNMENT)
    fuel s0 s rfl rfl hs8 hpos hbound hinit ha haM hb hbM h1 h2 hfuel

/-- Witness of C8 (amended): the 128-byte segment at 4096 with `a = b = 16`. -/
theorem C8_fill_and_empty_two_free_blocks_witness :
    ∃ s1 s2 s3 s4,
      Implicit.mymalloc (2 ^ 30) 64 Implicit.c1_s0 16 = .ok (4096 + 8, s1) ∧
      Implicit.mymalloc (2 ^ 30) 64 s1 16 = .ok (4096 + 8 + roundup 16 ALIGNMENT + 8, s2) ∧
      Implicit.myfree s2 (4096 + 8) = .ok s3 ∧
      Implicit.myfree s3 (4096 + 8 + roundup 16 ALIGNMENT + 8) = .ok s4 ∧
      HeapInv 4096 128 s4 [(roundup 16 ALIGNMENT, true), (128 - 16 - roundup 16 ALIGNMENT, true)] ∧
      s4.nused = 16 ∧ ∀ f, 128 ≤ f → validate_heap f s4 = .ok true :=
  C8_fill_and_empty_two_free_blocks (2 ^ 30) 4096 128 16 16 64 zeroHeap Implicit.c1_s0
    (by decide) (by decide) (by decide) (by rfl) (by decide) (by decide) (by decide)
    (by decide) (by decide) (by decide) (by decide)

theorem roundup_lt (n : Nat) : roundup n ALIGNMENT < WORD := by
  rw [roundup_eq]
  have : (n + 7) % WORD < WORD := Nat.mod_lt _ (by decide)
  omega

namespace Implicit

theorem mymalloc_passed_guards (MAX fuel : Nat) (s s' : Heap) (n p : Nat)
    (h : mymalloc MAX fuel s n = .ok (p, s')) (hp : p ≠ 0) :
    n ≠ 0 ∧ n ≤ MAX ∧
    ¬ add64 s.nused (add64 HEADER_SIZE (roundup n ALIGNMENT)) > s.segment_size ∧ fuel ≠ 0 := by
  unfold mymalloc at h
  by_cases h0 : n = 0
  · simp [h0, pure, Except.pure, NULL] at h
    exact absurd h.1.symm hp
  · by_cases h1 : n > MAX
    · simp [h0, h1, pure, Except.pure, NULL] at h
      exact absurd h.1.symm hp
    · simp only [h0, h1, if_false] at h
      split at h
      · simp [pure, Except.pure, NULL] at h
        exact absurd h.1.symm hp
      · rename_i hcap
        refine ⟨h0, by omega, hcap, ?_⟩
        intro hf
        subst hf
        simp [fit_block, bind, Except.bind] at h

/-- The free first block of a heap: `myfree` of its payload address does nothing. -/
theorem myfree_free_head {base size : Nat} (s : Heap) (sz : Nat) (L : List Block)
    (hinv : HeapInv base size s ((sz, true) :: L)) : myfree s (base + 8) = .ok s := by
  have g := hinv.geom
  have hb := g.hbound
  have hpos := g.hpos
  have htot := hinv.tot
  simp only [total] at htot
  obtain ⟨_, r2, _⟩ := head_reads g (sz, true) L base hinv.tiles
    (hinv.wf _ (List.mem_cons_self _ _)) (le_refl _) (by simp only [total]; omega)
  have eh : payload2header (base + 8) = base := by
    unfold payload2header HEADER_SIZE
    rw [sub64_eq _ _ (by omega) (by omega)]
    omega
  have hp0 : base + 8 ≠ NULL := by unfold NULL; omega
  unfold myfree
  simp [hp0, eh, r2, bind, Except.bind, pure, Except.pure]

/-- A request whose rounded size is `2^64 - 8` on a heap of one free block: the sums wrap,
the two headers written coincide, and the block is returned still free. -/
theorem mymalloc_wrap8 {base size : Nat} (MAX : Nat) (s : Heap) (fuel n : Nat)
    (hinv : HeapInv base size s [(size - 8, true)]) (hsz : 16 ≤ size) (hn0 : n ≠ 0)
    (hnM : n ≤ MAX) (hnd : roundup n ALIGNMENT = WORD - 8) (hfuel : fuel ≠ 0) :
    ∃ s', mymalloc MAX fuel s n = .ok (base + 8, s') ∧
      HeapInv base size s' [(size - 8, true)] := by
  have g := hinv.geom
  have hb := g.hbound
  have hpos := g.hpos
  have hs8 : (size - 8) % 8 = 0 := hinv.wf _ (List.mem_cons_self _ _)
  obtain ⟨r1, r2, _⟩ := head_reads g (size - 8, true) [] base hinv.tiles hs8 (le_refl _)
    (by simp only [total]; omega)
  simp only at r1 r2
  obtain ⟨f, rfl⟩ : ∃ f, fuel = f + 1 := ⟨fuel - 1, by omega⟩
  have hin : inSegment s base := g.inSeg base (le_refl _) (by omega)
  have hused : s.nused = 8 := by rw [hinv.used]; simp [usedOf]
  have hnM' : ¬ n > MAX := by omega
  have c1 : add64 HEADER_SIZE (WORD - 8) = 0 := by decide
  have c2 : add64 s.nused 0 = 8 := by rw [hused]; decide
  have c3 : add64 (WORD - 8) (2 * HEADER_SIZE) = 8 := by decide
  have c4 : add64 (header2payload base) (WORD - 8) = base := by
    unfold header2payload add64 HEADER_SIZE WORD at *
    omega
  have c5 : sub64 (size - 8) (add64 (WORD - 8) HEADER_SIZE) = size - 8 := by
    have : add64 (WORD - 8) HEADER_SIZE = 0 := by decide
    rw [this]
    unfold sub64 WORD at *
    omega
  have c6 : add64 (add64 s.nused (WORD - 8)) HEADER_SIZE = 8 := by rw [hused]; decide
  have c7 : header2payload base = base + 8 := by
    unfold header2payload HEADER_SIZE
    exact add64_eq _ _ (by omega)
  have hcap : ¬ (8 > s.segment_size) := by rw [g.hsize]; omega
  have hne : ¬ (WORD - 8 = size - 8) := by unfold WORD at *; omega
  have hle : 8 ≤ size - 8 := by omega
  have hbase : base ≠ NULL := by unfold NULL; omega
  refine ⟨{ s with mem := setHdrMem (setHdrMem s.mem base (WORD - 8) 0) base (size - 8) 1,
                   nused := 8 }, ?_,
    ⟨⟨g.hstart, g.hsize, g.hend, g.hpos, g.hbound⟩, by simp, hinv.wf, ?_, hinv.tot, ?_⟩⟩
  · unfold mymalloc
    simp only [hn0, hnM', if_false, hnd, c1, c2, hcap, g.hstart]
    unfold fit_block
    simp only [hbase, if_false, r1, r2, bind, Except.bind, c3, hne, hle, decide_True,
      decide_False, Bool.or_true, Bool.and_true, if_true, Bool.false_or, Bool.true_and,
      set_header_ok s base (WORD - 8) ALLOCATED hin, c4, c5]
    have hin2 : ∀ (nu : Nat) (m : Nat → Nat),
        inSegment (⟨s.segment_start, s.segment_size, s.segment_end, nu, m⟩ : Heap) base :=
      fun _ _ => hin
    rw [set_header_ok _ _ _ _ (hin2 _ _)]
    simp only [pure, Except.pure, Bool.not_true, Bool.false_eq_true, if_false, c6, c7, FREE,
      ALLOCATED]
    rw [g.hstart]
  · refine ⟨?_, trivial⟩
    show load64 (setHdrMem (setHdrMem s.mem base (WORD - 8) 0) base (size - 8) 1) base = _
    rw [load64_setHdrMem_same _ _ _ _ (by omega) (by omega) (Or.inr rfl)]
    rfl
  · simp [usedOf]

/-- Allocate, free, allocate again on a fresh heap of the implicit allocator, from the
invariant of a fresh heap, for a request whose rounded size is not `2^64 - 16`. -/
theorem malloc_free_malloc {base size : Nat} (MAX fuel : Nat) (s s1 : Heap) (n p : Nat)
    (hinv : HeapInv base size s [(size - 8, true)]) (hsz : 16 ≤ size)
    (hnw : roundup n ALIGNMENT ≠ WORD - 16)
    (h : mymalloc MAX fuel s n = .ok (p, s1)) (hp : p ≠ 0) :
    ∃ s2 s3, myfree s1 p = .ok s2 ∧ mymalloc MAX fuel s2 n = .ok (p, s3) := by
  have hW : WORD = 18446744073709551616 := by decide
  obtain ⟨hn0, hnM, hcap, hfuel⟩ := mymalloc_passed_guards MAX fuel s s1 n p h hp
  have hn8 := roundup_mod8 n
  have hlt := roundup_lt n
  have hs8 : (size - 8) % 8 = 0 := hinv.wf _ (List.mem_cons_self _ _)
  have hused : s.nused = 8 := by rw [hinv.used]; simp [usedOf]
  by_cases hw : roundup n ALIGNMENT + 16 < WORD
  · rcases mymalloc_inv_gen MAX s s1 [(size - 8, true)] fuel n p hinv (fun _ => hw) h with
      ⟨hp0, _⟩ | ⟨_, _, _, _, o, L', hpl, hpe, hinv1, _⟩
    · exact absurd hp0 hp
    · have hc : roundup n ALIGNMENT + 16 ≤ size := by
        rw [hused, hinv.geom.hsize] at hcap
        simp (disch := omega) only [HEADER_SIZE, add64_eq] at hcap
        omega
      have hsplit : roundup n ALIGNMENT + 16 ≤ size - 8 := by
        by_contra hns
        have hnp : ¬ (roundup n ALIGNMENT = size - 8) := by omega
        simp [placeL, hns, hnp] at hpl
      have hpl2 : placeL (roundup n ALIGNMENT) [(size - 8, true)] = some (0,
          [(roundup n ALIGNMENT, false), (size - 8 - roundup n ALIGNMENT - 8, true)]) := by
        simp [placeL, hsplit]
      rw [hpl2] at hpl
      injection hpl with hpl
      injection hpl with ho hL
      subst ho hL
      obtain ⟨s2, hfree, hinv2⟩ := myfree_coalesce s1 [] (roundup n ALIGNMENT)
        (size - 8 - roundup n ALIGNMENT - 8) [] (by simpa using hinv1)
      have e1 : roundup n ALIGNMENT + 8 + (size - 8 - roundup n ALIGNMENT - 8) = size - 8 := by
        omega
      have hinv2' : HeapInv base size s2 [(size - 8, true)] := by
        rw [← e1]
        simpa using hinv2
      have hp1 : base + total [] + 8 = p := by rw [hpe]; simp [total]
      rw [hp1] at hfree
      have hused2 : s2.nused = 8 := by rw [hinv2'.used]; simp [usedOf]
      have hcap2 : ¬ add64 s2.nused (add64 HEADER_SIZE (roundup n ALIGNMENT)) >
          s2.segment_size := by
        rw [hused2, hinv2'.geom.hsize]
        rw [hused, hinv.geom.hsize] at hcap
        exact hcap
      obtain ⟨s3, hm, _⟩ := mymalloc_place MAX s2 [(size - 8, true)] fuel n 0 _ hinv2' hn0 hnM
        hw hcap2 hpl2 (by simp; omega)
      refine ⟨s2, s3, hfree, ?_⟩
      rw [hm, hpe]
  · have hcase : roundup n ALIGNMENT = WORD - 8 ∨ roundup n ALIGNMENT = WORD - 16 := by omega
    rcases hcase with hc | hc
    · obtain ⟨t, ht, hfresh⟩ := mymalloc_wrap8 MAX s fuel n hinv hsz hn0 hnM hc hfuel
      rw [ht] at h
      injection h with h
      injection h with hp1 hs1
      subst hp1 hs1
      obtain ⟨v, hv, _⟩ := mymalloc_wrap8 MAX t fuel n hfresh hsz hn0 hnM hc hfuel
      exact ⟨t, v, myfree_free_head t _ _ hfresh, hv⟩
    · exact absurd hc hnw

end Implicit

theorem readWord_mk (b sz e nu : Nat) (m : Nat → Nat) (a : Nat) (h1 : b ≤ a)
    (h2 : a + 8 ≤ b + sz) : readWord ⟨b, sz, e, nu, m⟩ a = .ok (load64 m a) :=
  readWord_ok _ _ ⟨h1, h2⟩

theorem writeWord_mk (b sz e nu : Nat) (m : Nat → Nat) (a v : Nat) (h1 : b ≤ a)
    (h2 : a + 8 ≤ b + sz) :
    writeWord ⟨b, sz, e, nu, m⟩ a v = .ok ⟨b, sz, e, nu, store64 m a v⟩ :=
  writeWord_ok _ _ _ ⟨h1, h2⟩

theorem set_header_mk (b sz e nu : Nat) (m : Nat → Nat) (a v st : Nat) (h1 : b ≤ a)
    (h2 : a + 8 ≤ b + sz) :
    set_header ⟨b, sz, e, nu, m⟩ a v st = .ok ⟨b, sz, e, nu, setHdrMem m a v st⟩ :=
  set_header_ok _ _ _ _ ⟨h1, h2⟩

theorem is_free_mk (b sz e nu : Nat) (m : Nat → Nat) (a : Nat) (h1 : b ≤ a)
    (h2 : a + 8 ≤ b + sz) :
    is_free ⟨b, sz, e, nu, m⟩ a = .ok (decide (load64 m a % 2 ≠ 0)) :=
  is_free_ok _ _ ⟨h1, h2⟩

theorem get_size_mk (b sz e nu : Nat) (m : Nat → Nat) (a : Nat) (h1 : b ≤ a)
    (h2 : a + 8 ≤ b + sz) :
    get_size ⟨b, sz, e, nu, m⟩ a = .ok (load64 m a - load64 m a % 2) :=
  get_size_ok _ _ ⟨h1, h2⟩

theorem next_block_mk (b sz e nu : Nat) (m : Nat → Nat) (a : Nat) (h1 : b ≤ a)
    (h2 : a + 8 ≤ b + sz) :
    next_block ⟨b, sz, e, nu, m⟩ a =
      .ok (if add64 (add64 a 8) (load64 m a - load64 m a % 2) < e
        then add64 (add64 a 8) (load64 m a - load64 m a % 2) else 0) :=
  next_block_ok _ _ ⟨h1, h2⟩

theorem load64_setHdrMem_alloc (m : Nat → Nat) (a size : Nat) (h1 : size < WORD)
    (h2 : size % 2 = 0) : load64 (setHdrMem m a size ALLOCATED) a = size := by
  rw [load64_setHdrMem_same m a size ALLOCATED h1 h2 (Or.inl rfl)]
  rfl

theorem load64_setHdrMem_free (m : Nat → Nat) (a size : Nat) (h1 : size < WORD)
    (h2 : size % 2 = 0) : load64 (setHdrMem m a size FREE) a = size + 1 := by
  rw [load64_setHdrMem_same m a size FREE h1 h2 (Or.inr rfl)]
  rfl

namespace Explicit

theorem myinit_fresh (s0 s : Heap) (base size : Nat) (h8 : size % 8 = 0) (hpos : 0 < base)
    (hbound : base + size < WORD) (h : myinit s0 base size = .ok (true, s)) :
    FreshE base size s ∧ 24 ≤ size := by
  have hW : WORD = 18446744073709551616 := by decide
  unfold myinit at h
  by_cases hs : size < MIN_BLOCK_SIZE
  · simp [hs, pure, Except.pure] at h
  · have hs24 : 24 ≤ size := by unfold MIN_BLOCK_SIZE at hs; omega
    simp (disch := omega) only [hs, if_false, bind, Except.bind, header2payload, next_field,
      HEADER_SIZE, NODE_POINTER_SIZE, add64_eq, sub64_eq, set_header_mk, writeWord_mk,
      pure, Except.pure, NULL] at h
    injection h with h
    injection h with _ h
    subst h
    refine ⟨⟨rfl, rfl, rfl, rfl, ?_, ?_, ?_⟩, hs24⟩
    · simp (disch := omega) only [load64_store64_disj, load64_setHdrMem_free]
    · simp (disch := omega) only [load64_store64_disj, load64_store64_same]
      rfl
    · simp (disch := omega) only [load64_store64_disj, load64_store64_same]
      rfl

theorem myfree_fresh (fuel : Nat) (s : Heap) (base size : Nat) (hf : FreshE base size s)
    (hs8 : size % 8 = 0) (hs24 : 24 ≤ size) (hpos : 0 < base) (hbound : base + size < WORD) :
    myfree fuel s (base + 8) = .ok s := by
  have hW : WORD = 18446744073709551616 := by decide
  obtain ⟨hstart, hsize, hend, hused, h0, h1, h2⟩ := hf
  obtain ⟨st, sz, e, nu, m⟩ := s
  simp only at hstart hsize hend hused h0 h1 h2
  subst hstart hsize hend hused
  have hodd : (sz - 8 + 1) % 2 = 1 := by omega
  have hp : st + 8 ≠ 0 := by omega
  unfold myfree
  simp (disch := omega) only [hp, NULL, if_false, payload2header, HEADER_SIZE, sub64_eq,
    Nat.add_sub_cancel, is_free_mk, h0, hodd, bind, Except.bind, pure, Except.pure]
  simp

theorem mymalloc_eq (fuel : Nat) (s : Heap) (n : Nat) (hn : n ≠ 0) :
    mymalloc fuel s n =
      (if add64 s.nused (add64 HEADER_SIZE (neededOf n)) > s.segment_size then pure (NULL, s)
      else do
        let free_block_header ← find_free_block fuel s s.segment_start
        let r ← malloc_loop fuel fuel s (neededOf n) free_block_header
          (header2payload free_block_header)
        pure (header2payload r.1, r.2)) := by
  unfold mymalloc neededOf
  simp only [hn, if_false]

theorem neededOf_props (n : Nat) :
    16 ≤ neededOf n ∧ neededOf n % 8 = 0 ∧ neededOf n < WORD := by
  have h1 := roundup_mod8 n
  have h2 := roundup_lt n
  have hW : WORD = 18446744073709551616 := by decide
  unfold neededOf NODE_POINTER_SIZE
  split <;> omega

theorem find_free_block_null (f : Nat) (s : Heap) : find_free_block (f + 1) s 0 = .ok 0 := by
  simp [find_free_block, NULL, pure, Except.pure]

theorem find_free_block_free (f b sz e nu : Nat) (m : Nat → Nat) (a : Nat) (ha : a ≠ 0)
    (h1 : b ≤ a) (h2 : a + 8 ≤ b + sz) (hfr : load64 m a % 2 = 1) :
    find_free_block (f + 1) ⟨b, sz, e, nu, m⟩ a = .ok a := by
  simp [find_free_block, NULL, ha, is_free_mk _ _ _ _ _ _ h1 h2, hfr, bind, Except.bind, pure,
    Except.pure]

theorem find_free_block_step (f b sz e nu : Nat) (m : Nat → Nat) (a : Nat) (ha : a ≠ 0)
    (h1 : b ≤ a) (h2 : a + 8 ≤ b + sz) (hfr : load64 m a % 2 = 0)
    (hw : a + 8 + load64 m a < WORD) :
    find_free_block (f + 1) ⟨b, sz, e, nu, m⟩ a =
      find_free_block f ⟨b, sz, e, nu, m⟩
        (if a + 8 + load64 m a < e then a + 8 + load64 m a else 0) := by
  have e1 : add64 a 8 = a + 8 := add64_eq _ _ (by omega)
  have e2 : add64 (a + 8) (load64 m a) = a + 8 + load64 m a := add64_eq _ _ hw
  simp [find_free_block, NULL, ha, is_free_mk _ _ _ _ _ _ h1 h2, hfr, bind, Except.bind,
    next_block_mk _ _ _ _ _ _ h1 h2, e1, e2]

theorem count_free_blocks_zero (fuel : Nat) (s : Heap) (start : Nat)
    (h : find_free_block fuel s start = .ok 0) : count_free_blocks fuel s start = .ok 0 := by
  simp [count_free_blocks, h, bind, Except.bind, NULL, pure, Except.pure]

theorem add_free_block_empty (fuel b sz e nu : Nat) (m : Nat → Nat) (node : Nat)
    (h : find_free_block fuel ⟨b, sz, e, nu, m⟩ b = .ok 0) (h1 : b ≤ node)
    (h2 : node + 16 ≤ b + sz) (hw : node + 8 < WORD) :
    add_free_block fuel ⟨b, sz, e, nu, m⟩ node =
      .ok ⟨b, sz, e, nu, store64 (store64 m node 0) (node + 8) 0⟩ := by
  have e1 : add64 node 8 = node + 8 := add64_eq _ _ hw
  unfold add_free_block
  simp only [count_free_blocks_zero _ _ _ h, bind, Except.bind, if_true, NULL, next_field,
    NODE_POINTER_SIZE, e1]
  rw [writeWord_mk _ _ _ _ _ _ _ h1 (by omega)]
  simp only []
  rw [writeWord_mk _ _ _ _ _ _ _ (by omega) (by omega)]

theorem detach_free_block_alone (b sz e nu : Nat) (m : Nat → Nat) (node : Nat) (h1 : b ≤ node)
    (h2 : node + 16 ≤ b + sz) (hw : node + 8 < WORD) (hp : load64 m node = 0)
    (hn : load64 m (node + 8) = 0) :
    detach_free_block ⟨b, sz, e, nu, m⟩ node = .ok ⟨b, sz, e, nu, m⟩ := by
  have e1 : add64 node 8 = node + 8 := add64_eq _ _ hw
  unfold detach_free_block
  simp only [next_field, NODE_POINTER_SIZE, e1]
  rw [readWord_mk _ _ _ _ _ _ h1 (by omega), readWord_mk _ _ _ _ _ _ (by omega) (by omega)]
  simp [hp, hn, bind, Except.bind, NULL, pure, Except.pure]

theorem malloc_loop_null (inner f : Nat) (s : Heap) (needed hdr : Nat) :
    malloc_loop inner (f + 1) s needed hdr 0 = .ok (hdr, s) := by
  simp [malloc_loop, NULL, pure, Except.pure]

theorem malloc_loop_succ (inner fuel : Nat) (s : Heap) (needed hdr node : Nat)
    (hnode : node ≠ 0) :
    malloc_loop inner (fuel + 1) s needed hdr node = (do
      let free_block_size ← get_size s (payload2header node)
      let s' ←
        if needed = free_block_size then do
          let s1 ← detach_free_block s node
          let s2 ← set_header s1 (payload2header node) needed ALLOCATED
          pure { s2 with nused := add64 s2.nused needed }
        else if add64 needed MIN_BLOCK_SIZE ≤ free_block_size then do
          let s1 ← detach_free_block s node
          let r ← split_block s1 (payload2header node) needed free_block_size
          let s3 ← add_free_block inner r.2 r.1
          let sz ← get_size s3 (payload2header r.1)
          set_header s3 (payload2header r.1) sz FREE
        else pure s
      let nxt ← readWord s' (next_field node)
      malloc_loop inner fuel s' needed (payload2header node) nxt) := by
  rw [malloc_loop]
  simp only [NULL, hnode, if_false]

/-- No free block is found on a heap made of one allocated block. -/
theorem find_free_block_one (f b sz nu : Nat) (m : Nat → Nat) (hb : b ≠ 0) (hsz : 8 ≤ sz)
    (hs2 : sz % 2 = 0) (hw : b + sz < WORD) (h0 : load64 m b = sz - 8) :
    find_free_block (f + 2) ⟨b, sz, b + sz, nu, m⟩ b = .ok 0 := by
  rw [find_free_block_step _ _ _ _ _ _ _ hb (le_refl _) (by omega) (by rw [h0]; omega)
    (by rw [h0]; omega), h0]
  have e : ¬ (b + 8 + (sz - 8) < b + sz) := by omega
  rw [if_neg e, find_free_block_null]

/-- No free block is found on a heap made of two allocated blocks. -/
theorem find_free_block_two (f b sz nu : Nat) (m : Nat → Nat) (nd : Nat) (hb : b ≠ 0)
    (hfit : nd + 16 ≤ sz) (hs2 : sz % 2 = 0) (hn2 : nd % 2 = 0) (hw : b + sz < WORD)
    (h0 : load64 m b = nd) (h1 : load64 m (b + 8 + nd) = sz - 16 - nd) :
    find_free_block (f + 3) ⟨b, sz, b + sz, nu, m⟩ b = .ok 0 := by
  rw [find_free_block_step _ _ _ _ _ _ _ hb (le_refl _) (by omega) (by rw [h0]; omega)
    (by rw [h0]; omega), h0]
  have e : b + 8 + nd < b + sz := by omega
  rw [if_pos e]
  rw [find_free_block_step _ _ _ _ _ _ _ (by omega) (by omega) (by omega) (by rw [h1]; omega)
    (by rw [h1]; omega), h1]
  have e2 : ¬ (b + 8 + nd + 8 + (sz - 16 - nd) < b + sz) := by omega
  rw [if_neg e2, find_free_block_null]

/-- On a fresh heap a request that passes the capacity test but leaves no room for a split
gets the payload of the first block, and the heap is left as it was. -/
theorem mymalloc_fresh_stay (f : Nat) (s : Heap) (base size n nd : Nat)
    (hf : FreshE base size s) (hs8 : size % 8 = 0) (hb8 : 8 ≤ base)
    (hbound : base + size < WORD) (hn : n ≠ 0) (hnd : neededOf n = nd) (h16 : 16 ≤ nd)
    (hfit : nd + 16 ≤ size) (hsmall : size < nd + 32) :
    mymalloc (f + 2) s n = .ok (base + 8, s) := by
  have hW : WORD = 18446744073709551616 := by decide
  obtain ⟨hstart, hsize, hend, hused, h0, h1, h2⟩ := hf
  obtain ⟨st, sz, e, nu, m⟩ := s
  simp only at hstart hsize hend hused h0 h1 h2
  subst hstart hsize hend hused
  have hodd : (sz - 8 + 1) % 2 = 1 := by omega
  have hp : st + 8 ≠ 0 := by omega
  have hst : st ≠ 0 := by omega
  have hne : ¬ (nd = sz - 8) := by omega
  have hns : ¬ (nd + 24 ≤ sz - 8) := by omega
  have hcap : ¬ (8 + (8 + nd) > sz) := by omega
  rw [mymalloc_eq _ _ _ hn, hnd]
  simp (disch := omega) only [HEADER_SIZE, add64_eq, hcap, if_false, bind, Except.bind]
  rw [find_free_block_free _ _ _ _ _ _ _ hst (le_refl _) (by omega) (by rw [h0]; exact hodd)]
  simp (disch := omega) only [header2payload, HEADER_SIZE, add64_eq]
  rw [malloc_loop_succ _ _ _ _ _ _ hp]
  simp (disch := omega) only [payload2header, HEADER_SIZE, sub64_eq, Nat.add_sub_cancel,
    get_size_mk, h0, hodd, bind, Except.bind, hne, hns, MIN_BLOCK_SIZE, add64_eq, if_false,
    pure, Except.pure, next_field, NODE_POINTER_SIZE, readWord_mk]
  have e16 : st + 8 + 8 = st + 16 := by omega
  rw [e16, h2, malloc_loop_null]
  simp (disch := omega) only [add64_eq]

/-- On a fresh heap a request that leaves room for a split gets the first block; the rest
becomes the only free block. -/
theorem mymalloc_fresh_split (f : Nat) (s : Heap) (base size n nd : Nat)
    (hf : FreshE base size s) (hs8 : size % 8 = 0) (hb8 : 8 ≤ base)
    (hbound : base + size < WORD) (hn : n ≠ 0) (hnd : neededOf n = nd) (h16 : 16 ≤ nd)
    (hn8 : nd % 8 = 0) (hfit : nd + 32 ≤ size) :
    ∃ s', mymalloc (f + 3) s n = .ok (base + 8, s') ∧ SplitE base size nd s' := by
  have hW : WORD = 18446744073709551616 := by decide
  obtain ⟨hstart, hsize, hend, hused, h0, h1, h2⟩ := hf
  obtain ⟨st, sz, e, nu, m⟩ := s
  simp only at hstart hsize hend hused h0 h1 h2
  subst hstart hsize hend hused
  have hodd : (sz - 8 + 1) % 2 = 1 := by omega
  have hp : st + 8 ≠ 0 := by omega
  have hst : st ≠ 0 := by omega
  have hne : ¬ (nd = sz - 8) := by omega
  have hns : nd + 24 ≤ sz - 8 := by omega
  have hcap : ¬ (8 + (8 + nd) > sz) := by omega
  have hnd2 : nd % 2 = 0 := by omega
  have e16 : st + 8 + 8 = st + 16 := by omega
  rw [mymalloc_eq _ _ _ hn, hnd]
  simp (disch := omega) only [HEADER_SIZE, add64_eq, hcap, if_false, bind, Except.bind]
  rw [find_free_block_free _ _ _ _ _ _ _ hst (le_refl _) (by omega) (by rw [h0]; exact hodd)]
  simp (disch := omega) only [header2payload, HEADER_SIZE, add64_eq]
  rw [malloc_loop_succ _ _ _ _ _ _ hp]
  simp (disch := omega) only [payload2header, HEADER_SIZE, sub64_eq, Nat.add_sub_cancel,
    get_size_mk, h0, hodd, bind, Except.bind, hne, hns, MIN_BLOCK_SIZE, add64_eq, if_false,
    if_true, pure, Except.pure, next_field, NODE_POINTER_SIZE]
  rw [detach_free_block_alone _ _ _ _ _ _ (by omega) (by omega) (by omega) h1
    (by rw [e16]; exact h2)]
  simp (disch := omega) only [split_block, header2payload, payload2header, HEADER_SIZE,
    sub64_eq, Nat.add_sub_cancel, add64_eq, set_header_mk, bind, Except.bind, pure, Except.pure]
  have hr2 : (sz - 8 - 8 - nd) % 2 = 0 := by omega
  rw [add_free_block_empty _ _ _ _ _ _ _
    (find_free_block_two f st sz _ _ nd hst (by omega) (by omega) hnd2 hbound
      (by simp (disch := omega) only [load64_setHdrMem_disj, load64_setHdrMem_alloc])
      (by simp (disch := omega) only [load64_setHdrMem_alloc]; omega))
    (by omega) (by omega) (by omega)]
  simp (disch := omega) only [get_size_mk, set_header_mk, readWord_mk, load64_store64_disj,
    load64_setHdrMem_disj, load64_setHdrMem_alloc, hr2, Nat.sub_zero, e16, h2,
    malloc_loop_null, add64_eq, Except.ok.injEq, Prod.mk.injEq, true_and, exists_eq_left']
  have ea : st + 8 + nd + 8 + 8 = st + 8 + nd + 16 := by omega
  have ez : 0 % WORD = 0 := by decide
  refine ⟨rfl, rfl, rfl, rfl, ?_, ?_, ?_, ?_⟩
  · simp (disch := omega) only [load64_store64_disj, load64_setHdrMem_disj,
      load64_setHdrMem_alloc]
  · simp (disch := omega) only [load64_setHdrMem_free]
    omega
  · simp (disch := omega) only [load64_store64_disj, load64_setHdrMem_disj,
      load64_store64_same, ez]
  · simp (disch := omega) only [ea, load64_store64_disj, load64_setHdrMem_disj,
      load64_store64_same, ez]

/-- Freeing the first block of a split heap merges it with the free rest: the heap is fresh
again. -/
theorem myfree_split (f : Nat) (s : Heap) (base size nd : Nat)
    (hf : SplitE base size nd s) (hs8 : size % 8 = 0) (hb8 : 8 ≤ base)
    (hbound : base + size < WORD) (h16 : 16 ≤ nd) (hn8 : nd % 8 = 0) (hfit : nd + 32 ≤ size) :
    ∃ s', myfree (f + 2) s (base + 8) = .ok s' ∧ FreshE base size s' := by
  have hW : WORD = 18446744073709551616 := by decide
  obtain ⟨hstart, hsize, hend, hused, h0, h1, h2, h3⟩ := hf
  obtain ⟨st, sz, e, nu, m⟩ := s
  simp only at hstart hsize hend hused h0 h1 h2 h3
  subst hstart hsize hend hused
  have hodd : (sz - 8 - nd - 8 + 1) % 2 = 1 := by omega
  have hp : st + 8 ≠ 0 := by omega
  have hst : st ≠ 0 := by omega
  have hnd2 : nd % 2 = 0 := by omega
  have hlt : st + 8 + nd < st + sz := by omega
  have ea : st + 8 + nd + 8 + 8 = st + 8 + nd + 16 := by omega
  have ez : 0 % WORD = 0 := by decide
  unfold myfree
  simp (disch := omega) only [hp, NULL, if_false, if_true, payload2header, header2payload,
    HEADER_SIZE, sub64_eq, add64_eq, Nat.add_sub_cancel, is_free_mk, get_size_mk, next_block_mk,
    h0, h1, hnd2, hodd, hlt, Nat.sub_zero, bind, Except.bind, pure, Except.pure, ne_eq,
    not_true_eq_false, not_false_eq_true, decide_True, decide_False, Bool.not_false,
    Bool.not_true, Nat.zero_ne_one, Nat.one_ne_zero, Nat.add_sub_cancel, next_field,
    NODE_POINTER_SIZE]
  have ec : nd + 8 + (sz - 8 - nd - 8) = sz - 8 := by omega
  have eu : sub64 (8 + nd + 8) (8 + nd) = 8 := by
    rw [sub64_eq _ _ (by omega) (by omega)]
    omega
  rw [detach_free_block_alone _ _ _ _ _ _ (by omega) (by omega) (by omega) h2
    (by rw [ea]; exact h3)]
  simp (disch := omega) only [ea, ec, readWord_mk, writeWord_mk, set_header_mk, h3, h2,
    load64_store64_disj]
  rw [add_free_block_empty _ _ _ _ _ _ _
    (find_free_block_one f st sz _ _ hst (by omega) (by omega) hbound
      (by simp (disch := omega) only [load64_setHdrMem_alloc]))
    (by omega) (by omega) (by omega)]
  simp (disch := omega) only [set_header_mk, eu, Except.ok.injEq, exists_eq_left']
  refine ⟨rfl, rfl, rfl, rfl, ?_, ?_, ?_⟩
  · simp (disch := omega) only [load64_setHdrMem_free]
  · simp (disch := omega) only [load64_store64_disj, load64_setHdrMem_disj,
      load64_store64_same, ez]
  · have e16 : st + 8 + 8 = st + 16 := by omega
    simp (disch := omega) only [e16, load64_store64_disj, load64_setHdrMem_disj,
      load64_store64_same, ez]

/-- A request whose `needed` is `2^64 - 8` on a fresh heap: the sums wrap, the block split
off is the whole first block again, and the heap is left fresh. -/
theorem mymalloc_fresh_wrap8 (f : Nat) (s : Heap) (base size n : Nat)
    (hf : FreshE base size s) (hs8 : size % 8 = 0) (hs24 : 24 ≤ size) (hb8 : 8 ≤ base)
    (hbound : base + size < WORD) (hn : n ≠ 0) (hnd : neededOf n = WORD - 8) :
    ∃ s', mymalloc (f + 2) s n = .ok (base + 8, s') ∧ FreshE base size s' := by
  have hW : WORD = 18446744073709551616 := by decide
  obtain ⟨hstart, hsize, hend, hused, h0, h1, h2⟩ := hf
  obtain ⟨st, sz, e, nu, m⟩ := s
  simp only at hstart hsize hend hused h0 h1 h2
  subst hstart hsize hend hused
  have hodd : (sz - 8 + 1) % 2 = 1 := by omega
  have hp : st + 8 ≠ 0 := by omega
  have hst : st ≠ 0 := by omega
  have hne : ¬ (WORD - 8 = sz - 8) := by omega
  have e16 : st + 8 + 8 = st + 16 := by omega
  have c1 : add64 8 (add64 8 (WORD - 8)) = 8 := by decide
  have c2 : add64 (WORD - 8) 24 = 16 := by decide
  have c3 : add64 (st + 8) (WORD - 8) = st := by unfold add64; rw [hW]; omega
  have c4 : sub64 (sz - 8 - 8) (WORD - 8) = sz - 8 := by unfold sub64; rw [hW]; omega
  have c5 : add64 (add64 8 (WORD - 8)) 8 = 8 := by decide
  have hcap : ¬ (8 > sz) := by omega
  have hns : 16 ≤ sz - 8 := by omega
  have hr2 : (sz - 8) % 2 = 0 := by omega
  have ez : 0 % WORD = 0 := by decide
  rw [mymalloc_eq _ _ _ hn, hnd]
  simp (disch := omega) only [HEADER_SIZE, c1, hcap, if_false, bind, Except.bind]
  rw [find_free_block_free _ _ _ _ _ _ _ hst (le_refl _) (by omega) (by rw [h0]; exact hodd)]
  simp (disch := omega) only [header2payload, HEADER_SIZE, add64_eq]
  rw [malloc_loop_succ _ _ _ _ _ _ hp]
  simp (disch := omega) only [payload2header, HEADER_SIZE, sub64_eq, Nat.add_sub_cancel,
    get_size_mk, h0, hodd, bind, Except.bind, hne, hns, MIN_BLOCK_SIZE, c2, if_false,
    if_true, pure, Except.pure, next_field, NODE_POINTER_SIZE, add64_eq]
  rw [detach_free_block_alone _ _ _ _ _ _ (by omega) (by omega) (by omega) h1
    (by rw [e16]; exact h2)]
  simp (disch := omega) only [split_block, header2payload, payload2header, HEADER_SIZE,
    sub64_eq, Nat.add_sub_cancel, add64_eq, c3, c4, c5, set_header_mk, bind, Except.bind, pure,
    Except.pure]
  rw [add_free_block_empty _ _ _ _ _ _ _
    (find_free_block_one f st sz _ _ hst (by omega) (by omega) hbound
      (by simp (disch := omega) only [load64_setHdrMem_alloc]))
    (by omega) (by omega) (by omega)]
  simp (disch := omega) only [get_size_mk, set_header_mk, readWord_mk, load64_store64_disj,
    load64_setHdrMem_disj, load64_setHdrMem_alloc, load64_store64_same, hr2, Nat.sub_zero, e16,
    ez, malloc_loop_null, add64_eq, Except.ok.injEq, Prod.mk.injEq, true_and, exists_eq_left']
  refine ⟨rfl, rfl, rfl, rfl, ?_, ?_, ?_⟩
  · simp (disch := omega) only [load64_setHdrMem_free]
  · simp (disch := omega) only [load64_store64_disj, load64_setHdrMem_disj,
      load64_store64_same, ez]
  · simp (disch := omega) only [load64_store64_disj, load64_setHdrMem_disj,
      load64_store64_same, ez]

/-- A call of `mymalloc` that returns a non-null pointer passed the capacity test. -/
theorem mymalloc_passed_capacity (fuel : Nat) (s s' : Heap) (n p : Nat)
    (h : mymalloc fuel s n = .ok (p, s')) (hp : p ≠ 0) :
    ¬ add64 s.nused (add64 HEADER_SIZE (neededOf n)) > s.segment_size := by
  intro hc
  by_cases hn : n = 0
  · subst hn
    simp [mymalloc, pure, Except.pure, NULL] at h
    exact hp h.1.symm
  · rw [mymalloc_eq _ _ _ hn, if_pos hc] at h
    simp [pure, Except.pure, NULL] at h
    exact hp h.1.symm

/-- Allocate, free, allocate again on a fresh heap of the explicit allocator, from the
shape of a fresh heap, for a request whose `needed` is not `2^64 - 16`. -/
theorem fresh_reuse (fuel : Nat) (s s1 : Heap) (base size n p : Nat)
    (hf : FreshE base size s) (hs8 : size % 8 = 0) (hs24 : 24 ≤ size) (hb8 : 8 ≤ base)
    (hbound : base + size < WORD) (hn : n ≠ 0) (hnw : neededOf n ≠ WORD - 16)
    (hfuel : 3 ≤ fuel) (h : mymalloc fuel s n = .ok (p, s1)) (hp : p ≠ 0) :
    ∃ s2 s3, myfree fuel s1 p = .ok s2 ∧ mymalloc fuel s2 n = .ok (p, s3) := by
  have hW : WORD = 18446744073709551616 := by decide
  obtain ⟨h16, hn8, hlt⟩ := neededOf_props n
  have hcap := mymalloc_passed_capacity fuel s s1 n p h hp
  rw [hf.hused, hf.hsize] at hcap
  obtain ⟨f, rfl⟩ : ∃ f, fuel = f + 3 := ⟨fuel - 3, by omega⟩
  generalize hnd : neededOf n = nd at h16 hn8 hlt hcap
  by_cases hw : nd + 16 < WORD
  · have hc : nd + 16 ≤ size := by
      simp (disch := omega) only [HEADER_SIZE, add64_eq] at hcap
      omega
    by_cases hsp : nd + 32 ≤ size
    · obtain ⟨t, ht, hsplit⟩ := mymalloc_fresh_split f s base size n nd hf hs8 hb8 hbound hn hnd
        h16 hn8 hsp
      rw [ht] at h
      injection h with h
      injection h with hp1 hs1
      subst hp1 hs1
      obtain ⟨u, hu, hfresh⟩ := myfree_split (f + 1) t base size nd hsplit hs8 hb8 hbound h16
        hn8 hsp
      obtain ⟨v, hv, _⟩ := mymalloc_fresh_split f u base size n nd hfresh hs8 hb8 hbound hn hnd
        h16 hn8 hsp
      exact ⟨u, v, hu, hv⟩
    · have ht := mymalloc_fresh_stay (f + 1) s base size n nd hf hs8 hb8 hbound hn hnd h16 hc
        (by omega)
      rw [ht] at h
      injection h with h
      injection h with hp1 hs1
      subst hp1 hs1
      exact ⟨s, s, myfree_fresh _ s base size hf hs8 hs24 (by omega) hbound, ht⟩
  · have hcase : nd = WORD - 8 ∨ nd = WORD - 16 := by omega
    rcases hcase with hc | hc
    · subst hc
      obtain ⟨t, ht, hfresh⟩ := mymalloc_fresh_wrap8 (f + 1) s base size n hf hs8 hs24 hb8
        hbound hn hnd
      rw [ht] at h
      injection h with h
      injection h with hp1 hs1
      subst hp1 hs1
      obtain ⟨v, hv, _⟩ := mymalloc_fresh_wrap8 (f + 1) t base size n hfresh hs8 hs24 hb8
        hbound hn hnd
      exact ⟨t, v, myfree_fresh _ t base size hfresh hs8 hs24 (by omega) hbound, hv⟩
    · exact absurd (hnd.trans hc) hnw

end Explicit

/-- The implicit `myinit` on a segment of size 0, when it returns: `segment_size` is 0
and `nused` is 8. -/
theorem Implicit.myinit_zero_state (s0 s : Heap) (base : Nat) (r : Bool)
    (h : Implicit.myinit s0 base 0 = .ok (r, s)) : s.segment_size = 0 ∧ s.nused = 8 := by
  have e : sub64 0 8 = WORD - 8 := by decide
  have hr : ¬ (WORD - 8 < 8) := by decide
  unfold Implicit.myinit at h
  simp only [HEADER_SIZE, e, hr, if_false] at h
  by_cases hb : base = NULL
  · subst hb
    have hf := set_header_fault (⟨0, 0, add64 0 0, s0.nused, s0.mem⟩ : Heap) (WORD - 8) FREE
      (fun hin => by
        have h2 : 0 + 8 ≤ 0 + 0 := hin.2
        omega)
    simp only [NULL] at h
    rw [hf] at h
    cases h
  · rw [set_header_ok_ne _ _ _ _ hb] at h
    simp only [bind, Except.bind, pure, Except.pure, Except.ok.injEq, Prod.mk.injEq] at h
    obtain ⟨_, rfl⟩ := h
    exact ⟨rfl, rfl⟩

/-- The implicit `mymalloc` on a segment of size 0 with `nused` 8 returns null, for a
request whose rounded size is not `2^64 - 16`. -/
theorem Implicit.mymalloc_zero_segment (MAX fuel : Nat) (s : Heap) (n : Nat)
    (hsz : s.segment_size = 0) (hu : s.nused = 8) (hnw : roundup n ALIGNMENT ≠ WORD - 16) :
    Implicit.mymalloc MAX fuel s n = .ok (NULL, s) := by
  have hW : WORD = 18446744073709551616 := by decide
  have h8 := roundup_mod8 n
  have hlt := roundup_lt n
  apply mymalloc_capacity_test_rejects.1
  rw [hsz, hu]
  generalize roundup n ALIGNMENT = r at h8 hlt hnw
  unfold add64 HEADER_SIZE
  rw [hW] at *
  omega

/-- Allocate, free, allocate again: in both variants, on a heap freshly initialised over an
8-byte-aligned segment (`myinit` returned true), for every `n > 0` whose rounded size is not
`2^64 - 16` and for which `p = mymalloc(n)` returns non-null, `myfree(p)` returns and the
next `mymalloc(n)` returns `p` again. -/
theorem malloc_free_malloc_same_pointer (MAX fuel : Nat) (s0 : Heap) (base size n : Nat)
    (hb : base % 8 = 0) (hs : size % 8 = 0) (hpos : 0 < base) (hbound : base + size < WORD)
    (hn : 0 < n) (hfuel : 3 ≤ fuel) :
    (roundup n ALIGNMENT ≠ WORD - 16 →
      ∀ s p s1, Implicit.myinit s0 base size = .ok (true, s) →
      Implicit.mymalloc MAX fuel s n = .ok (p, s1) → p ≠ NULL →
      ∃ s2 s3, Implicit.myfree s1 p = .ok s2 ∧ Implicit.mymalloc MAX fuel s2 n = .ok (p, s3)) ∧
    (Explicit.neededOf n ≠ WORD - 16 →
      ∀ s p s1, Explicit.myinit s0 base size = .ok (true, s) →
      Explicit.mymalloc fuel s n = .ok (p, s1) → p ≠ NULL →
      ∃ s2 s3, Explicit.myfree fuel s1 p = .ok s2 ∧
        Explicit.mymalloc fuel s2 n = .ok (p, s3)) := by
  constructor
  · intro hnw s p s1 hinit hm hp
    by_cases hs0 : size = 0
    · subst hs0
      obtain ⟨hsz, hu⟩ := Implicit.myinit_zero_state s0 s base true hinit
      rw [Implicit.mymalloc_zero_segment MAX fuel s n hsz hu hnw] at hm
      simp only [Except.ok.injEq, Prod.mk.injEq] at hm
      exact absurd hm.1.symm hp
    · obtain ⟨hinv, hsz⟩ := Implicit.myinit_inv s0 s base size hs hs0 hpos hbound hinit
      exact Implicit.malloc_free_malloc MAX fuel s s1 n p hinv hsz hnw hm hp
  · intro hnw s p s1 hinit hm hp
    obtain ⟨hf, hs24⟩ := Explicit.myinit_fresh s0 s base size hs hpos hbound hinit
    exact Explicit.fresh_reuse fuel s s1 base size n p hf hs hs24 (by omega) hbound (by omega)
      hnw hfuel hm hp

/-- The scenario with the 128-byte segment at 4096 and `n = 24`: both allocators return
4104 twice. -/
theorem malloc_free_malloc_example :
    (∃ s2 s3, Implicit.myfree Implicit.c9_s1 4104 = .ok s2 ∧
      Implicit.mymalloc (2 ^ 30) 64 s2 24 = .ok (4104, s3)) ∧
    (∃ s2 s3, Explicit.myfree 64 Explicit.c9_s1 4104 = .ok s2 ∧
      Explicit.mymalloc 64 s2 24 = .ok (4104, s3)) :=
  ⟨(malloc_free_malloc_same_pointer (2 ^ 30) 64 zeroHeap 4096 128 24 (by decide) (by decide)
      (by decide) (by decide) (by decide) (by decide)).1 (by decide) Implicit.c1_s0 4104
      Implicit.c9_s1 (by rfl) (by rfl) (by decide),
   (malloc_free_malloc_same_pointer (2 ^ 30) 64 zeroHeap 4096 128 24 (by decide) (by decide)
      (by decide) (by decide) (by decide) (by decide)).2 (by decide) Explicit.c9_s0 4104
      Explicit.c9_s1 (by rfl) (by rfl) (by decide)⟩

/-- C9, the failing case. explicit.c, fresh 128-byte heap at 4096, `n = 2^64 - 16`
(`needed` is `2^64 - 16`): the sums of the capacity test and of the split test wrap,
`p = mymalloc(n)` returns 4104 (and leaves `nused` at 0), `myfree(p)` returns, and the
second `mymalloc(n)` returns null, not `p`. -/
theorem C9_explicit_wrapped_request_not_reused :
    Explicit.neededOf (2 ^ 64 - 16) = 2 ^ 64 - 16 ∧
    Explicit.c9_wrap_run = .ok (4104, 0, 0, NULL) :=
  ⟨by decide, by rfl⟩

/-- The header reads and the validator on a state whose segment holds one free block
over all of it. -/
theorem one_free_block_reads (base size nu f : Nat) (m : Nat → Nat) (h8 : size % 8 = 0)
    (h16 : 16 ≤ size) (hsz : size < WORD) (hbound : base + size ≤ WORD)
    (h0 : load64 m base = size - 8 + 1) :
    get_size ⟨base, size, add64 base size, nu, m⟩ base = .ok (size - 8) ∧
    is_free ⟨base, size, add64 base size, nu, m⟩ base = .ok true ∧
    next_block ⟨base, size, add64 base size, nu, m⟩ base = .ok NULL ∧
    validate_heap (f + 1) ⟨base, size, add64 base size, 8, m⟩ = .ok true := by
  have hW : WORD = 18446744073709551616 := by decide
  have hodd : (size - 8 + 1) % 2 = 1 := by omega
  have e1 : size - 8 + 1 - 1 = size - 8 := by omega
  have hnlt : ¬ (add64 (add64 base 8) (size - 8) < add64 base size) := by
    unfold add64
    rw [hW]
    omega
  have c1 : add64 0 (add64 8 (size - 8)) = size := by
    unfold add64
    rw [hW]
    omega
  have c2 : add64 0 8 = 8 := by decide
  have hle : ¬ (8 > size) := by omega
  refine ⟨?_, ?_, ?_, ?_⟩
  · simp (disch := omega) only [get_size_mk, h0, hodd, e1]
  · simp (disch := omega) only [is_free_mk, h0, hodd]
    rfl
  · simp (disch := omega) only [next_block_mk, h0, hodd, e1, hnlt, if_false]
    rfl
  · unfold validate_heap validate_loop
    simp (disch := omega) only [get_size_mk, is_free_mk, next_block_mk, h0, hodd, e1, hnlt,
      if_false, hle, bind, Except.bind, pure, Except.pure, HEADER_SIZE, c1, c2, NULL, ne_eq,
      not_true_eq_false, not_false_eq_true, decide_True, Bool.not_true, Bool.false_eq_true,
      Nat.one_ne_zero]

theorem Implicit.myinit_ok (s0 : Heap) (base size : Nat) (h8 : size % 8 = 0)
    (h16 : 16 ≤ size) (hsz : size < WORD) (hbound : base + size ≤ WORD) :
    ∃ m, Implicit.myinit s0 base size = .ok (true, ⟨base, size, add64 base size, 8, m⟩) ∧
      load64 m base = size - 8 + 1 := by
  have hW : WORD = 18446744073709551616 := by decide
  have hr : ¬ (size - 8 < 8) := by omega
  unfold Implicit.myinit
  simp (disch := omega) only [HEADER_SIZE, sub64_eq, hr, if_false, set_header_mk, bind,
    Except.bind, pure, Except.pure, Except.ok.injEq, Prod.mk.injEq, true_and, Heap.mk.injEq,
    exists_eq_left']
  simp (disch := omega) only [load64_setHdrMem_free]

theorem Explicit.init_ok (s0 : Heap) (base size : Nat) (h8 : size % 8 = 0)
    (h24 : 24 ≤ size) (hsz : size < WORD) (hbound : base + size ≤ WORD) :
    ∃ m, Explicit.myinit s0 base size = .ok (true, ⟨base, size, add64 base size, 8, m⟩) ∧
      load64 m base = size - 8 + 1 ∧ load64 m (base + 8) = NULL ∧
      load64 m (base + 16) = NULL := by
  have hW : WORD = 18446744073709551616 := by decide
  have hr : ¬ (size < 24) := by omega
  have ez : 0 % WORD = 0 := by decide
  have e16 : base + 8 + 8 = base + 16 := by omega
  unfold Explicit.myinit
  simp (disch := omega) only [HEADER_SIZE, MIN_BLOCK_SIZE, NODE_POINTER_SIZE, sub64_eq, hr,
    if_false, set_header_mk, writeWord_mk, header2payload, Explicit.next_field, add64_eq, bind,
    Except.bind, pure, Except.pure, Except.ok.injEq, Prod.mk.injEq, true_and, Heap.mk.injEq,
    exists_eq_left', NULL, e16]
  refine ⟨?_, ?_, ?_⟩
  · simp (disch := omega) only [load64_store64_disj, load64_setHdrMem_free]
  · simp (disch := omega) only [load64_store64_disj, load64_store64_same, ez]
  · simp (disch := omega) only [load64_store64_disj, load64_store64_same, ez]

/-- C13: for a segment `[base, base + size)` of the 64-bit address space whose size is a
multiple of 8 and at least the minimum of the variant (16 implicit, 24 explicit), `myinit`
returns true from any earlier state and leaves one block: the header word at `base` is
`size - 8` with the free bit, no block follows it, `nused` is 8, in explicit.c the node at
`base + 8` has `prev = next = NULL`, and `validate_heap` returns true. -/
theorem C13_myinit_single_free_block (s0 : Heap) (base size f : Nat) (h8 : size % 8 = 0)
    (hsz : size < WORD) (hbound : base + size ≤ WORD) :
    (16 ≤ size → ∃ s, Implicit.myinit s0 base size = .ok (true, s) ∧
      s.segment_start = base ∧ s.segment_size = size ∧
      load64 s.mem base = size - 8 + FREE ∧ get_size s base = .ok (size - 8) ∧
      is_free s base = .ok true ∧ next_block s base = .ok NULL ∧ s.nused = 8 ∧
      validate_heap (f + 1) s = .ok true) ∧
    (24 ≤ size → ∃ s, Explicit.myinit s0 base size = .ok (true, s) ∧
      s.segment_start = base ∧ s.segment_size = size ∧
      load64 s.mem base = size - 8 + FREE ∧ get_size s base = .ok (size - 8) ∧
      is_free s base = .ok true ∧ next_block s base = .ok NULL ∧ s.nused = 8 ∧
      load64 s.mem (base + 8) = NULL ∧ load64 s.mem (base + 16) = NULL ∧
      validate_heap (f + 1) s = .ok true) := by
  constructor
  · intro h16
    obtain ⟨m, hm, h0⟩ := Implicit.myinit_ok s0 base size h8 h16 hsz hbound
    obtain ⟨r1, r2, r3, r4⟩ := one_free_block_reads base size 8 f m h8 h16 hsz hbound h0
    exact ⟨_, hm, rfl, rfl, h0, r1, r2, r3, rfl, r4⟩
  · intro h24
    obtain ⟨m, hm, h0, h1, h2⟩ := Explicit.init_ok s0 base size h8 h24 hsz hbound
    obtain ⟨r1, r2, r3, r4⟩ := one_free_block_reads base size 8 f m h8 (by omega) hsz hbound h0
    exact ⟨_, hm, rfl, rfl, h0, r1, r2, r3, rfl, h1, h2, r4⟩

/-- Witness of C13: the 128-byte segment at 4096, from the all-zero state. -/
theorem C13_myinit_single_free_block_witness :
    (∃ s, Implicit.myinit zeroHeap 4096 128 = .ok (true, s) ∧
      s.segment_start = 4096 ∧ s.segment_size = 128 ∧
      load64 s.mem 4096 = 128 - 8 + FREE ∧ get_size s 4096 = .ok (128 - 8) ∧
      is_free s 4096 = .ok true ∧ next_block s 4096 = .ok NULL ∧ s.nused = 8 ∧
      validate_heap (0 + 1) s = .ok true) ∧
    (∃ s, Explicit.myinit zeroHeap 4096 128 = .ok (true, s) ∧
      s.segment_start = 4096 ∧ s.segment_size = 128 ∧
      load64 s.mem 4096 = 128 - 8 + FREE ∧ get_size s 4096 = .ok (128 - 8) ∧
      is_free s 4096 = .ok true ∧ next_block s 4096 = .ok NULL ∧ s.nused = 8 ∧
      load64 s.mem (4096 + 8) = NULL ∧ load64 s.mem (4096 + 16) = NULL ∧
      validate_heap (0 + 1) s = .ok true) :=
  ⟨(C13_myinit_single_free_block zeroHeap 4096 128 0 (by decide) (by decide)
     (by decide)).1 (by decide),
   (C13_myinit_single_free_block zeroHeap 4096 128 0 (by decide) (by decide)
     (by decide)).2 (by decide)⟩

/-- The implicit `myinit` returns false for sizes 8 to 15 and writes nothing. -/
theorem Implicit.myinit_rejects_small (s0 : Heap) (base size : Nat) (h8 : 8 ≤ size)
    (h16 : size < 16) :
    Implicit.myinit s0 base size
      = .ok (false, ⟨base, size, add64 base size, s0.nused, s0.mem⟩) := by
  have hW : WORD = 18446744073709551616 := by decide
  have hr : size - 8 < 8 := by omega
  unfold Implicit.myinit
  simp (disch := omega) only [HEADER_SIZE, sub64_eq, hr, if_true, pure, Except.pure]

/-- The explicit `myinit` returns false for every size below 24 and writes nothing. -/
theorem Explicit.init_rejects_small (s0 : Heap) (base size : Nat) (h24 : size < 24) :
    Explicit.myinit s0 base size
      = .ok (false, ⟨base, size, add64 base size, s0.nused, s0.mem⟩) := by
  unfold Explicit.myinit
  simp only [MIN_BLOCK_SIZE, h24, if_true, pure, Except.pure]

/-- C14, the failing case. Implicit `myinit` with `heap_size < 8` on a non-null segment:
the unsigned difference `segment_size - HEADER_SIZE` wraps to `2^64 - 8 + heap_size`, the
test `remaining_space < HEADER_SIZE` does not reject, and the call stores the 8-byte header
(that size, marked free) at `heap_start`, sets `nused` to 8 and returns true; it does not
return false, and a header is written. -/
theorem C14_implicit_tiny_segment_not_rejected (s0 : Heap) (base size : Nat) (h : size < 8)
    (hb : base ≠ NULL) :
    sub64 size HEADER_SIZE = WORD - 8 + size ∧ ¬ (sub64 size HEADER_SIZE < HEADER_SIZE) ∧
    Implicit.myinit s0 base size = .ok (true, ⟨base, size, add64 base size, 8,
      setHdrMem s0.mem base (WORD - 8 + size) FREE⟩) ∧
    load64 (setHdrMem s0.mem base (WORD - 8 + size) FREE) base
      = Nat.lor (WORD - 8 + size) FREE := by
  have hW : WORD = 18446744073709551616 := by decide
  have e : sub64 size HEADER_SIZE = WORD - 8 + size := by
    unfold sub64 HEADER_SIZE
    rw [hW]
    omega
  have hr : ¬ (WORD - 8 + size < 8) := by omega
  refine ⟨e, by rw [e]; exact hr, ?_, ?_⟩
  · have e8 : sub64 size 8 = WORD - 8 + size := e
    unfold Implicit.myinit
    simp only [HEADER_SIZE, e8, hr, if_false, set_header_ok_ne _ _ _ _ hb, bind, Except.bind,
      pure, Except.pure]
  · unfold setHdrMem
    rw [load64_store64_same]
    have h1 : (WORD - 8 + size) % WORD = WORD - 8 + size := Nat.mod_eq_of_lt (by omega)
    rw [h1]
    apply Nat.mod_eq_of_lt
    have h2 : Nat.lor (WORD - 8 + size) FREE < 2 ^ 64 :=
      Nat.or_lt_two_pow (by rw [hW]; omega) (by decide)
    exact h2

/-- Witness of C14: `myinit(4096, 4)` of implicit.c. -/
theorem C14_implicit_tiny_segment_not_rejected_witness :
    sub64 4 HEADER_SIZE = WORD - 8 + 4 ∧ ¬ (sub64 4 HEADER_SIZE < HEADER_SIZE) ∧
    Implicit.myinit zeroHeap 4096 4 = .ok (true, ⟨4096, 4, add64 4096 4, 8,
      setHdrMem zeroHeap.mem 4096 (WORD - 8 + 4) FREE⟩) ∧
    load64 (setHdrMem zeroHeap.mem 4096 (WORD - 8 + 4) FREE) 4096
      = Nat.lor (WORD - 8 + 4) FREE :=
  C14_implicit_tiny_segment_not_rejected zeroHeap 4096 4 (by decide) (by decide)

theorem WalkEnds.bounds (e : Nat) :
    ∀ (L : List Block) (a : Nat), WalkEnds e a L →
      a + 8 ≤ e ∧ e ≤ a + total L ∧ a + total L < WORD := by
  intro L
  induction L with
  | nil => intro a h; exact absurd h (by simp [WalkEnds])
  | cons b L ih =>
    intro a h
    cases L with
    | nil =>
      simp only [WalkEnds] at h
      simp only [total]
      omega
    | cons c L =>
      simp only [WalkEnds] at h
      have := ih _ h.2
      simp only [total] at this ⊢
      omega

/-- The three header reads at a block whose size field is even. -/
theorem walk_reads {base size : Nat} {s : Heap} (g : Geom base size s) (b : Block)
    (a : Nat) (hw : load64 s.mem a = hdrWord b) (hb : b.1 % 2 = 0)
    (h1 : base ≤ a) (h2 : a + 8 ≤ base + size) (h3 : a + 8 + b.1 < WORD) :
    get_size s a = .ok b.1 ∧ is_free s a = .ok b.2 ∧
    next_block s a = .ok (if a + 8 + b.1 < base + size then a + 8 + b.1 else 0) := by
  have hin : inSegment s a := g.inSeg a h1 h2
  have e : add64 (add64 a 8) b.1 = a + 8 + b.1 := by
    unfold add64 WORD at *
    omega
  have e1 : hdrWord b - hdrWord b % 2 = b.1 := by
    unfold hdrWord FREE ALLOCATED
    split <;> omega
  have e2 : hdrWord b % 2 = (if b.2 then 1 else 0) := by
    unfold hdrWord FREE ALLOCATED
    split <;> omega
  refine ⟨?_, ?_, ?_⟩
  · rw [get_size_ok s a hin, hw, e1]
  · rw [is_free_ok s a hin, hw, e2]
    cases b.2 <;> simp
  · rw [next_block_ok s a hin, hw, e1, e, g.hend]

theorem validate_loop_walk {base size : Nat} {s : Heap} (g : Geom base size s) :
    ∀ (L : List Block) (a fuel nb nu : Nat), (∀ b ∈ L, b.1 % 2 = 0) → Tiles s.mem a L →
      base ≤ a → WalkEnds (base + size) a L → nb + total L < WORD →
      validate_loop (fuel + L.length) s a nb nu
        = .ok (nb + total L, (nu + usedOf L) % WORD) := by
  intro L
  induction L with
  | nil => intro a fuel nb nu _ _ _ h; exact absurd h (by simp [WalkEnds])
  | cons b L ih =>
    intro a fuel nb nu hwf ht h1 hwalk h3
    have hb : b.1 % 2 = 0 := hwf b (List.mem_cons_self _ _)
    have hbd := WalkEnds.bounds _ _ _ hwalk
    simp only [total] at hbd h3
    obtain ⟨r1, r2, r3⟩ := walk_reads g b a ht.1 hb h1 hbd.1 (by omega)
    have e0 : fuel + (b :: L).length = (fuel + L.length) + 1 := by simp; omega
    rw [e0]
    unfold validate_loop
    simp only [r1, r2, r3, bind, Except.bind, HEADER_SIZE, NULL]
    have a1 : add64 nb (add64 8 b.1) = nb + (8 + b.1) := by
      unfold add64 WORD at *; omega
    have a2 : add64 (if (!b.2) = true then add64 nu b.1 else nu) 8
        = (nu + (8 + if b.2 then 0 else b.1)) % WORD := by
      cases hb2 : b.2 <;> simp <;> unfold add64 WORD <;> omega
    rw [a1, a2]
    cases L with
    | nil =>
      simp only [WalkEnds] at hwalk
      have : ¬ (a + 8 + b.1 < base + size) := by omega
      simp [this, pure, Except.pure, total, usedOf]
    | cons c L =>
      simp only [WalkEnds] at hwalk
      have hne : a + 8 + b.1 ≠ 0 := by omega
      simp only [hwalk.1, if_true, hne, ne_eq, not_false_eq_true]
      rw [ih (a + 8 + b.1) fuel _ _ (fun c hc => hwf c (List.mem_cons_of_mem _ hc)) ht.2
        (by omega) hwalk.2 (by simp only [total] at h3 ⊢; omega)]
      simp only [total, usedOf, Nat.add_mod_mod, Nat.mod_add_mod]
      congr 2
      · omega
      · congr 1
        omega

/-- C15: both files have the same `validate_heap`.  For a state whose block walk from the
base visits the blocks of `L` and then reaches the segment end, `validate_heap` returns
(and, being a function of the state alone, changes nothing), and it returns true exactly
when `nused <= segment_size`, the sum of `8 + payload size` over the blocks is
`segment_size`, and the sum of 8 per block plus the payload sizes of the allocated blocks
is `nused`. -/
theorem C15_validate_heap_iff_sums (base size fuel : Nat) (s : Heap) (L : List Block)
    (g : Geom base size s) (hwf : ∀ b ∈ L, b.1 % 2 = 0) (ht : Tiles s.mem base L)
    (hwalk : WalkEnds (base + size) base L) (hfuel : L.length ≤ fuel) :
    validate_heap fuel s
      = .ok (decide (s.nused ≤ s.segment_size ∧ total L = s.segment_size ∧
          usedOf L = s.nused)) := by
  have hW : WORD = 18446744073709551616 := by decide
  have hbd := WalkEnds.bounds _ _ _ hwalk
  have hpos := g.hpos
  have hle := usedOf_le_total L
  obtain ⟨f, rfl⟩ : ∃ f, fuel = f + L.length := ⟨fuel - L.length, by omega⟩
  have hloop := validate_loop_walk g L base f 0 0 hwf ht (le_refl _) hwalk (by omega)
  have hu : (0 + usedOf L) % WORD = usedOf L := by
    rw [Nat.zero_add]
    exact Nat.mod_eq_of_lt (by omega)
  rw [hu, Nat.zero_add] at hloop
  unfold validate_heap
  rw [g.hstart, hloop, g.hsize]
  by_cases h1 : s.nused > size
  · have : ¬ s.nused ≤ size := by omega
    simp [h1, this, pure, Except.pure]
  · have h1' : s.nused ≤ size := by omega
    simp only [h1, if_false, bind, Except.bind, h1', true_and]
    by_cases h2 : usedOf L = s.nused
    · by_cases h3 : total L = size
      · simp [h2, h3, pure, Except.pure]
      · simp [h2, h3, pure, Except.pure]
    · simp [h2, pure, Except.pure]

/-- Witness of C15: the implicit heap after `myinit(4096, 128)` and `mymalloc(16)`, whose
walk visits an allocated block of 16 bytes and a free block of 96 bytes. -/
theorem C15_validate_heap_iff_sums_witness :
    validate_heap 2 Implicit.c1_s1
      = .ok (decide (Implicit.c1_s1.nused ≤ Implicit.c1_s1.segment_size ∧
          total [(16, false), (96, true)] = Implicit.c1_s1.segment_size ∧
          usedOf [(16, false), (96, true)] = Implicit.c1_s1.nused)) :=
  C15_validate_heap_iff_sums 4096 128 2 Implicit.c1_s1 [(16, false), (96, true)]
    ⟨by rfl, by rfl, by rfl, by decide, by decide⟩
    (by decide) ⟨by rfl, by rfl, trivial⟩ ⟨by decide, by decide, by decide, by decide⟩
    (by decide)

namespace Implicit

theorem placeL_first (nd B : Nat) (L2 : List Block) (hfit : nd = B ∨ nd + 16 ≤ B) :
    ∀ (L1 : List Block), (∀ b ∈ L1, ¬ (b.2 = true ∧ (b.1 = nd ∨ nd + 16 ≤ b.1))) →
      placeL nd (L1 ++ (B, true) :: L2) = some (total L1, L1 ++ placedAt nd B L2) := by
  intro L1
  induction L1 with
  | nil =>
    intro _
    by_cases h : nd + 16 ≤ B
    · simp [placeL, placedAt, h, total]
    · have hb : nd = B := by omega
      simp [placeL, placedAt, h, hb, total]
  | cons b L1 ih =>
    intro hfirst
    have hb := hfirst b (List.mem_cons_self _ _)
    have h1 : ¬ (b.2 = true ∧ nd + 16 ≤ b.1) := fun h => hb ⟨h.1, Or.inr h.2⟩
    have h2 : ¬ (b.2 = true ∧ nd = b.1) := fun h => hb ⟨h.1, Or.inl h.2.symm⟩
    have := ih (fun c hc => hfirst c (List.mem_cons_of_mem _ hc))
    show placeL nd (b :: (L1 ++ (B, true) :: L2))
      = some (8 + b.1 + total L1, b :: (L1 ++ placedAt nd B L2))
    simp only [placeL, h1, h2, if_false]
    show Option.map _ (placeL nd (L1 ++ (B, true) :: L2)) = _
    rw [this]
    rfl

/-- The walk of `fit_block` passes over the blocks that are allocated or do not fit. -/
theorem fit_block_walk {base size : Nat} (nd : Nat) (hn : nd + 16 < WORD) (s : Heap)
    (g : Geom base size s) (c : Block) (L2 : List Block) :
    ∀ (L1 : List Block) (a fuel : Nat), WFBlocks (L1 ++ c :: L2) →
      Tiles s.mem a (L1 ++ c :: L2) → base ≤ a → a + total (L1 ++ c :: L2) = base + size →
      (∀ b ∈ L1, ¬ (b.2 = true ∧ (b.1 = nd ∨ nd + 16 ≤ b.1))) →
      fit_block (fuel + L1.length) nd a s = fit_block fuel nd (a + total L1) s := by
  intro L1
  induction L1 with
  | nil => intro a fuel _ _ _ _ _; simp [total]
  | cons b L1 ih =>
    intro a fuel hwf ht h1 h2 hfirst
    have hb8 : b.1 % 8 = 0 := hwf b (List.mem_cons_self _ _)
    have hpos := g.hpos
    have h2 : a + (8 + b.1 + total (L1 ++ c :: L2)) = base + size := h2
    have htl : 8 ≤ total (L1 ++ c :: L2) := by
      rw [total_append]
      simp only [total]
      omega
    obtain ⟨r1, r2, r3⟩ := head_reads g b (L1 ++ c :: L2) a ht hb8 h1
      (by simp only [total]; omega)
    have hlt : a + 8 + b.1 < base + size := by omega
    rw [if_pos hlt] at r3
    have hb := hfirst b (List.mem_cons_self _ _)
    have e0 : fuel + (b :: L1).length = (fuel + L1.length) + 1 := by simp; omega
    rw [e0, fit_block_skip s a nd _ b.1 _ b.2 (by omega) r1 r2 r3
      (fun h => hb ⟨h.1, h.2.elim Or.inr (fun e => Or.inl e.symm)⟩) hn]
    rw [ih (a + 8 + b.1) fuel (fun d hd => hwf d (List.mem_cons_of_mem _ hd)) ht.2 (by omega)
      (by omega) (fun d hd => hfirst d (List.mem_cons_of_mem _ hd))]
    simp only [total]
    congr 1
    omega

/-- The state left by `mymalloc` when the first fitting block is `(B, true)` at offset
`total L1`: the header stores of `fit_block` and nothing else. -/
theorem mymalloc_first_fit_state {base size : Nat} (MAX : Nat) (s : Heap)
    (L1 L2 : List Block) (B fuel n nd : Nat)
    (hinv : HeapInv base size s (L1 ++ (B, true) :: L2)) (hnd : roundup n ALIGNMENT = nd)
    (hn0 : n ≠ 0) (hnM : n ≤ MAX) (hn16 : nd + 16 < WORD)
    (hcap : ¬ add64 s.nused (add64 HEADER_SIZE nd) > s.segment_size)
    (hfirst : ∀ b ∈ L1, ¬ (b.2 = true ∧ (b.1 = nd ∨ nd + 16 ≤ b.1)))
    (hfit : nd = B ∨ nd + 16 ≤ B) (hfuel : L1.length + 1 ≤ fuel) :
    mymalloc MAX fuel s n = .ok (base + total L1 + 8,
      if nd + 16 ≤ B then
        { s with mem := setHdrMem (setHdrMem s.mem (base + total L1) nd 0)
                          (base + total L1 + 8 + nd) (B - nd - 8) 1,
                 nused := add64 (add64 s.nused nd) 8 }
      else { s with mem := setHdrMem s.mem (base + total L1) nd 0,
                    nused := add64 s.nused nd }) := by
  have g := hinv.geom
  have hbd := g.hbound
  have hpos := g.hpos
  have htot := hinv.tot
  rw [total_append] at htot
  simp only [total] at htot
  obtain ⟨f, rfl⟩ : ∃ f, fuel = f + 1 + L1.length := ⟨fuel - 1 - L1.length, by omega⟩
  have hwalk := fit_block_walk nd hn16 s g (B, true) L2 L1 base (f + 1) hinv.wf hinv.tiles
    (le_refl _) (by rw [hinv.tot]) hfirst
  have ht2 := ((Tiles_append s.mem L1 _ base).1 hinv.tiles).2
  have hB8 : B % 8 = 0 := hinv.wf (B, true) (List.mem_append_right _ (List.mem_cons_self _ _))
  obtain ⟨r1, r2, _⟩ := head_reads g (B, true) L2 (base + total L1) ht2 hB8 (by omega)
    (by simp only [total]; omega)
  simp only at r1 r2
  have hs1 : s.segment_start ≤ base + total L1 := by rw [g.hstart]; omega
  have hs2 : base + total L1 + 8 + B ≤ s.segment_start + s.segment_size := by
    rw [g.hstart, g.hsize]; omega
  have ep : header2payload (base + total L1) = base + total L1 + 8 := by
    unfold header2payload HEADER_SIZE
    exact add64_eq _ _ (by omega)
  have hnM' : ¬ n > MAX := by omega
  unfold mymalloc
  simp only [hn0, hnM', if_false, hnd, hcap, g.hstart, hwalk, bind, Except.bind]
  by_cases hsp : nd + 16 ≤ B
  · rw [fit_block_split s _ nd B f (by omega) r1 r2 hsp hs1 hs2 (by omega)]
    simp only [hsp, if_true, Bool.not_true, Bool.false_eq_true, if_false, pure, Except.pure, ep]
    rw [g.hstart]
  · have hb : nd = B := by omega
    subst hb
    rw [fit_block_perfect s _ nd f (by omega) r1 r2 hs1 hs2 hn16]
    simp only [hsp, if_false, Bool.not_true, Bool.false_eq_true, pure, Except.pure, ep]
    rw [g.hstart]

end Implicit

theorem Implicit.first_fit_core (MAX base size : Nat) (s : Heap) (L1 L2 : List Block)
    (B fuel n nd : Nat) (hnd : roundup n ALIGNMENT = nd) (hb8 : base % 8 = 0)
    (hinv : HeapInv base size s (L1 ++ (B, true) :: L2)) (hn0 : 0 < n) (hnM : n ≤ MAX)
    (hcap : ¬ add64 s.nused (add64 HEADER_SIZE nd) > s.segment_size)
    (hfirst : ∀ b ∈ L1, ¬ (b.2 = true ∧ (b.1 = nd ∨ nd + 16 ≤ b.1)))
    (hfit : nd = B ∨ nd + 16 ≤ B) (hfuel : (L1 ++ (B, true) :: L2).length ≤ fuel) :
    ∃ s', Implicit.mymalloc MAX fuel s n = .ok (base + total L1 + 8, s') ∧
      (nd = B →
        HeapInv base size s' (L1 ++ (B, false) :: L2) ∧ s'.nused = s.nused + nd ∧
        ∀ x, x < base + total L1 ∨ base + total L1 + 8 ≤ x → s'.mem x = s.mem x) ∧
      (nd + 16 ≤ B →
        HeapInv base size s' (L1 ++ (nd, false) :: (B - 8 - nd, true) :: L2) ∧
        s'.nused = s.nused + nd + 8 ∧
        ∀ x, x < base + total L1 ∨ base + total L1 + 8 ≤ x →
          x < base + total L1 + 8 + nd ∨ base + total L1 + 8 + nd + 8 ≤ x →
          s'.mem x = s.mem x) := by
  have g := hinv.geom
  have hbd := g.hbound
  have hpos := g.hpos
  have htot := hinv.tot
  rw [total_append] at htot
  simp only [total] at htot
  have hused := hinv.used
  rw [usedOf_append] at hused
  simp only [usedOf, if_true] at hused
  have hn16 : nd + 16 < WORD := by omega
  have hcap' : ¬ add64 s.nused (add64 HEADER_SIZE (roundup n ALIGNMENT)) > s.segment_size := by
    rw [hnd]; exact hcap
  have hpl := Implicit.placeL_first nd B L2 hfit L1 hfirst
  obtain ⟨s', hm, hinv'⟩ := Implicit.mymalloc_place MAX s _ fuel n _ _ hinv (by omega) hnM
    (by rw [hnd]; exact hn16) hcap' (by rw [hnd]; exact hpl) hfuel
  have hst := Implicit.mymalloc_first_fit_state MAX s L1 L2 B fuel n nd hinv hnd (by omega)
    hnM hn16 hcap hfirst hfit (by simp at hfuel; omega)
  rw [hm] at hst
  injection hst with hst
  injection hst with _ hs'
  have hused' := hinv'.used
  rw [usedOf_append] at hused'
  refine ⟨s', hm, ?_, ?_⟩
  · intro hB
    have hsp : ¬ (nd + 16 ≤ B) := by omega
    simp only [Implicit.placedAt, hsp, if_false] at hinv' hused'
    rw [if_neg hsp] at hs'
    subst hB
    refine ⟨hinv', ?_, ?_⟩
    · simp only [usedOf, Bool.false_eq_true, if_false] at hused'
      omega
    · intro x hx
      rw [hs']
      exact setHdrMem_outside _ _ _ _ _ hx
  · intro hsp
    simp only [Implicit.placedAt, hsp, if_true] at hinv' hused'
    rw [if_pos hsp] at hs'
    have e : B - nd - 8 = B - 8 - nd := by omega
    rw [e] at hinv'
    refine ⟨hinv', ?_, ?_⟩
    · simp only [usedOf, Bool.false_eq_true, if_false, if_true] at hused'
      omega
    · intro x hx1 hx2
      rw [hs']
      show setHdrMem (setHdrMem s.mem (base + total L1) nd 0) (base + total L1 + 8 + nd)
        (B - nd - 8) 1 x = s.mem x
      rw [setHdrMem_outside _ _ _ _ _ hx2, setHdrMem_outside _ _ _ _ _ hx1]

/-- C17. Implicit allocator, first-fit placement.  In a state that satisfies the heap
invariants (segment base 8-byte aligned), for `0 < n <= MAX_REQUEST_SIZE` passing the
capacity check, let `(B, free)` at offset `total L1` be the lowest-addressed free block with
`B == need` or `B >= need + 16` (`need = roundup(n, 8)`).  Then `mymalloc(n)` returns the
payload address of that block.  When `B == need` the block becomes allocated with its size
unchanged, `nused` grows by `need` and no byte outside its header word changes.  When
`B >= need + 16` its header becomes `(need, allocated)`, a free header of size
`B - 8 - need` follows the `need` payload bytes, `nused` grows by `need + 8` and no byte
outside these two header words changes.  All other blocks are as before. -/
theorem C17_implicit_first_fit_placement (MAX base size : Nat) (s : Heap)
    (L1 L2 : List Block) (B fuel n : Nat) (hb8 : base % 8 = 0)
    (hinv : HeapInv base size s (L1 ++ (B, true) :: L2)) (hn0 : 0 < n) (hnM : n ≤ MAX)
    (hcap : ¬ add64 s.nused (add64 HEADER_SIZE (roundup n ALIGNMENT)) > s.segment_size)
    (hfirst : ∀ b ∈ L1, ¬ (b.2 = true ∧
      (b.1 = roundup n ALIGNMENT ∨ roundup n ALIGNMENT + 16 ≤ b.1)))
    (hfit : roundup n ALIGNMENT = B ∨ roundup n ALIGNMENT + 16 ≤ B)
    (hfuel : (L1 ++ (B, true) :: L2).length ≤ fuel) :
    ∃ s', Implicit.mymalloc MAX fuel s n = .ok (base + total L1 + 8, s') ∧
      (roundup n ALIGNMENT = B →
        HeapInv base size s' (L1 ++ (B, false) :: L2) ∧
        s'.nused = s.nused + roundup n ALIGNMENT ∧
        ∀ x, x < base + total L1 ∨ base + total L1 + 8 ≤ x → s'.mem x = s.mem x) ∧
      (roundup n ALIGNMENT + 16 ≤ B →
        HeapInv base size s'
          (L1 ++ (roundup n ALIGNMENT, false) :: (B - 8 - roundup n ALIGNMENT, true) :: L2) ∧
        s'.nused = s.nused + roundup n ALIGNMENT + 8 ∧
        ∀ x, x < base + total L1 ∨ base + total L1 + 8 ≤ x →
          x < base + total L1 + 8 + roundup n ALIGNMENT ∨
            base + total L1 + 8 + roundup n ALIGNMENT + 8 ≤ x →
          s'.mem x = s.mem x) :=
  Implicit.first_fit_core MAX base size s L1 L2 B fuel n (roundup n ALIGNMENT) rfl hb8 hinv
    hn0 hnM hcap hfirst hfit hfuel

/-- Witness of C17: the heap after `myinit(4096, 128)` and `mymalloc(16)`, blocks
`[16 allocated][96 free]`, and the request `n = 24` (placed by a split at 4128). -/
theorem C17_implicit_first_fit_placement_witness :
    ∃ s', Implicit.mymalloc (2 ^ 30) 64 Implicit.c1_s1 24 = .ok (4096 + total [(16, false)] + 8, s') ∧
      (roundup 24 ALIGNMENT = 96 →
        HeapInv 4096 128 s' ([(16, false)] ++ (96, false) :: []) ∧
        s'.nused = Implicit.c1_s1.nused + roundup 24 ALIGNMENT ∧
        ∀ x, x < 4096 + total [(16, false)] ∨ 4096 + total [(16, false)] + 8 ≤ x →
          s'.mem x = Implicit.c1_s1.mem x) ∧
      (roundup 24 ALIGNMENT + 16 ≤ 96 →
        HeapInv 4096 128 s'
          ([(16, false)] ++ (roundup 24 ALIGNMENT, false) ::
            (96 - 8 - roundup 24 ALIGNMENT, true) :: []) ∧
        s'.nused = Implicit.c1_s1.nused + roundup 24 ALIGNMENT + 8 ∧
        ∀ x, x < 4096 + total [(16, false)] ∨ 4096 + total [(16, false)] + 8 ≤ x →
          x < 4096 + total [(16, false)] + 8 + roundup 24 ALIGNMENT ∨
            4096 + total [(16, false)] + 8 + roundup 24 ALIGNMENT + 8 ≤ x →
          s'.mem x = Implicit.c1_s1.mem x) :=
  C17_implicit_first_fit_placement (2 ^ 30) 4096 128 Implicit.c1_s1 [(16, false)] [] 96 64 24
    (by decide)
    ⟨⟨by rfl, by rfl, by rfl, by decide, by decide⟩, by simp, by unfold WFBlocks; decide,
      ⟨by rfl, by rfl, trivial⟩, by rfl, by rfl⟩
    (by decide) (by decide) (by decide) (by decide) (by decide) (by decide)

/-- C11, the failing case. explicit.c, heap `[16 allocated][40 allocated][48 free]` on a
128-byte segment at 4096 (`validate_heap` true), `p = 4104` holding 16 zero bytes:
`myrealloc(p, 40)` returns `q = 4176`, the payload of the free block, which `mymalloc` did
not place (48 is neither 40 nor at least 64); `myfree(p)` then links `p` before that block in
the free list and stores `p` in its `prev` field, so the word at `q` is 4104 while the word
at `p` was 0.  The header before `q` is still 49 (free); the header at the base is 17
(`p` is freed). -/
theorem C11_explicit_realloc_overwrites_copy :
    Explicit.c11_run = .ok (true, 0, 0, 4176, 4104, 0, 49, 17) := by rfl

/-- The scenario of the specification for C11 (`p = malloc(8)` filled with `0xAB`,
`q = realloc(p, 32)`) runs as the claim says in both files: the word at `q` is the pattern
and the block of `p` is free. -/
theorem realloc_pattern_scenario :
    Implicit.c11_pattern_run = .ok (4120, 0xABABABABABABABAB, true) ∧
    Explicit.c11_pattern_run = .ok (4128, 0xABABABABABABABAB, true) :=
  ⟨by rfl, by rfl⟩

/-- C12, the failing case. Fresh 128-byte heap at 4096 after `p = mymalloc(16)`
(`p = 4104`), then `myrealloc(p, 200)`: in both files `mymalloc(200)` returns null and
leaves the state as it is, and `myrealloc` goes on to `memcpy(NULL, p, 200)`, a store
through the null pointer: the call does not return.  The `myfree(p)` that follows in the
source would free the block (header 121, `nused` 8). -/
theorem C12_realloc_out_of_capacity_faults :
    Implicit.mymalloc (2 ^ 30) 64 Implicit.c1_s1 200 = .ok (NULL, Implicit.c1_s1) ∧
    memcpy Implicit.c1_s1 NULL 4104 200 = .error Err.fault ∧
    Implicit.myrealloc (2 ^ 30) 64 Implicit.c1_s1 4104 200 = .error Err.fault ∧
    observe (Implicit.myfree Implicit.c1_s1 4104) (fun s => (load64 s.mem 4096, s.nused))
      = .ok (121, 8) ∧
    Explicit.mymalloc 64 Explicit.c12_s1 200 = .ok (NULL, Explicit.c12_s1) ∧
    memcpy Explicit.c12_s1 NULL 4104 200 = .error Err.fault ∧
    Explicit.myrealloc 64 Explicit.c12_s1 4104 200 = .error Err.fault ∧
    observe (Explicit.myfree 64 Explicit.c12_s1 4104) (fun s => (load64 s.mem 4096, s.nused))
      = .ok (121, 8) :=
  ⟨by rfl, by rfl, by rfl, by rfl, by rfl, by rfl, by rfl, by rfl⟩

/-- C16, the failing case. explicit.c, fresh 128-byte heap at 4096: `w = mymalloc(24)`
(4104), `q = mymalloc(72)` (4136, the payload of the free block, not placed),
`myfree(w)`, `mymalloc(16)` (4104), `myfree(q)`.  At the end the blocks are
`[16 allocated][96 free]` (header words 16 and 97, `validate_heap` true), and the node of
the only free block, at 4128, has `prev = 1` and `next = 4136`, where no free block
starts. -/
theorem C16_explicit_free_list_corrupted :
    Explicit.c16_run = .ok (4104, 4136, 4104, [16, 97, 1, 4136, 0], 32, true) := by rfl

/-- C18, the failing case: the two scenarios of the claim.  Implicit, `mymalloc(16)` on a
fresh 32-byte heap (one free block of 24 bytes, header word 25, `validate_heap` true):
`fit_block` passes the block over and ends with a null block and the state unchanged, and
`mymalloc` then dereferences the null pointer: the call does not return.  Explicit,
`mymalloc(24)` on a fresh 48-byte heap (one free block of 40 bytes, `validate_heap` true):
the call returns 4104 but the header word at the base is still 41 (free, 40 bytes) and
`nused` is still 8. -/
theorem C18_tight_block_not_consumed :
    validate_heap 64 Implicit.c18_s0 = .ok true ∧
    load64 Implicit.c18_s0.mem 4096 = 25 ∧
    Implicit.fit_block 64 16 4096 Implicit.c18_s0 = .ok (false, NULL, Implicit.c18_s0) ∧
    Implicit.c18_run = .error Err.fault ∧
    validate_heap 64 Explicit.c18_s0 = .ok true ∧
    Explicit.c18_run = .ok (4104, 41, 8) :=
  ⟨by rfl, by rfl, by rfl, by rfl, by rfl, by rfl⟩

/-- C20, the failing case. Fresh 128-byte heap at 4096, `p0 = mymalloc(16)`,
`mymalloc(64)`, `myfree(p0)`, `p2 = mymalloc(24)`: in both files the blocks are
`[16 free][64 allocated][24 allocated]` (header words 17, 64, 24), `nused` is 112,
`validate_heap` is true and `p2 = 4200` is the payload of the last block.  `myfree(p2)`
gets null from `next_block` and reads the header of the null block (`is_free(NULL)`): the
call does not return. -/
theorem C20_free_last_block_faults :
    Implicit.c20_before = .ok (4104, 4128, 4200, [17, 64, 24], 112, true) ∧
    next_block Implicit.c20_state 4192 = .ok NULL ∧
    is_free Implicit.c20_state NULL = .error Err.fault ∧
    Implicit.myfree Implicit.c20_state 4200 = .error Err.fault ∧
    Explicit.c20_before = .ok (4104, 4128, 4200, [17, 64, 24], 112, true) ∧
    next_block Explicit.c20_state 4192 = .ok NULL ∧
    is_free Explicit.c20_state NULL = .error Err.fault ∧
    Explicit.myfree 64 Explicit.c20_state 4200 = .error Err.fault :=
  ⟨by rfl, by rfl, by rfl, by rfl, by rfl, by rfl, by rfl, by rfl⟩

theorem freePtrs_append (L1 L2 : List Block) (a : Nat) :
    freePtrs a (L1 ++ L2) = freePtrs a L1 ++ freePtrs (a + total L1) L2 := by
  induction L1 generalizing a with
  | nil => simp [freePtrs, total]
  | cons b L ih =>
    have e : a + (8 + b.1 + total L) = a + 8 + b.1 + total L := by omega
    show (if b.2 then (a + 8) :: freePtrs (a + 8 + b.1) (L ++ L2)
        else freePtrs (a + 8 + b.1) (L ++ L2))
      = (if b.2 then (a + 8) :: freePtrs (a + 8 + b.1) L else freePtrs (a + 8 + b.1) L)
        ++ freePtrs (a + (8 + b.1 + total L)) L2
    rw [ih, e]
    split <;> simp

theorem freePtrs_bounds (L : List Block) (h16 : ∀ b ∈ L, 16 ≤ b.1) (a y : Nat)
    (h : y ∈ freePtrs a L) : a + 8 ≤ y ∧ y + 16 ≤ a + total L := by
  induction L generalizing a with
  | nil => simp [freePtrs] at h
  | cons b L ih =>
    have hb := h16 b (List.mem_cons_self _ _)
    have ih' := ih (fun c hc => h16 c (List.mem_cons_of_mem _ hc)) (a + 8 + b.1)
    simp only [freePtrs] at h
    simp only [total]
    split at h
    · rcases List.mem_cons.1 h with h | h
      · omega
      · have := ih' h; omega
    · have := ih' h; omega

theorem freePtrs_length_le (L : List Block) (a : Nat) : (freePtrs a L).length ≤ L.length := by
  induction L generalizing a with
  | nil => simp [freePtrs]
  | cons b L ih =>
    simp only [freePtrs]
    split
    · simp only [List.length_cons]; have := ih (a + 8 + b.1); omega
    · simp only [List.length_cons]; have := ih (a + 8 + b.1); omega

theorem isHdr_bounds (L : List Block) (a x : Nat) (h : isHdr a L x) :
    a ≤ x ∧ x < a + total L := by
  induction L generalizing a with
  | nil => exact absurd h (by simp [isHdr])
  | cons b L ih =>
    simp only [isHdr] at h
    simp only [total]
    rcases h with h | h
    · omega
    · have := ih _ h; omega

theorem isHdr_append (L1 L2 : List Block) (a x : Nat) :
    isHdr a (L1 ++ L2) x ↔ isHdr a L1 x ∨ isHdr (a + total L1) L2 x := by
  induction L1 generalizing a with
  | nil => simp [isHdr, total]
  | cons b L ih =>
    have e : a + (8 + b.1 + total L) = a + 8 + b.1 + total L := by omega
    show ((a ≤ x ∧ x < a + 8) ∨ isHdr (a + 8 + b.1) (L ++ L2) x) ↔
      ((a ≤ x ∧ x < a + 8) ∨ isHdr (a + 8 + b.1) L x) ∨ isHdr (a + (8 + b.1 + total L)) L2 x
    rw [ih, e, or_assoc]

/-- A memory that agrees with `m` on the header bytes holds the same headers. -/
theorem Tiles_frame (m m' : Nat → Nat) (L : List Block) (a : Nat)
    (h : ∀ x, isHdr a L x → m' x = m x) (ht : Tiles m a L) : Tiles m' a L := by
  induction L generalizing a with
  | nil => trivial
  | cons b L ih =>
    simp only [Tiles] at *
    refine ⟨?_, ih _ (fun x hx => h x (Or.inr hx)) ht.2⟩
    rw [load64_congr m m' a (fun x h1 h2 => h x (Or.inl ⟨h1, h2⟩))]
    exact ht.1

/-- The payload of a block holds no header byte. -/
theorem payload_clear (L1 L2 : List Block) (b : Block) (a x : Nat)
    (h : isHdr a (L1 ++ b :: L2) x) :
    x < a + total L1 + 8 ∨ a + total L1 + 8 + b.1 ≤ x := by
  rw [isHdr_append] at h
  rcases h with h | h
  · have := isHdr_bounds _ _ _ h; omega
  · simp only [isHdr] at h
    rcases h with h | h
    · omega
    · have := isHdr_bounds _ _ _ h; omega

theorem mem_freePtrs (L : List Block) (a p : Nat) (h : p ∈ freePtrs a L) :
    ∃ L1 sz L2, L = L1 ++ (sz, true) :: L2 ∧ p = a + total L1 + 8 := by
  induction L generalizing a with
  | nil => simp [freePtrs] at h
  | cons b L ih =>
    simp only [freePtrs] at h
    by_cases hb : b.2 = true
    · rw [if_pos hb] at h
      rcases List.mem_cons.1 h with h | h
      · refine ⟨[], b.1, L, ?_, by simp [total, h]⟩
        simp [← hb]
      · obtain ⟨L1, sz, L2, e, hp⟩ := ih _ h
        exact ⟨b :: L1, sz, L2, by simp [e], by simp only [total]; omega⟩
    · rw [if_neg hb] at h
      obtain ⟨L1, sz, L2, e, hp⟩ := ih _ h
      exact ⟨b :: L1, sz, L2, by simp [e], by simp only [total]; omega⟩

/-- The two fields of a free-list node hold no header byte. -/
theorem node_clear (L : List Block) (h16 : ∀ b ∈ L, 16 ≤ b.1) (a y x : Nat)
    (hy : y ∈ freePtrs a L) (hx : isHdr a L x) : x < y ∨ y + 16 ≤ x := by
  obtain ⟨L1, sz, L2, rfl, rfl⟩ := mem_freePtrs L a y hy
  have := payload_clear L1 L2 (sz, true) a x hx
  have := h16 (sz, true) (List.mem_append_right _ (List.mem_cons_self _ _))
  simp only at *
  omega

theorem Links_congr (m m' : Nat → Nat) :
    ∀ (F : List Nat) (p q : Nat),
      (∀ x ∈ F, load64 m' x = load64 m x ∧ load64 m' (x + 8) = load64 m (x + 8)) →
      Links m p F q → Links m' p F q := by
  intro F
  induction F with
  | nil => intro p q _ _; trivial
  | cons x F ih =>
    intro p q h hl
    obtain ⟨h1, h2⟩ := h x (List.mem_cons_self _ _)
    exact ⟨by rw [h1]; exact hl.1, by rw [h2]; exact hl.2.1,
      ih x q (fun y hy => h y (List.mem_cons_of_mem _ hy)) hl.2.2⟩

theorem Links_append (m : Nat → Nat) :
    ∀ (F1 F2 : List Nat) (p q : Nat),
      Links m p (F1 ++ F2) q ↔ Links m p F1 (hdOr F2 q) ∧ Links m (lastOr F1 p) F2 q := by
  intro F1
  induction F1 with
  | nil => intro F2 p q; simp [Links, lastOr]
  | cons x F ih =>
    intro F2 p q
    have e : hdOr (F ++ F2) q = hdOr F (hdOr F2 q) := by
      cases F <;> simp [hdOr]
    show (load64 m x = p ∧ load64 m (x + 8) = hdOr (F ++ F2) q ∧ Links m x (F ++ F2) q) ↔
      (load64 m x = p ∧ load64 m (x + 8) = hdOr F (hdOr F2 q) ∧ Links m x F (hdOr F2 q)) ∧
        Links m (lastOr F x) F2 q
    rw [ih, e]
    tauto

namespace Explicit

/-- `find_free_block` on a tiled heap returns the header of the first free block, or null
when every block is allocated. -/
theorem find_free_block_tiles {base size : Nat} {s : Heap} (g : Geom base size s) :
    ∀ (L : List Block) (a fuel : Nat), L ≠ [] → WFBlocks L → Tiles s.mem a L → base ≤ a →
      a + total L = base + size →
      find_free_block (fuel + L.length + 1) s a = .ok (hdOr (freePtrs a L) 8 - 8) := by
  intro L
  induction L with
  | nil => intro a fuel h; exact absurd rfl h
  | cons b L ih =>
    intro a fuel _ hwf ht h1 h2
    have hb8 : b.1 % 8 = 0 := hwf b (List.mem_cons_self _ _)
    have hpos := g.hpos
    obtain ⟨_, r2, r3⟩ := head_reads g b L a ht hb8 h1 (by omega)
    have ha : a ≠ 0 := by omega
    have e0 : fuel + (b :: L).length + 1 = (fuel + L.length + 1) + 1 := by simp; omega
    rw [e0]
    unfold find_free_block
    simp only [NULL, ha, if_false, r2, r3, bind, Except.bind]
    cases hb2 : b.2 with
    | true =>
      simp [freePtrs, hb2, hdOr, pure, Except.pure]
    | false =>
      simp only [Bool.not_false, if_true, freePtrs, hb2, Bool.false_eq_true, if_false]
      simp only [total] at h2
      by_cases hL : L = []
      · subst hL
        simp only [total] at h2
        have : ¬ (a + 8 + b.1 < base + size) := by omega
        simp only [this, if_false, freePtrs, hdOr]
        exact find_free_block_null _ s
      · have hlt : a + 8 + b.1 < base + size := by
          cases L with
          | nil => exact absurd rfl hL
          | cons c L' => simp only [total] at h2; omega
        simp only [hlt, if_true]
        exact ih (a + 8 + b.1) fuel hL (fun c hc => hwf c (List.mem_cons_of_mem _ hc)) ht.2
          (by omega) (by omega)

/-- `count_nodes` along a linked list of nodes counts them (modulo `2^32`). -/
theorem count_nodes_links {base size : Nat} {s : Heap} (g : Geom base size s) :
    ∀ (F : List Nat) (p c fuel : Nat), Links s.mem p F 0 →
      (∀ x ∈ F, base ≤ x ∧ x + 16 ≤ base + size) → c < 2 ^ 32 →
      count_nodes (fuel + F.length + 1) s (hdOr F 0) c = .ok ((c + F.length) % 2 ^ 32) := by
  intro F
  induction F with
  | nil =>
    intro p c fuel _ _ hc
    have e : (c + ([] : List Nat).length) % 2 ^ 32 = c := by
      simp only [List.length_nil, Nat.add_zero]
      exact Nat.mod_eq_of_lt hc
    rw [e]
    simp [count_nodes, hdOr, NULL, pure, Except.pure]
  | cons x F ih =>
    intro p c fuel hl hin hc
    obtain ⟨hx1, hx2⟩ := hin x (List.mem_cons_self _ _)
    have hpos := g.hpos
    have hbd := g.hbound
    have hx : x ≠ 0 := by omega
    have e0 : fuel + (x :: F).length + 1 = (fuel + F.length + 1) + 1 := by simp; omega
    have e1 : next_field x = x + 8 := by
      unfold next_field NODE_POINTER_SIZE
      exact add64_eq _ _ (by omega)
    have hh : hdOr (x :: F) 0 = x := rfl
    rw [e0, hh]
    unfold count_nodes
    simp only [NULL, hx, if_false, e1, readWord_ok s (x + 8) (g.inSeg _ (by omega)
      (by omega)), hl.2.1, bind, Except.bind]
    rw [ih x _ fuel hl.2.2 (fun y hy => hin y (List.mem_cons_of_mem _ hy))
      (Nat.mod_lt _ (by decide))]
    simp only [List.length_cons, Nat.mod_add_mod]
    congr 2
    omega

/-- `last_node` along a linked list of nodes returns the last one. -/
theorem last_node_links {base size : Nat} {s : Heap} (g : Geom base size s) :
    ∀ (F : List Nat) (p x fuel : Nat), Links s.mem p (x :: F) 0 →
      (∀ y ∈ x :: F, base ≤ y ∧ y + 16 ≤ base + size) →
      last_node (fuel + F.length + 1) s x = .ok (lastOr F x) := by
  intro F
  induction F with
  | nil =>
    intro p x fuel hl hin
    obtain ⟨hx1, hx2⟩ := hin x (List.mem_cons_self _ _)
    have hbd := g.hbound
    have e1 : next_field x = x + 8 := by
      unfold next_field NODE_POINTER_SIZE
      exact add64_eq _ _ (by omega)
    have h2 : load64 s.mem (x + 8) = 0 := hl.2.1
    simp [last_node, e1, readWord_ok s (x + 8) (g.inSeg _ (by omega) (by omega)), h2, bind,
      Except.bind, NULL, lastOr, pure, Except.pure]
  | cons y F ih =>
    intro p x fuel hl hin
    obtain ⟨hx1, hx2⟩ := hin x (List.mem_cons_self _ _)
    obtain ⟨hy1, hy2⟩ := hin y (List.mem_cons_of_mem _ (List.mem_cons_self _ _))
    have hbd := g.hbound
    have hpos := g.hpos
    have e1 : next_field x = x + 8 := by
      unfold next_field NODE_POINTER_SIZE
      exact add64_eq _ _ (by omega)
    have h2 : load64 s.mem (x + 8) = y := hl.2.1
    have hy : y ≠ 0 := by omega
    have e0 : fuel + (y :: F).length + 1 = (fuel + F.length + 1) + 1 := by simp; omega
    rw [e0]
    unfold last_node
    simp only [e1, readWord_ok s (x + 8) (g.inSeg _ (by omega) (by omega)), h2, bind,
      Except.bind, NULL, ne_eq, hy, not_false_eq_true, if_true, lastOr]
    exact ih x y fuel hl.2.2 (fun z hz => hin z (List.mem_cons_of_mem _ hz))

/-- `count_free_blocks` from the base of a valid explicit heap: the number of free
blocks, as long as the 32-bit counter does not overflow. -/
theorem count_free_blocks_tiles {base size : Nat} {s : Heap} (g : Geom base size s)
    (L : List Block) (fuel : Nat) (hne : L ≠ []) (hwf : WFBlocks L)
    (h16 : ∀ b ∈ L, 16 ≤ b.1) (ht : Tiles s.mem base L) (htot : total L = size)
    (hl : Links s.mem 0 (freePtrs base L) 0) (hcnt : (freePtrs base L).length < 2 ^ 31)
    (hfuel : L.length + 1 ≤ fuel) :
    count_free_blocks fuel s base = .ok (freePtrs base L).length := by
  have hbd := g.hbound
  have hpos := g.hpos
  have hlen := freePtrs_length_le L base
  have hfind : find_free_block fuel s base = .ok (hdOr (freePtrs base L) 8 - 8) := by
    obtain ⟨f, rfl⟩ : ∃ f, fuel = f + L.length + 1 := ⟨fuel - L.length - 1, by omega⟩
    exact find_free_block_tiles g L base f hne hwf ht (le_refl _) (by rw [htot])
  have hin : ∀ x ∈ freePtrs base L, base ≤ x ∧ x + 16 ≤ base + size := by
    intro x hx
    have := freePtrs_bounds L h16 base x hx
    omega
  unfold count_free_blocks
  rw [hfind]
  cases hF : freePtrs base L with
  | nil => simp [hdOr, bind, Except.bind, NULL, pure, Except.pure]
  | cons x F =>
    rw [hF] at hl hin hcnt hlen
    obtain ⟨hx1, hx2⟩ := hin x (List.mem_cons_self _ _)
    have hx : x - 8 ≠ 0 := by
      have := freePtrs_bounds L h16 base x (by rw [hF]; exact List.mem_cons_self _ _)
      omega
    have e1 : header2payload (x - 8) = x := by
      unfold header2payload HEADER_SIZE
      rw [add64_eq _ _ (by omega)]
      have := freePtrs_bounds L h16 base x (by rw [hF]; exact List.mem_cons_self _ _)
      omega
    have hc := count_nodes_links g (x :: F) 0 0 (fuel - (x :: F).length - 1) hl hin
      (by decide)
    have e2 : fuel - (x :: F).length - 1 + (x :: F).length + 1 = fuel := by
      simp only [List.length_cons] at hlen ⊢
      omega
    rw [e2] at hc
    simp only [hdOr] at hc
    simp only [hdOr, bind, Except.bind, NULL, hx, if_false, e1, hc, pure, Except.pure,
      Nat.zero_add]
    have e3 : (x :: F).length % 2 ^ 32 = (x :: F).length := Nat.mod_eq_of_lt (by omega)
    rw [e3, if_pos hcnt]

end Explicit

theorem lastOr_mem : ∀ (F : List Nat) (x : Nat), lastOr F x = x ∨ lastOr F x ∈ F := by
  intro F
  induction F with
  | nil => intro x; left; rfl
  | cons y F ih =>
    intro x
    right
    rcases ih y with h | h
    · simp only [lastOr]; rw [h]; exact List.mem_cons_self _ _
    · simp only [lastOr]; exact List.mem_cons_of_mem _ h

theorem store64_outside (m : Nat → Nat) (a v x : Nat) (h : x < a ∨ a + 8 ≤ x) :
    store64 m a v x = m x := by
  unfold store64
  have : ¬ (a ≤ x ∧ x < a + 8) := by omega
  simp [this]

namespace Explicit

/-- `add_free_block(p)` for the payload `p` of an allocated block of a valid explicit heap:
the call returns, and it stores only into the two fields of `p` and of nodes of the free
list, so that no header byte changes. -/
theorem add_free_block_frame (base size nu fuel : Nat) (m : Nat → Nat) (L1 L3 : List Block)
    (B : Nat) (hpos : 0 < base) (hbound : base + size < WORD)
    (hwf : WFBlocks (L1 ++ (B, false) :: L3)) (h16 : ∀ b ∈ L1 ++ (B, false) :: L3, 16 ≤ b.1)
    (ht : Tiles m base (L1 ++ (B, false) :: L3))
    (htot : total (L1 ++ (B, false) :: L3) = size)
    (hl : Links m 0 (freePtrs base (L1 ++ (B, false) :: L3)) 0)
    (hcnt : (freePtrs base (L1 ++ (B, false) :: L3)).length < 2 ^ 31)
    (hfuel : (L1 ++ (B, false) :: L3).length + 1 ≤ fuel) :
    ∃ m', add_free_block fuel ⟨base, size, base + size, nu, m⟩ (base + total L1 + 8)
        = .ok ⟨base, size, base + size, nu, m'⟩ ∧
      ∀ x, isHdr base (L1 ++ (B, false) :: L3) x → m' x = m x := by
  have hW : WORD = 18446744073709551616 := by decide
  have g : Geom base size ⟨base, size, base + size, nu, m⟩ := ⟨rfl, rfl, rfl, hpos, hbound⟩
  have hB16 : 16 ≤ B := h16 (B, false) (List.mem_append_right _ (List.mem_cons_self _ _))
  have htot' := htot
  rw [total_append] at htot'
  simp only [total] at htot'
  have hcount := count_free_blocks_tiles g _ fuel (by simp) hwf h16 ht htot hl hcnt hfuel
  have hclr : ∀ x, isHdr base (L1 ++ (B, false) :: L3) x →
      x < base + total L1 + 8 ∨ base + total L1 + 8 + 16 ≤ x := by
    intro x hx
    have := payload_clear L1 L3 (B, false) base x hx
    simp only at this
    omega
  have hnode : ∀ y ∈ freePtrs base (L1 ++ (B, false) :: L3),
      (base + 8 ≤ y ∧ y + 16 ≤ base + size) ∧
      ∀ x, isHdr base (L1 ++ (B, false) :: L3) x → x < y ∨ y + 16 ≤ x := by
    intro y hy
    have := freePtrs_bounds _ h16 base y hy
    exact ⟨by omega, fun x hx => node_clear _ h16 base y x hy hx⟩
  have hF : freePtrs base (L1 ++ (B, false) :: L3)
      = freePtrs base L1 ++ freePtrs (base + total L1 + 8 + B) L3 := by
    rw [freePtrs_append]
    simp [freePtrs]
  have hfind2 : find_free_block fuel ⟨base, size, base + size, nu, m⟩ (base + total L1)
      = .ok (hdOr (freePtrs (base + total L1 + 8 + B) L3) 8 - 8) := by
    have ht2 := ((Tiles_append m L1 _ base).1 ht).2
    have hlen : ((B, false) :: L3).length + 1 ≤ fuel := by
      simp only [List.length_append, List.length_cons] at hfuel ⊢
      omega
    obtain ⟨f, hf⟩ : ∃ f, fuel = f + ((B, false) :: L3).length + 1 :=
      ⟨fuel - ((B, false) :: L3).length - 1, by omega⟩
    rw [hf]
    have := find_free_block_tiles g ((B, false) :: L3) (base + total L1) f (by simp)
      (fun c hc => hwf c (List.mem_append_right _ hc)) ht2 (by omega)
      (by simp only [total]; omega)
    simpa [freePtrs] using this
  have hfind1 : find_free_block fuel ⟨base, size, base + size, nu, m⟩ base
      = .ok (hdOr (freePtrs base (L1 ++ (B, false) :: L3)) 8 - 8) := by
    obtain ⟨f, hf⟩ : ∃ f, fuel = f + (L1 ++ (B, false) :: L3).length + 1 :=
      ⟨fuel - (L1 ++ (B, false) :: L3).length - 1, by omega⟩
    rw [hf]
    exact find_free_block_tiles g _ base f (by simp) hwf ht (le_refl _) (by rw [htot])
  have ep : payload2header (base + total L1 + 8) = base + total L1 := by
    unfold payload2header HEADER_SIZE
    rw [sub64_eq _ _ (by omega) (by omega)]
    omega
  have hlenF := freePtrs_length_le (L1 ++ (B, false) :: L3) base
  have hsep1 : ∀ y ∈ freePtrs base L1, y + 24 ≤ base + total L1 + 8 := by
    intro y hy
    have := freePtrs_bounds L1 (fun c hc => h16 c (List.mem_append_left _ hc)) base y hy
    omega
  have hsep3 : ∀ y ∈ freePtrs (base + total L1 + 8 + B) L3,
      base + total L1 + 8 + B + 8 ≤ y := by
    intro y hy
    have := freePtrs_bounds L3
      (fun c hc => h16 c (List.mem_append_right _ (List.mem_cons_of_mem _ hc))) _ y hy
    omega
  unfold add_free_block
  simp only [hcount, bind, Except.bind, ep, hfind2, hfind1]
  rw [hF] at hl hnode hcnt hlenF ⊢
  generalize freePtrs base L1 = F1 at hl hnode hcnt hlenF hsep1 ⊢
  generalize freePtrs (base + total L1 + 8 + B) L3 = F3 at hl hnode hcnt hlenF hsep3 ⊢
  have hp16 : base + total L1 + 8 + 8 = base + total L1 + 16 := by omega
  cases F3 with
  | nil =>
    simp only [List.append_nil] at hl hnode hcnt hlenF ⊢
    cases F1 with
    | nil =>
      refine ⟨store64 (store64 m (base + total L1 + 8) 0) (base + total L1 + 8 + 8) 0, ?_, ?_⟩
      · simp (disch := omega) only [List.length_nil, if_true, NULL,
          writeWord_mk, next_field, NODE_POINTER_SIZE, add64_eq]
      · intro x hx
        have := hclr x hx
        rw [store64_outside _ _ _ _ (by omega), store64_outside _ _ _ _ (by omega)]
    | cons x1 F1' =>
      have hn0 : ¬ ((x1 :: F1').length = 0) := by simp
      obtain ⟨f, hf⟩ : ∃ f, fuel = f + F1'.length + 1 := by
        refine ⟨fuel - F1'.length - 1, ?_⟩
        simp only [List.length_cons] at hlenF
        omega
      have hx1 := (hnode x1 (List.mem_cons_self _ _)).1
      have hlast := last_node_links g F1' 0 x1 f hl (fun y hy => by
        have := (hnode y hy).1
        omega)
      rw [← hf] at hlast
      have hmem : lastOr F1' x1 ∈ x1 :: F1' := by
        rcases lastOr_mem F1' x1 with h | h
        · rw [h]; exact List.mem_cons_self _ _
        · exact List.mem_cons_of_mem _ h
      generalize lastOr F1' x1 = lst at hlast hmem
      obtain ⟨hb1, hc1⟩ := hnode lst hmem
      have e1 : header2payload (x1 - 8) = x1 := by
        unfold header2payload HEADER_SIZE
        rw [add64_eq _ _ (by omega)]
        omega
      refine ⟨store64 (store64 (store64 m (base + total L1 + 8) lst)
        (base + total L1 + 8 + 8) 0) (lst + 8) (base + total L1 + 8), ?_, ?_⟩
      · simp (disch := omega) only [hn0, if_false, hdOr, Nat.sub_self, NULL, if_true, e1, hlast,
          writeWord_mk, next_field, NODE_POINTER_SIZE, add64_eq]
      · intro x hx
        have := hclr x hx
        have := hc1 x hx
        rw [store64_outside _ _ _ _ (by omega), store64_outside _ _ _ _ (by omega),
          store64_outside _ _ _ _ (by omega)]
  | cons y F3' =>
    have hn0 : ¬ ((F1 ++ y :: F3').length = 0) := by simp
    obtain ⟨hby, hcy⟩ := hnode y (List.mem_append_right _ (List.mem_cons_self _ _))
    have hy3 := hsep3 y (List.mem_cons_self _ _)
    have hy0 : ¬ (y - 8 = 0) := by omega
    have e1 : header2payload (y - 8) = y := by
      unfold header2payload HEADER_SIZE
      rw [add64_eq _ _ (by omega)]
      omega
    have hprev : load64 m y = lastOr F1 0 := ((Links_append m F1 (y :: F3') 0 0).1 hl).2.1
    have hmem : lastOr F1 0 = 0 ∨ lastOr F1 0 ∈ F1 := lastOr_mem F1 0
    generalize lastOr F1 0 = pv at hprev hmem
    by_cases hpv : pv = 0
    · subst hpv
      refine ⟨store64 (store64 (store64 m (base + total L1 + 8) 0)
        (base + total L1 + 8 + 8) y) y (base + total L1 + 8), ?_, ?_⟩
      · simp (disch := omega) only [hn0, if_false, hdOr, hy0, NULL, e1, readWord_mk, hprev,
          if_true, writeWord_mk, next_field, NODE_POINTER_SIZE, add64_eq]
      · intro x hx
        have := hclr x hx
        have := hcy x hx
        rw [store64_outside _ _ _ _ (by omega), store64_outside _ _ _ _ (by omega),
          store64_outside _ _ _ _ (by omega)]
    · have hpm : pv ∈ F1 := by
        rcases hmem with h | h
        · exact absurd h hpv
        · exact h
      obtain ⟨hb1, hc1⟩ := hnode pv (List.mem_append_left _ hpm)
      have hp1 := hsep1 pv hpm
      refine ⟨store64 (store64 (store64 (store64 m (base + total L1 + 8) pv)
        (base + total L1 + 8 + 8) y) (pv + 8) (base + total L1 + 8)) y
        (base + total L1 + 8), ?_, ?_⟩
      · simp (disch := omega) only [hn0, if_false, hdOr, hy0, NULL, e1, readWord_mk, hprev,
          hpv, writeWord_mk, next_field, NODE_POINTER_SIZE, add64_eq, load64_store64_disj]
      · intro x hx
        have := hclr x hx
        have := hcy x hx
        have := hc1 x hx
        rw [store64_outside _ _ _ _ (by omega), store64_outside _ _ _ _ (by omega),
          store64_outside _ _ _ _ (by omega), store64_outside _ _ _ _ (by omega)]

end Explicit

theorem freePtrs_pairwise (L : List Block) (h16 : ∀ b ∈ L, 16 ≤ b.1) (a : Nat) :
    List.Pairwise (fun x y => x + 24 ≤ y) (freePtrs a L) := by
  induction L generalizing a with
  | nil => simp [freePtrs]
  | cons b L ih =>
    have hb := h16 b (List.mem_cons_self _ _)
    have h16' : ∀ c ∈ L, 16 ≤ c.1 := fun c hc => h16 c (List.mem_cons_of_mem _ hc)
    simp only [freePtrs]
    split
    · refine List.Pairwise.cons ?_ (ih h16' _)
      intro y hy
      have := freePtrs_bounds L h16' _ y hy
      omega
    · exact ih h16' _

/-- Changing the `next` field of the last node changes the end of the chain. -/
theorem Links_set_next (m m' : Nat → Nat) (G : List Nat) (a p q q' : Nat)
    (hl : Links m p (G ++ [a]) q)
    (hG : ∀ x ∈ G, load64 m' x = load64 m x ∧ load64 m' (x + 8) = load64 m (x + 8))
    (ha : load64 m' a = load64 m a) (hq : load64 m' (a + 8) = q') :
    Links m' p (G ++ [a]) q' := by
  rw [Links_append] at hl ⊢
  refine ⟨Links_congr m m' G p _ hG hl.1, ?_⟩
  have h2 := hl.2
  simp only [Links, hdOr] at h2 ⊢
  exact ⟨by rw [ha]; exact h2.1, hq, trivial⟩

/-- Changing the `prev` field of the first node changes the start of the chain. -/
theorem Links_set_prev (m m' : Nat → Nat) (H : List Nat) (b p p' q : Nat)
    (hl : Links m p (b :: H) q)
    (hH : ∀ x ∈ H, load64 m' x = load64 m x ∧ load64 m' (x + 8) = load64 m (x + 8))
    (hb : load64 m' (b + 8) = load64 m (b + 8)) (hp : load64 m' b = p') :
    Links m' p' (b :: H) q :=
  ⟨hp, by rw [hb]; exact hl.2.1, Links_congr m m' H b q hH hl.2.2⟩

theorem lastOr_append_singleton (G : List Nat) (a p : Nat) : lastOr (G ++ [a]) p = a := by
  induction G generalizing p with
  | nil => rfl
  | cons x G ih => exact ih x

namespace Explicit

/-- `detach_free_block(N)` for a node whose fields hold `a` and `b`: the call stores `b` in
the `next` field of `a` and `a` in the `prev` field of `b` (when they are not null) and
nothing else. -/
theorem detach_spec (base size nu : Nat) (m : Nat → Nat) (N a b : Nat)
    (hbound : base + size < WORD) (hN1 : base ≤ N) (hN2 : N + 16 ≤ base + size)
    (hp : load64 m N = a) (hn : load64 m (N + 8) = b)
    (ha : a ≠ 0 → base ≤ a + 8 ∧ a + 16 ≤ base + size)
    (hb : b ≠ 0 → base ≤ b ∧ b + 8 ≤ base + size)
    (hab : a ≠ 0 → b ≠ 0 → a + 16 ≤ b ∨ b + 8 ≤ a + 8) :
    ∃ m2, detach_free_block ⟨base, size, base + size, nu, m⟩ N
        = .ok ⟨base, size, base + size, nu, m2⟩ ∧
      (∀ x, (a = 0 ∨ x < a + 8 ∨ a + 16 ≤ x) → (b = 0 ∨ x < b ∨ b + 8 ≤ x) → m2 x = m x) ∧
      (a ≠ 0 → load64 m2 (a + 8) = b) ∧ (b ≠ 0 → load64 m2 b = a) := by
  have hW : WORD = 18446744073709551616 := by decide
  have ha' : a < WORD := by rw [← hp]; exact load64_lt _ _
  have hb' : b < WORD := by rw [← hn]; exact load64_lt _ _
  have e16 : N + 8 + 8 = N + 16 := by omega
  unfold detach_free_block
  simp (disch := omega) only [next_field, NODE_POINTER_SIZE, add64_eq, readWord_mk, hp, hn,
    bind, Except.bind, NULL]
  by_cases h1 : a = 0
  · by_cases h2 : b = 0
    · refine ⟨m, ?_, fun _ _ _ => rfl, fun h => absurd h1 h, fun h => absurd h2 h⟩
      simp [h1, h2, pure, Except.pure]
    · obtain ⟨hb1, hb2⟩ := hb h2
      refine ⟨store64 m b a, ?_, ?_, fun h => absurd h1 h, ?_⟩
      · simp (disch := omega) only [h1, h2, ne_eq, not_true_eq_false, not_false_eq_true,
          if_false, if_true, pure, Except.pure, writeWord_mk]
      · intro x _ hx
        exact store64_outside _ _ _ _ (by omega)
      · intro _
        rw [load64_store64_same, Nat.mod_eq_of_lt ha']
  · obtain ⟨ha1, ha2⟩ := ha h1
    by_cases h2 : b = 0
    · refine ⟨store64 m (a + 8) b, ?_, ?_, ?_, fun h => absurd h2 h⟩
      · simp (disch := omega) only [h1, h2, ne_eq, not_true_eq_false, not_false_eq_true,
          if_false, if_true, pure, Except.pure, writeWord_mk]
      · intro x hx _
        exact store64_outside _ _ _ _ (by omega)
      · intro _
        rw [load64_store64_same, Nat.mod_eq_of_lt hb']
    · obtain ⟨hb1, hb2⟩ := hb h2
      have := hab h1 h2
      refine ⟨store64 (store64 m (a + 8) b) b a, ?_, ?_, ?_, ?_⟩
      · simp (disch := omega) only [h1, h2, ne_eq, not_true_eq_false, not_false_eq_true,
          if_false, if_true, pure, Except.pure, writeWord_mk]
      · intro x hx hx2
        rw [store64_outside _ _ _ _ (by omega), store64_outside _ _ _ _ (by omega)]
      · intro _
        rw [load64_store64_disj _ _ _ _ (by omega), load64_store64_same,
          Nat.mod_eq_of_lt hb']
      · intro _
        rw [load64_store64_same, Nat.mod_eq_of_lt ha']

end Explicit

theorem hdOr_mem (F : List Nat) : hdOr F 0 = 0 ∨ hdOr F 0 ∈ F := by
  cases F with
  | nil => left; rfl
  | cons x F => right; exact List.mem_cons_self _ _

namespace Explicit

/-- Forward coalescing in explicit.c, on a state written out field by field. -/
theorem myfree_coalesce_mk (base size nu fuel : Nat) (m : Nat → Nat) (L1 L3 : List Block)
    (sz t : Nat) (hpos : 0 < base) (hbound : base + size < WORD)
    (hwf : WFBlocks (L1 ++ (sz, false) :: (t, true) :: L3))
    (h16 : ∀ b ∈ L1 ++ (sz, false) :: (t, true) :: L3, 16 ≤ b.1)
    (ht : Tiles m base (L1 ++ (sz, false) :: (t, true) :: L3))
    (htot : total (L1 ++ (sz, false) :: (t, true) :: L3) = size)
    (hl : Links m 0 (freePtrs base (L1 ++ (sz, false) :: (t, true) :: L3)) 0)
    (hcnt : (freePtrs base (L1 ++ (sz, false) :: (t, true) :: L3)).length < 2 ^ 31)
    (hnu : 8 + sz ≤ nu) (hnu2 : nu < WORD)
    (hfuel : (L1 ++ (sz, false) :: (t, true) :: L3).length + 1 ≤ fuel) :
    ∃ m', myfree fuel ⟨base, size, base + size, nu, m⟩ (base + total L1 + 8)
        = .ok ⟨base, size, base + size, nu - (8 + sz), m'⟩ ∧
      Tiles m' base (L1 ++ (sz + 8 + t, true) :: L3) := by
  have hW : WORD = 18446744073709551616 := by decide
  have hsz16 : 16 ≤ sz := h16 (sz, false) (List.mem_append_right _ (List.mem_cons_self _ _))
  have ht16 : 16 ≤ t := h16 (t, true)
    (List.mem_append_right _ (List.mem_cons_of_mem _ (List.mem_cons_self _ _)))
  have hsz8 : sz % 8 = 0 := hwf (sz, false) (List.mem_append_right _ (List.mem_cons_self _ _))
  have ht8 : t % 8 = 0 := hwf (t, true)
    (List.mem_append_right _ (List.mem_cons_of_mem _ (List.mem_cons_self _ _)))
  have h16L1 : ∀ b ∈ L1, 16 ≤ b.1 := fun c hc => h16 c (List.mem_append_left _ hc)
  have h16L3 : ∀ b ∈ L3, 16 ≤ b.1 := fun c hc =>
    h16 c (List.mem_append_right _ (List.mem_cons_of_mem _ (List.mem_cons_of_mem _ hc)))
  have htot' := htot
  rw [total_append] at htot'
  simp only [total] at htot'
  -- the headers
  obtain ⟨ht1, ht2⟩ := (Tiles_append m L1 _ base).1 ht
  obtain ⟨hh, hh2, ht3⟩ : load64 m (base + total L1) = sz ∧
      load64 m (base + total L1 + 8 + sz) = t + 1 ∧
      Tiles m (base + total L1 + 8 + sz + 8 + t) L3 := by
    simp only [Tiles, hdrWord, FREE, ALLOCATED] at ht2
    exact ⟨by simpa using ht2.1, by simpa using ht2.2.1, ht2.2.2⟩
  -- the free list
  have hF : freePtrs base (L1 ++ (sz, false) :: (t, true) :: L3)
      = freePtrs base L1 ++ (base + total L1 + 8 + sz + 8) ::
          freePtrs (base + total L1 + 8 + sz + 8 + t) L3 := by
    rw [freePtrs_append]
    simp [freePtrs]
  have hpw := freePtrs_pairwise _ h16 base
  have hsep1 : ∀ y ∈ freePtrs base L1, base + 8 ≤ y ∧ y + 24 ≤ base + total L1 + 8 := by
    intro y hy
    have := freePtrs_bounds L1 h16L1 base y hy
    omega
  have hsep3 : ∀ y ∈ freePtrs (base + total L1 + 8 + sz + 8 + t) L3,
      base + total L1 + 8 + sz + 8 + t + 8 ≤ y ∧ y + 16 ≤ base + size := by
    intro y hy
    have := freePtrs_bounds L3 h16L3 _ y hy
    omega
  have hclr1 : ∀ y ∈ freePtrs base L1, ∀ x, isHdr base L1 x → x < y ∨ y + 16 ≤ x :=
    fun y hy x hx => node_clear L1 h16L1 base y x hy hx
  have hclr3 : ∀ y ∈ freePtrs (base + total L1 + 8 + sz + 8 + t) L3, ∀ x,
      isHdr (base + total L1 + 8 + sz + 8 + t) L3 x → x < y ∨ y + 16 ≤ x :=
    fun y hy x hx => node_clear L3 h16L3 _ y x hy hx
  rw [hF] at hl hcnt hpw
  generalize hF1 : freePtrs base L1 = F1 at hl hcnt hpw hsep1 hclr1 hF
  generalize hF3 : freePtrs (base + total L1 + 8 + sz + 8 + t) L3 = F3
    at hl hcnt hpw hsep3 hclr3 hF
  obtain ⟨hl1, hNp, hNn, hl3⟩ : Links m 0 F1 (base + total L1 + 8 + sz + 8) ∧
      load64 m (base + total L1 + 8 + sz + 8) = lastOr F1 0 ∧
      load64 m (base + total L1 + 8 + sz + 8 + 8) = hdOr F3 0 ∧
      Links m (base + total L1 + 8 + sz + 8) F3 0 := by
    have := (Links_append m F1 _ 0 0).1 hl
    exact ⟨this.1, this.2.1, this.2.2.1, this.2.2.2⟩
  have hamem := lastOr_mem F1 0
  have hbmem := hdOr_mem F3
  generalize ha : lastOr F1 0 = a at hNp hamem
  generalize hb : hdOr F3 0 = b at hNn hbmem
  have haF : a ≠ 0 → base + 8 ≤ a ∧ a + 24 ≤ base + total L1 + 8 := by
    intro h
    rcases hamem with h0 | h0
    · exact absurd h0 h
    · exact hsep1 a h0
  have hbF : b ≠ 0 → base + total L1 + 8 + sz + 8 + t + 8 ≤ b ∧ b + 16 ≤ base + size := by
    intro h
    rcases hbmem with h0 | h0
    · exact absurd h0 h
    · exact hsep3 b h0
  obtain ⟨m2, hdet, hfr2, hma, hmb⟩ := detach_spec base size nu m
    (base + total L1 + 8 + sz + 8) a b hbound (by omega) (by omega) hNp hNn
    (fun h => by have := haF h; omega) (fun h => by have := hbF h; omega)
    (fun h1 h2 => by have := haF h1; have := hbF h2; omega)
  have hld2 : ∀ w, (a = 0 ∨ w + 8 ≤ a + 8 ∨ a + 16 ≤ w) → (b = 0 ∨ w + 8 ≤ b ∨ b + 8 ≤ w) →
      load64 m2 w = load64 m w := by
    intro w h1 h2
    exact load64_congr m m2 w (fun x hx1 hx2 => hfr2 x (by omega) (by omega))
  have hN2p : load64 m2 (base + total L1 + 8 + sz + 8) = a := by
    rw [hld2 _ (by by_cases h : a = 0; · left; exact h
                   · right; have := haF h; omega)
      (by by_cases h : b = 0; · left; exact h
          · right; have := hbF h; omega)]
    exact hNp
  have hN2n : load64 m2 (base + total L1 + 8 + sz + 8 + 8) = b := by
    rw [hld2 _ (by by_cases h : a = 0; · left; exact h
                   · right; have := haF h; omega)
      (by by_cases h : b = 0; · left; exact h
          · right; have := hbF h; omega)]
    exact hNn
  have hh' : load64 m (base + total L1) % 2 = 0 := by rw [hh]; omega
  have hh2' : (t + 1) % 2 = 1 := by omega
  have hp0 : base + total L1 + 8 ≠ 0 := by omega
  have hlt : base + total L1 + 8 + sz < base + size := by omega
  have ez : sz % 2 = 0 := by omega
  have et : t + 1 - 1 = t := by omega
  unfold myfree
  simp (disch := omega) only [hp0, NULL, if_false, if_true, payload2header, header2payload,
    HEADER_SIZE, sub64_eq, add64_eq, Nat.add_sub_cancel, is_free_mk, get_size_mk, next_block_mk,
    hh, hh2, ez, hh2', hlt, et, Nat.sub_zero, bind, Except.bind, pure, Except.pure, ne_eq,
    not_true_eq_false, not_false_eq_true, decide_True, decide_False, Bool.not_false,
    Bool.not_true, Nat.zero_ne_one, Nat.one_ne_zero, next_field, NODE_POINTER_SIZE, hdet,
    readWord_mk, writeWord_mk, hN2n, hN2p, load64_store64_disj, set_header_mk]
  generalize hm5 : setHdrMem (store64 (store64 m2 (base + total L1 + 8) b)
    (base + total L1 + 8 + 8) a) (base + total L1) (sz + 8 + t) ALLOCATED = m5
  -- bytes and words of `m5`
  have hby5 : ∀ x, (x < base + total L1 ∨ base + total L1 + 8 + 16 ≤ x) →
      (a = 0 ∨ x < a + 8 ∨ a + 16 ≤ x) → (b = 0 ∨ x < b ∨ b + 8 ≤ x) → m5 x = m x := by
    intro x h1 h2 h3
    rw [← hm5, setHdrMem_outside _ _ _ _ _ (by omega), store64_outside _ _ _ _ (by omega),
      store64_outside _ _ _ _ (by omega)]
    exact hfr2 x h2 h3
  have hld5 : ∀ w, (w + 8 ≤ base + total L1 ∨ base + total L1 + 8 + 16 ≤ w) →
      load64 m5 w = load64 m2 w := by
    intro w h1
    rw [← hm5, load64_setHdrMem_disj _ _ _ _ _ (by omega),
      load64_store64_disj _ _ _ _ (by omega), load64_store64_disj _ _ _ _ (by omega)]
  have hh5 : load64 m5 (base + total L1) = sz + 8 + t := by
    rw [← hm5]
    exact load64_setHdrMem_alloc _ _ _ (by omega) (by omega)
  -- the headers of `m5`
  have ht5 : Tiles m5 base (L1 ++ (sz + 8 + t, false) :: L3) := by
    rw [Tiles_append]
    refine ⟨Tiles_frame m m5 L1 base (fun x hx => ?_) ht1, ?_, ?_⟩
    · have hxb := isHdr_bounds _ _ _ hx
      refine hby5 x (by omega) ?_ ?_
      · by_cases h : a = 0
        · left; exact h
        · right
          rcases hamem with h0 | h0
          · exact absurd h0 h
          · have := hclr1 a h0 x hx; omega
      · by_cases h : b = 0
        · left; exact h
        · right; have := hbF h; omega
    · show load64 m5 (base + total L1) = hdrWord (sz + 8 + t, false)
      rw [hh5]
      simp [hdrWord, ALLOCATED]
    · have e : base + total L1 + 8 + (sz + 8 + t, false).1 = base + total L1 + 8 + sz + 8 + t := by
        simp only; omega
      rw [e]
      refine Tiles_frame m m5 L3 _ (fun x hx => ?_) ht3
      have hxb := isHdr_bounds _ _ _ hx
      refine hby5 x (by omega) ?_ ?_
      · by_cases h : a = 0
        · left; exact h
        · right; have := haF h; omega
      · by_cases h : b = 0
        · left; exact h
        · right
          rcases hbmem with h0 | h0
          · exact absurd h0 h
          · have := hclr3 b h0 x hx; omega
  -- the free list of `m5`
  have hpw1 := (List.pairwise_append.1 hpw).1
  have hpw3 := (List.pairwise_cons.1 (List.pairwise_append.1 hpw).2.1).2
  have hl5a : Links m5 0 F1 (hdOr F3 0) := by
    rcases List.eq_nil_or_concat F1 with h | ⟨G, a', h⟩
    · rw [h]; trivial
    · rw [List.concat_eq_append] at h
      subst h
      have haa : a' = a := by rw [← ha]; exact (lastOr_append_singleton G a' 0).symm
      subst haa
      have hmem : a' ∈ G ++ [a'] := List.mem_append_right _ (List.mem_cons_self _ _)
      have ha0 : a' ≠ 0 := by have := (hsep1 a' hmem).1; omega
      have hal := haF ha0
      have hG24 : ∀ x ∈ G, x + 24 ≤ a' := fun x hx =>
        (List.pairwise_append.1 hpw1).2.2 x hx a' (List.mem_cons_self _ _)
      have hbb : ∀ w, w + 8 ≤ base + total L1 → (a' = 0 ∨ w + 8 ≤ a' + 8 ∨ a' + 16 ≤ w) →
          load64 m5 w = load64 m w := by
        intro w h1 h2
        rw [hld5 w (Or.inl h1), hld2 w h2 (by
          by_cases h : b = 0
          · left; exact h
          · right; have := hbF h; omega)]
      rw [hb]
      refine Links_set_next m m5 G a' 0 _ b hl1 (fun x hx => ?_) ?_ ?_
      · have := hG24 x hx
        exact ⟨hbb x (by omega) (by omega), hbb (x + 8) (by omega) (by omega)⟩
      · exact hbb a' (by omega) (by omega)
      · rw [hld5 _ (Or.inl (by omega))]
        exact hma ha0
  have hl5b : Links m5 (lastOr F1 0) F3 0 := by
    cases F3 with
    | nil => trivial
    | cons b' H =>
      have hbb : b' = b := by rw [← hb]; rfl
      subst hbb
      have hb0 : b' ≠ 0 := by have := (hsep3 b' (List.mem_cons_self _ _)).1; omega
      have hbl := hbF hb0
      have hH24 : ∀ x ∈ H, b' + 24 ≤ x := fun x hx => (List.pairwise_cons.1 hpw3).1 x hx
      have hcc : ∀ w, base + total L1 + 8 + 16 ≤ w → (b' = 0 ∨ w + 8 ≤ b' ∨ b' + 8 ≤ w) →
          load64 m5 w = load64 m w := by
        intro w h1 h2
        rw [hld5 w (Or.inr h1), hld2 w (by
          by_cases h : a = 0
          · left; exact h
          · right; have := haF h; omega) h2]
      rw [ha]
      refine Links_set_prev m m5 H b' _ a 0 hl3 (fun x hx => ?_) ?_ ?_
      · have := hH24 x hx
        exact ⟨hcc x (by omega) (by omega), hcc (x + 8) (by omega) (by omega)⟩
      · exact hcc (b' + 8) (by omega) (by omega)
      · rw [hld5 _ (Or.inr (by omega))]
        exact hmb hb0
  have hF5 : freePtrs base (L1 ++ (sz + 8 + t, false) :: L3) = F1 ++ F3 := by
    have e : base + total L1 + 8 + (sz + 8 + t) = base + total L1 + 8 + sz + 8 + t := by
      omega
    rw [freePtrs_append]
    simp only [freePtrs, Bool.false_eq_true, if_false]
    rw [e, hF1, hF3]
  have hl5 : Links m5 0 (freePtrs base (L1 ++ (sz + 8 + t, false) :: L3)) 0 := by
    rw [hF5, Links_append]
    exact ⟨hl5a, hl5b⟩
  obtain ⟨m6, hadd, hfr6⟩ := add_free_block_frame base size nu fuel m5 L1 L3 (sz + 8 + t)
    hpos hbound
    (fun c hc => by
      rcases List.mem_append.1 hc with h | h
      · exact hwf c (List.mem_append_left _ h)
      · rcases List.mem_cons.1 h with h | h
        · rw [h]; show (sz + 8 + t) % 8 = 0; omega
        · exact hwf c (List.mem_append_right _
            (List.mem_cons_of_mem _ (List.mem_cons_of_mem _ h))))
    (fun c hc => by
      rcases List.mem_append.1 hc with h | h
      · exact h16L1 c h
      · rcases List.mem_cons.1 h with h | h
        · rw [h]; show 16 ≤ sz + 8 + t; omega
        · exact h16L3 c h)
    ht5
    (by rw [total_append]; simp only [total]; omega)
    hl5
    (by rw [hF5]; simp only [List.length_append, List.length_cons] at hcnt ⊢; omega)
    (by simp only [List.length_append, List.length_cons] at hfuel ⊢; omega)
  rw [hadd]
  refine ⟨setHdrMem m6 (base + total L1) (sz + 8 + t) FREE, ?_, ?_⟩
  · simp (disch := omega) only [set_header_mk, sub64_eq]
  · rw [Tiles_append] at ht5 ⊢
    refine ⟨Tiles_frame m5 _ L1 base (fun x hx => ?_) ht5.1, ?_, ?_⟩
    · have hxb := isHdr_bounds _ _ _ hx
      rw [setHdrMem_outside _ _ _ _ _ (by omega)]
      exact hfr6 x ((isHdr_append _ _ _ _).2 (Or.inl hx))
    · show load64 (setHdrMem m6 (base + total L1) (sz + 8 + t) FREE) (base + total L1)
        = hdrWord (sz + 8 + t, true)
      rw [load64_setHdrMem_free _ _ _ (by omega) (by omega)]
      simp [hdrWord, FREE]
    · refine Tiles_frame m5 _ L3 _ (fun x hx => ?_) ht5.2.2
      have hxb := isHdr_bounds _ _ _ hx
      simp only at hxb
      rw [setHdrMem_outside _ _ _ _ _ (by omega)]
      exact hfr6 x ((isHdr_append _ _ _ _).2 (Or.inr (Or.inr hx)))

end Explicit

theorem Explicit.free_coalesce {base size : Nat} (s : Heap) (L1 : List Block) (sz t : Nat)
    (L3 : List Block) (fuel : Nat)
    (hinv : ExplInv base size s (L1 ++ (sz, false) :: (t, true) :: L3))
    (hfuel : (L1 ++ (sz, false) :: (t, true) :: L3).length + 1 ≤ fuel) :
    ∃ s', Explicit.myfree fuel s (base + total L1 + 8) = .ok s' ∧
      HeapInv base size s' (L1 ++ (sz + 8 + t, true) :: L3) ∧
      s'.nused + (8 + sz) = s.nused := by
  obtain ⟨hi, h16, hl, hcnt⟩ := hinv
  obtain ⟨g, _, hwf, ht, htot, hused⟩ := hi
  obtain ⟨hstart, hsize, hend, hpos, hbound⟩ := g
  obtain ⟨st, ss, se, nu, m⟩ := s
  simp only at hstart hsize hend hused ht hl
  subst hstart hsize hend
  have hle := usedOf_le_total (L1 ++ (sz, false) :: (t, true) :: L3)
  have hu2 := hused
  rw [usedOf_append] at hu2
  simp only [usedOf, Bool.false_eq_true, if_false, if_true] at hu2
  have htot' := htot
  rw [total_append] at htot'
  simp only [total] at htot'
  obtain ⟨m', hm, ht'⟩ := Explicit.myfree_coalesce_mk st ss nu fuel m L1 L3 sz t hpos hbound
    hwf h16 ht htot hl hcnt (by omega) (by omega) hfuel
  refine ⟨_, hm, ⟨⟨rfl, rfl, rfl, hpos, hbound⟩, by simp, ?_, ht', ?_, ?_⟩, ?_⟩
  · intro c hc
    rcases List.mem_append.1 hc with h | h
    · exact hwf c (List.mem_append_left _ h)
    · rcases List.mem_cons.1 h with h | h
      · have h1 := hwf (sz, false) (List.mem_append_right _ (List.mem_cons_self _ _))
        have h2 := hwf (t, true)
          (List.mem_append_right _ (List.mem_cons_of_mem _ (List.mem_cons_self _ _)))
        rw [h]
        show (sz + 8 + t) % 8 = 0
        simp only at h1 h2
        omega
      · exact hwf c (List.mem_append_right _
          (List.mem_cons_of_mem _ (List.mem_cons_of_mem _ h)))
  · rw [total_append]
    simp only [total]
    omega
  · show nu - (8 + sz) = usedOf (L1 ++ (sz + 8 + t, true) :: L3)
    rw [usedOf_append]
    simp only [usedOf, if_true]
    omega
  · show nu - (8 + sz) + (8 + sz) = nu
    omega

/-- C19. Forward coalesce, both files.  In a valid state whose blocks are
`L1 ++ [sz allocated] ++ [t free] ++ L3`, `myfree` of the payload of the allocated block
returns; afterwards the blocks are `L1 ++ [sz + 8 + t free] ++ L3` (one free block at the
same header, the blocks before and after as they were), `nused` is smaller by exactly
`8 + sz`, and `validate_heap` returns true. -/
theorem C19_forward_coalesce (base size fuel : Nat) (s : Heap) (L1 L3 : List Block)
    (sz t : Nat) :
    (HeapInv base size s (L1 ++ (sz, false) :: (t, true) :: L3) →
      ∃ s', Implicit.myfree s (base + total L1 + 8) = .ok s' ∧
        HeapInv base size s' (L1 ++ (sz + 8 + t, true) :: L3) ∧
        s'.nused + (8 + sz) = s.nused ∧ ∀ f, size ≤ f → validate_heap f s' = .ok true) ∧
    (ExplInv base size s (L1 ++ (sz, false) :: (t, true) :: L3) →
      (L1 ++ (sz, false) :: (t, true) :: L3).length + 1 ≤ fuel →
      ∃ s', Explicit.myfree fuel s (base + total L1 + 8) = .ok s' ∧
        HeapInv base size s' (L1 ++ (sz + 8 + t, true) :: L3) ∧
        s'.nused + (8 + sz) = s.nused ∧ ∀ f, size ≤ f → validate_heap f s' = .ok true) := by
  constructor
  · intro hinv
    obtain ⟨s', hm, hinv'⟩ := Implicit.myfree_coalesce s L1 sz t L3 hinv
    refine ⟨s', hm, hinv', ?_, fun f hf => hinv'.validates f hf⟩
    have h1 := hinv.used
    have h2 := hinv'.used
    rw [usedOf_append] at h1 h2
    simp only [usedOf, Bool.false_eq_true, if_false, if_true] at h1 h2
    omega
  · intro hinv hfuel
    obtain ⟨s', hm, hinv', hu⟩ := Explicit.free_coalesce s L1 sz t L3 fuel hinv hfuel
    exact ⟨s', hm, hinv', hu, fun f hf => hinv'.validates f hf⟩

/-- Witness of C19: the scenario of the specification, `[A: 16 allocated][B: 16 allocated]
[C: 72 free]` on a 128-byte segment at 4096 and `free(B)`, in both files. -/
theorem C19_forward_coalesce_witness :
    (∃ s', Implicit.myfree Implicit.c19_s2 (4096 + total [(16, false)] + 8) = .ok s' ∧
        HeapInv 4096 128 s' ([(16, false)] ++ (16 + 8 + 72, true) :: []) ∧
        s'.nused + (8 + 16) = Implicit.c19_s2.nused ∧
        ∀ f, 128 ≤ f → validate_heap f s' = .ok true) ∧
    (∃ s', Explicit.myfree 64 Explicit.c19_s2 (4096 + total [(16, false)] + 8) = .ok s' ∧
        HeapInv 4096 128 s' ([(16, false)] ++ (16 + 8 + 72, true) :: []) ∧
        s'.nused + (8 + 16) = Explicit.c19_s2.nused ∧
        ∀ f, 128 ≤ f → validate_heap f s' = .ok true) :=
  ⟨(C19_forward_coalesce 4096 128 64 Implicit.c19_s2 [(16, false)] [] 16 72).1
      ⟨⟨by rfl, by rfl, by rfl, by decide, by decide⟩, by simp, by unfold WFBlocks; decide,
        ⟨by rfl, by rfl, by rfl, trivial⟩, by rfl, by rfl⟩,
   (C19_forward_coalesce 4096 128 64 Explicit.c19_s2 [(16, false)] [] 16 72).2
      ⟨⟨⟨by rfl, by rfl, by rfl, by decide, by decide⟩, by simp, by unfold WFBlocks; decide,
        ⟨by rfl, by rfl, by rfl, trivial⟩, by rfl, by rfl⟩, by decide,
        ⟨by rfl, by rfl, trivial⟩, by decide⟩
      (by decide)⟩

/-- C21, the failing case. explicit.c, fresh 96-byte heap at 4096: `a = mymalloc(48)`
(4104), `b = mymalloc(16)` (4160, the payload of the free block of 32 bytes, not placed),
`myfree(a)`, `mymalloc(32)` (4104), `mymalloc(8)` (4144): the blocks are
`[32 allocated][16 allocated][24 free]` (header words 32, 16, 25), `nused` is 72 and
`validate_heap` is true.  `b` is now the address of the header of the free block.
`myfree(b)` reads the word before it as an allocated header of size 0, and stores list
pointers at `b`: afterwards the walk from the base meets the header words 32, 16, 0, 0, 0,
0, that is four blocks of payload size 0, and `validate_heap` is false. -/
theorem C21_explicit_zero_size_blocks :
    Explicit.c21_before = .ok (4104, 4160, 4104, 4144, [32, 16, 25], 72, true) ∧
    Explicit.c21_run = .ok ([32, 16, 0, 0, 0, 0], 64, false) :=
  ⟨by rfl, by rfl⟩

/-- C23, the failing case. explicit.c, fresh 48-byte heap at 4096 (one free block of 40
bytes; the heap and free-list invariants hold and `validate_heap` is true): `mymalloc(24)`
returns 4104 although nothing was placed (the header word at the base is still 41, free,
and `nused` is still 8), and a second `mymalloc(24)` returns 4104 again. -/
theorem C23_explicit_grant_not_placed :
    ExplInv 4096 48 Explicit.c23_s0 [(40, true)] ∧
    Explicit.c23_run = .ok (true, 4104, 41, 8, 4104) :=
  ⟨⟨⟨⟨by rfl, by rfl, by rfl, by decide, by decide⟩, by simp, by unfold WFBlocks; decide,
      ⟨by rfl, trivial⟩, by rfl, by rfl⟩,
    by decide, ⟨by rfl, by rfl, trivial⟩, by decide⟩, by rfl⟩

/-- C24, the failing case. explicit.c, heap `[16 free][32 allocated][56 free]` on a
128-byte segment at 4096 (header words 17, 32, 57, `nused` 56; the heap and free-list
invariants hold and `validate_heap` is true): `mymalloc(16)` places the request in the first block and again in the third, which it
splits: the header words become 16, 32, 16 and 33 (a free rest of 32 bytes at 4184), `nused`
becomes 96, that is 40 more where `need + 8` is 24, and the pointer returned is 4168. -/
theorem C24_explicit_double_placement :
    ExplInv 4096 128 Explicit.c24_state [(16, true), (32, false), (56, true)] ∧
    Explicit.c24_run = .ok (true, [17, 32, 57], 56, 4168, [16, 32, 16, 33], 96) :=
  ⟨⟨⟨⟨by rfl, by rfl, by rfl, by decide, by decide⟩, by simp, by unfold WFBlocks; decide,
      ⟨by rfl, by rfl, by rfl, trivial⟩, by rfl, by rfl⟩,
    by decide, ⟨by rfl, by rfl, by rfl, by rfl, trivial⟩, by decide⟩, by rfl⟩

/-- The size field of a header word: every bit but bit 0. -/
theorem clear_low_testBit (w i : Nat) :
    (w - w % 2).testBit i = (decide (i ≠ 0) && w.testBit i) := by
  cases i with
  | zero =>
    rw [Nat.testBit_zero]
    have : ¬ ((w - w % 2) % 2 = 1) := by omega
    simp [this]
  | succ j =>
    rw [Nat.testBit_succ, Nat.testBit_succ]
    have e : (w - w % 2) / 2 = w / 2 := by omega
    rw [e]
    simp

/-- The free flag of a header word: bit 0. -/
theorem low_bit_testBit (w : Nat) : decide (w % 2 ≠ 0) = w.testBit 0 := by
  rw [Nat.testBit_zero]
  by_cases h : w % 2 = 1
  · simp [h]
  · have h0 : w % 2 = 0 := by omega
    simp [h0]

/-- C22. Header codec, the same text in both files.  For a header address inside the
segment, a size below `2^64` whose low bit is zero and a status `FREE` or `ALLOCATED`:
`set_header` returns, and afterwards `get_size` gives the size and `is_free` holds exactly
for `FREE`.  For every header word, `get_size` returns the word with bit 0 cleared and all
other bits as they are, and `is_free` is bit 0 of the word. -/
theorem C22_header_codec_round_trip (s : Heap) (h size status : Nat) (hin : inSegment s h)
    (hsz : size < WORD) (hlow : size % 2 = 0) (hst : status = FREE ∨ status = ALLOCATED) :
    (∃ s', set_header s h size status = .ok s' ∧ get_size s' h = .ok size ∧
      is_free s' h = .ok (decide (status = FREE))) ∧
    (∃ v, get_size s h = .ok v ∧
      (∀ i, v.testBit i = (decide (i ≠ 0) && (load64 s.mem h).testBit i)) ∧
      is_free s h = .ok ((load64 s.mem h).testBit 0)) := by
  constructor
  · have hin' : inSegment { s with mem := setHdrMem s.mem h size status } h := hin
    refine ⟨_, set_header_ok s h size status hin, ?_, ?_⟩
    · rw [get_size_ok _ _ hin']
      show Except.ok (load64 (setHdrMem s.mem h size status) h
        - load64 (setHdrMem s.mem h size status) h % 2) = _
      rw [load64_setHdrMem_same _ _ _ _ hsz hlow
        (hst.elim (fun e => Or.inr (by rw [e]; rfl)) (fun e => Or.inl (by rw [e]; rfl)))]
      rcases hst with e | e <;> subst e <;> simp [FREE, ALLOCATED] <;> omega
    · rw [is_free_ok _ _ hin']
      show Except.ok (decide (load64 (setHdrMem s.mem h size status) h % 2 ≠ 0)) = _
      rw [load64_setHdrMem_same _ _ _ _ hsz hlow
        (hst.elim (fun e => Or.inr (by rw [e]; rfl)) (fun e => Or.inl (by rw [e]; rfl)))]
      rcases hst with e | e <;> subst e <;> simp [FREE, ALLOCATED] <;> omega
  · refine ⟨_, get_size_ok s h hin, fun i => clear_low_testBit _ i, ?_⟩
    rw [is_free_ok s h hin, low_bit_testBit]

/-- Witness of C22: the header at the base of a fresh 128-byte heap, rewritten as an
allocated block of 40 bytes. -/
theorem C22_header_codec_round_trip_witness :
    (∃ s', set_header Implicit.c1_s0 4096 40 ALLOCATED = .ok s' ∧ get_size s' 4096 = .ok 40 ∧
      is_free s' 4096 = .ok (decide (ALLOCATED = FREE))) ∧
    (∃ v, get_size Implicit.c1_s0 4096 = .ok v ∧
      (∀ i, v.testBit i = (decide (i ≠ 0) && (load64 Implicit.c1_s0.mem 4096).testBit i)) ∧
      is_free Implicit.c1_s0 4096 = .ok ((load64 Implicit.c1_s0.mem 4096).testBit 0)) :=
  C22_header_codec_round_trip Implicit.c1_s0 4096 40 ALLOCATED (by decide) (by decide)
    (by decide) (Or.inr rfl)

/-- A list of blocks is all allocated, or has a first free block. -/
theorem first_free_split : ∀ (L : List Block),
    (∀ b ∈ L, b.2 = false) ∨
    ∃ L1 B L2, L = L1 ++ (B, true) :: L2 ∧ ∀ b ∈ L1, b.2 = false := by
  intro L
  induction L with
  | nil => left; intro b hb; cases hb
  | cons c L ih =>
    obtain ⟨sz, fr⟩ := c
    cases fr with
    | true => right; exact ⟨[], sz, L, rfl, fun b hb => by cases hb⟩
    | false =>
      rcases ih with h | ⟨L1, B, L2, e, h⟩
      · left
        intro b hb
        rcases List.mem_cons.1 hb with hb | hb
        · rw [hb]
        · exact h b hb
      · right
        refine ⟨(sz, false) :: L1, B, L2, by rw [e]; rfl, ?_⟩
        intro b hb
        rcases List.mem_cons.1 hb with hb | hb
        · rw [hb]
        · exact h b hb

/-- With every block allocated, the bytes in use are all the bytes. -/
theorem usedOf_all_allocated (L : List Block) (h : ∀ b ∈ L, b.2 = false) :
    usedOf L = total L := by
  induction L with
  | nil => rfl
  | cons c L ih =>
    have hc := h c (List.mem_cons_self _ _)
    simp only [usedOf, total, hc, Bool.false_eq_true, if_false]
    rw [ih (fun b hb => h b (List.mem_cons_of_mem _ hb))]

theorem freePtrs_all_allocated (L : List Block) (a : Nat) (h : ∀ b ∈ L, b.2 = false) :
    freePtrs a L = [] := by
  induction L generalizing a with
  | nil => rfl
  | cons c L ih =>
    have hc := h c (List.mem_cons_self _ _)
    simp only [freePtrs, hc, Bool.false_eq_true, if_false]
    exact ih _ (fun b hb => h b (List.mem_cons_of_mem _ hb))

/-- Explicit allocator, the capacity inequality read over the integers.  In a state whose
headers tile the segment and whose `nused` is the accounting sum, for a request `n > 0` with
`nused + 8 + need <= segment_size`: the capacity test of `mymalloc` passes, the heap has a
free block, `find_free_block(segment_start)` returns the header of the first one, which is
not null, so the first node of the placement loop is that block's payload (not the address
8 that `header2payload(NULL)` would give) and the header the loop reads first is the header
of that free block. -/
theorem Explicit.capacity_implies_free_block (base size fuel : Nat) (s : Heap) (L : List Block)
    (n : Nat) (hinv : HeapInv base size s L) (hn : n ≠ 0)
    (hcap : s.nused + 8 + Explicit.neededOf n ≤ s.segment_size)
    (hfuel : L.length + 1 ≤ fuel) :
    ¬ (add64 s.nused (add64 HEADER_SIZE (Explicit.neededOf n)) > s.segment_size) ∧
    ∃ L1 B L2, L = L1 ++ (B, true) :: L2 ∧ (∀ b ∈ L1, b.2 = false) ∧
      Explicit.find_free_block fuel s s.segment_start = .ok (base + total L1) ∧
      base + total L1 ≠ NULL ∧
      header2payload (base + total L1) = base + total L1 + 8 ∧
      base + total L1 + 8 ≠ header2payload NULL ∧
      payload2header (base + total L1 + 8) = base + total L1 ∧
      get_size s (base + total L1) = .ok B ∧ is_free s (base + total L1) = .ok true ∧
      Explicit.mymalloc fuel s n =
        (Explicit.malloc_loop fuel fuel s (Explicit.neededOf n) (base + total L1)
          (base + total L1 + 8)).bind (fun r => .ok (header2payload r.1, r.2)) := by
  have hW : WORD = 18446744073709551616 := by decide
  have g := hinv.geom
  have hpos := g.hpos
  have hbd := g.hbound
  have hsize := g.hsize
  have hchk : ¬ (add64 s.nused (add64 HEADER_SIZE (Explicit.neededOf n)) > s.segment_size) := by
    generalize Explicit.neededOf n = nd at hcap
    unfold HEADER_SIZE
    rw [add64_eq 8 nd (by omega), add64_eq _ _ (by omega)]
    omega
  refine ⟨hchk, ?_⟩
  · rcases first_free_split L with hall | ⟨L1, B, L2, e, hL1⟩
    · exfalso
      have := usedOf_all_allocated L hall
      have h1 := hinv.used
      have h2 := hinv.tot
      omega
    · subst e
      have htot := hinv.tot
      rw [total_append] at htot
      simp only [total] at htot
      have hfp : freePtrs base (L1 ++ (B, true) :: L2)
          = (base + total L1 + 8) :: freePtrs (base + total L1 + 8 + B) L2 := by
        rw [freePtrs_append, freePtrs_all_allocated L1 base hL1]
        simp [freePtrs]
      have hfind : Explicit.find_free_block fuel s base = .ok (base + total L1) := by
        obtain ⟨f, hf⟩ : ∃ f, fuel = f + (L1 ++ (B, true) :: L2).length + 1 :=
          ⟨fuel - (L1 ++ (B, true) :: L2).length - 1, by omega⟩
        rw [hf, Explicit.find_free_block_tiles g _ base f hinv.ne hinv.wf hinv.tiles
          (le_refl _) (by rw [hinv.tot]), hfp]
        simp [hdOr]
      have ht2 := ((Tiles_append s.mem L1 _ base).1 hinv.tiles).2
      have hB8 : B % 8 = 0 :=
        hinv.wf (B, true) (List.mem_append_right _ (List.mem_cons_self _ _))
      obtain ⟨r1, r2, _⟩ := head_reads g (B, true) L2 (base + total L1) ht2 hB8 (by omega)
        (by simp only [total]; omega)
      have hh : header2payload (base + total L1) = base + total L1 + 8 := by
        unfold header2payload HEADER_SIZE
        exact add64_eq _ _ (by omega)
      refine ⟨L1, B, L2, rfl, hL1, by rw [g.hstart]; exact hfind, ?_, ?_, ?_, ?_, r1, r2, ?_⟩
      · unfold NULL; omega
      · unfold header2payload HEADER_SIZE
        exact add64_eq _ _ (by omega)
      · have : header2payload NULL = 8 := by decide
        rw [this]
        omega
      · unfold payload2header HEADER_SIZE
        rw [sub64_eq _ _ (by omega) (by omega)]
        omega
      · rw [Explicit.mymalloc_eq fuel s n hn, if_neg hchk, g.hstart, hfind]
        simp only [bind, Except.bind, hh]
        rfl

/-- An instance of `Explicit.capacity_implies_free_block`: the explicit heap
`[16 allocated][96 free]` on a 128-byte segment at 4096 (`nused` 32) and the request
`n = 16`. -/
theorem Explicit.capacity_implies_free_block_example :
    ∃ L1 B L2, [(16, false), (96, true)] = L1 ++ (B, true) :: L2 ∧
      Explicit.find_free_block 3 Explicit.c12_s1 Explicit.c12_s1.segment_start
        = .ok (4096 + total L1) ∧
      get_size Explicit.c12_s1 (4096 + total L1) = .ok B :=
  have h := (Explicit.capacity_implies_free_block 4096 128 3 Explicit.c12_s1
    [(16, false), (96, true)] 16
    ⟨⟨by rfl, by rfl, by rfl, by decide, by decide⟩, by simp, by unfold WFBlocks; decide,
      ⟨by rfl, by rfl, trivial⟩, by rfl, by rfl⟩
    (by decide) (by decide) (by decide)).2
  let ⟨L1, B, L2, e, _, hfind, _, _, _, _, hsz, _⟩ := h
  ⟨L1, B, L2, e, hfind, hsz⟩

/-- C25, the failing case. explicit.c, 88-byte heap at 4096 with the blocks
`[16 allocated][32 allocated][16 allocated]` (reached by `p1 = mymalloc(16)`,
`mymalloc(32)`, `myfree(p1)`, `mymalloc(16)`): the tiling and accounting invariants hold,
`nused` is 88 and `validate_heap` is true.  For `n = 2^64 - 23` the 64-bit sum of the
capacity test wraps to 80 and the test passes, but no block is free:
`find_free_block(segment_start)` returns null, the first node of the placement loop is
`header2payload(NULL)` = 8, its header is the null block, and `mymalloc` reads the header at
address 0: the call does not return. -/
theorem C25_explicit_full_heap_scans_null :
    HeapInv 4096 88 Explicit.c25_state [(16, false), (32, false), (16, false)] ∧
    Explicit.c25_state.nused = 88 ∧
    validate_heap 64 Explicit.c25_state = .ok true ∧
    add64 Explicit.c25_state.nused (add64 HEADER_SIZE (Explicit.neededOf (2 ^ 64 - 23))) = 80 ∧
    ¬ (add64 Explicit.c25_state.nused (add64 HEADER_SIZE (Explicit.neededOf (2 ^ 64 - 23)))
        > Explicit.c25_state.segment_size) ∧
    Explicit.find_free_block 64 Explicit.c25_state Explicit.c25_state.segment_start
      = .ok NULL ∧
    header2payload NULL = 8 ∧ payload2header 8 = NULL ∧
    get_size Explicit.c25_state NULL = .error Err.fault ∧
    Explicit.mymalloc 64 Explicit.c25_state (2 ^ 64 - 23) = .error Err.fault :=
  ⟨⟨⟨by rfl, by rfl, by rfl, by decide, by decide⟩, by simp, by unfold WFBlocks; decide,
      ⟨by rfl, by rfl, by rfl, trivial⟩, by rfl, by rfl⟩,
    by rfl, by rfl, by rfl, by decide, by rfl, by rfl, by rfl, by rfl, by rfl⟩
